import Mathlib

/-!
# A verification development for the recursive-descent parser in `PA2.cpp`

The parser is embedded as pure functions on an explicit parser state.  The
process-wide variables of the source (`defVar`, `SymTable`, `error_count`, the
pushback slot of `namespace Parser`, the `line` counter threaded by reference
and the text written to `cout`) become the fields of `PState`.

Functions that are part of a recursive cycle of the source carry a depth
budget (`Nat`); a budget that runs out yields `Res.timeout`, which is never
confused with a parse result.  A call to `abort()` yields `Res.abort`.
-/

namespace PA2

/-! ## The parser -/

/-- Modelled from the spec: the token kinds of `lex.h` (not part of the
sources at hand).  The closed set of kinds listed in the data model, under the
names the parser uses for them (`SEMICOL`, `ASSOP`, `REM`, `GTHAN`, ...). -/
inductive Token where
  | PROGRAM | END | INT | FLOAT | IF | WRITE
  | SEMICOL | COMMA | LPAREN | RPAREN
  | ASSOP | PLUS | MINUS | MULT | DIV | REM | EQUAL | GTHAN
  | IDENT | ICONST | RCONST | SCONST
  | DONE
  deriving DecidableEq, Repr

/-- Modelled from the spec: the class `LexItem` of `lex.h`: a token kind, a
lexeme and a source line number. -/
structure LexItem where
  token : Token
  lexeme : String
  lnum : Int
  deriving DecidableEq, Repr

/-- The accessor `LexItem::GetToken`. -/
def LexItem.GetToken (t : LexItem) : Token := t.token

/-- The accessor `LexItem::GetLexeme`. -/
def LexItem.GetLexeme (t : LexItem) : String := t.lexeme

/-- The whole mutable state the parser works on.

* `input`: what the lexical analyzer will still deliver, one entry per call of
  `getNextToken`: the token and the value the analyzer leaves in the `line`
  counter when it returns that token;
* `line`: the caller's `int& line`;
* `pushed`: the pair `pushed_back` / `pushed_token` of `namespace Parser`
  (`none` when `pushed_back` is false; the stale `pushed_token` is never read
  then);
* `defVar`, `SymTable`: the two `std::map`s, as finite maps given by lookup;
* `error_count`: the global `int error_count`, which `ParseError` increments
  (32 bits, wrapping around at `INT_MAX`, see `wrapInt`);
* `output`: the lines `ParseError` writes to `cout`, as (line, message). -/
structure PState where
  input : List (LexItem × Int)
  line : Int
  pushed : Option LexItem
  defVar : String → Option Bool
  SymTable : String → Option Token
  error_count : Int
  output : List (Int × String)

/-- Outcome of running a grammar rule. -/
inductive Res where
  /-- The rule returned `ok` and left the state `st`. -/
  | done (ok : Bool) (st : PState)
  /-- The process was stopped by `abort()`. -/
  | abort
  /-- The depth budget of the model ran out (not a behaviour of the code). -/
  | timeout

/-- Modelled from the spec: `getNextToken` of `lex.cpp` (not part of the
sources at hand).  It delivers the next token and advances `line`; at the end
of the input it signals `DONE` and leaves `line` alone. -/
def getNextToken (s : PState) : LexItem × PState :=
  match s.input with
  | [] => (⟨.DONE, "", s.line⟩, s)
  | (t, ln) :: rest => (t, { s with input := rest, line := ln })

/-- The wrapper `Parser::GetNextToken`. -/
def GetNextToken (s : PState) : LexItem × PState :=
  match s.pushed with
  | some t => (t, { s with pushed := none })
  | none => getNextToken s

/-- The function `Parser::PushBackToken`; `none` stands for `abort()`. -/
def PushBackToken (t : LexItem) (s : PState) : Option PState :=
  match s.pushed with
  | some _ => none
  | none => some { s with pushed := some t }

/-- The function `ErrCount`. -/
def ErrCount (s : PState) : Int := s.error_count

/-- The largest value of an `int` (32 bits, two's complement). -/
def INT_MAX : Int := 2147483647

/-- The smallest value of an `int` (32 bits, two's complement). -/
def INT_MIN : Int := -2147483648

/-- The value an `int` holds when a computation gives `x`: `x` itself from
`INT_MIN` to `INT_MAX`, and `x` modulo 2^32 brought back into that range
otherwise.  C++ leaves signed overflow undefined; the wrap-around is what the
increment of an `int` does on the usual two's-complement platforms:
`INT_MAX + 1` gives `INT_MIN`. -/
def wrapInt (x : Int) : Int := (x + 2147483648) % 4294967296 - 2147483648

/-- The function `ParseError`: `error_count++` on an `int`, and one line
written to `cout`. -/
def ParseError (line : Int) (msg : String) (s : PState) : PState :=
  { s with error_count := wrapInt (s.error_count + 1), output := s.output ++ [(line, msg)] }

/-- The statement pair `defVar[name] = true; SymTable[name] = ty;` of
`IdentList`. -/
def PState.declare (s : PState) (name : String) (ty : Token) : PState :=
  { s with
    defVar := fun x => if x = name then some true else s.defVar x,
    SymTable := fun x => if x = name then some ty else s.SymTable x }

/-- The statement pair `ParseError(line, msg); return false;`. -/
def failWith (msg : String) (s : PState) : Res :=
  .done false (ParseError s.line msg s)

/-- The statement `Parser::PushBackToken(t);` followed by the rest `k` of the
function body. -/
def pushBack (t : LexItem) (s : PState) (k : PState → Res) : Res :=
  match PushBackToken t s with
  | none => .abort
  | some s1 => k s1

/-- The pattern `if (!Rule(in, line)) { onFalse } onTrue` applied to the
outcome `r` of the call `Rule(in, line)`: `onFalse` and `onTrue` go on from
the state the call left; `abort()` and an exhausted budget end the run. -/
def Res.andThen (r : Res) (onFalse onTrue : PState → Res) : Res :=
  match r with
  | .done false s => onFalse s
  | .done true s => onTrue s
  | .abort => .abort
  | .timeout => .timeout

/-- The rule `Var ::= IDENT`. -/
def Var (s : PState) : Res :=
  let (t, s) := GetNextToken s
  if t.GetToken ≠ .IDENT then
    pushBack t s (failWith "Incorrect Identifier Statement")
  else
    let name := t.GetLexeme
    if (s.defVar name).isNone then
      failWith "Undeclared Variable" s
    else
      .done true s

mutual

/-- The rule `Factor ::= IDENT | ICONST | RCONST | SCONST | ( Expr )`. -/
def Factor : Nat → PState → Int → Res
  | 0, _, _ => .timeout
  | n + 1, s, _sign =>
    let (t, s) := GetNextToken s
    let tt := t.GetToken
    if tt = .IDENT then
      let name := t.GetLexeme
      if (s.defVar name).isNone then
        failWith "Undeclared Variable" s
      else
        .done true s
    else if tt = .ICONST ∨ tt = .RCONST ∨ tt = .SCONST then
      .done true s
    else if tt ≠ .LPAREN then
      failWith "No left parenthesis" s
    else
      (Expr n s).andThen (failWith "Factor error") fun s =>
      let (t, s) := GetNextToken s
      if t.GetToken ≠ .RPAREN then
        failWith "No right parenthesis" s
      else
        .done true s

/-- The rule `SFactor ::= [ + | - ] Factor`. -/
def SFactor : Nat → PState → Res
  | 0, _ => .timeout
  | n + 1, s =>
    let (t, s) := GetNextToken s
    if t.GetToken = .PLUS then
      Factor n s 1
    else if t.GetToken = .MINUS then
      Factor n s (-1)
    else
      pushBack t s (fun s => Factor n s 1)

/-- The `while` loop of `Term`, entered with the token `t` just read. -/
def TermLoop : Nat → LexItem → PState → Res
  | 0, _, _ => .timeout
  | n + 1, t, s =>
    if t.GetToken = .MULT ∨ t.GetToken = .DIV ∨ t.GetToken = .REM then
      (SFactor n s).andThen (failWith "Missing operand after operator") fun s =>
      let (t, s) := GetNextToken s
      TermLoop n t s
    else
      pushBack t s (.done true)

/-- The rule `Term ::= SFactor { ( * | / | % ) SFactor }`. -/
def Term : Nat → PState → Res
  | 0, _ => .timeout
  | n + 1, s =>
    (SFactor n s).andThen (failWith "Term Error") fun s =>
    let (t, s) := GetNextToken s
    TermLoop n t s

/-- The `while` loop of `Expr`, entered with the token `t` just read. -/
def ExprLoop : Nat → LexItem → PState → Res
  | 0, _, _ => .timeout
  | n + 1, t, s =>
    if t.GetToken = .PLUS ∨ t.GetToken = .MINUS then
      (Term n s).andThen (failWith "Missing operand after operator") fun s =>
      let (t, s) := GetNextToken s
      ExprLoop n t s
    else
      pushBack t s (.done true)

/-- The rule `Expr ::= Term { (+ | -) Term }`. -/
def Expr : Nat → PState → Res
  | 0, _ => .timeout
  | n + 1, s =>
    (Term n s).andThen (failWith "Expression error") fun s =>
    let (t, s) := GetNextToken s
    ExprLoop n t s

end

/-- The `while` loop of `ExprList`, entered with the token `t` just read. -/
def ExprListLoop : Nat → LexItem → PState → Res
  | 0, _, _ => .timeout
  | n + 1, t, s =>
    if t.GetToken = .COMMA then
      (Expr n s).andThen (failWith "Missing Expression after Comma") fun s =>
      let (t, s) := GetNextToken s
      ExprListLoop n t s
    else
      pushBack t s (.done true)

/-- The rule `ExprList ::= Expr { , Expr }`. -/
def ExprList (n : Nat) (s : PState) : Res :=
  (Expr n s).andThen (failWith "Missing Expression") fun s =>
  let (t, s) := GetNextToken s
  ExprListLoop n t s

/-- The rule `LogicExpr ::= Expr ( == | > ) Expr`. -/
def LogicExpr (n : Nat) (s : PState) : Res :=
  (Expr n s).andThen (failWith "Missing Expression in Logic Expression") fun s =>
  let (t, s) := GetNextToken s
  if t.GetToken ≠ .EQUAL ∧ t.GetToken ≠ .GTHAN then
    pushBack t s (failWith "Relational Operator Error")
  else
    (Expr n s).andThen (failWith "Missing Expression after Relational Operator") (.done true)

/-- The rule `AssignStmt ::= Var ASSOP Expr`. -/
def AssignStmt (n : Nat) (s : PState) : Res :=
  (Var s).andThen (.done false) fun s =>
  let (t, s) := GetNextToken s
  if t.GetToken ≠ .ASSOP then
    pushBack t s (failWith "Missing Assignment Operator")
  else
    (Expr n s).andThen (failWith "Missing Expression in Assignment Statement") (.done true)

/-- The rule `WriteStmt ::= WRITE ExprList`. -/
def WriteStmt (n : Nat) (s : PState) : Res :=
  let (t, s) := GetNextToken s
  if t.GetToken ≠ .WRITE then
    pushBack t s (failWith "Missing WRITE Keyword")
  else
    (ExprList n s).andThen (failWith "Missing expression after WRITE") (.done true)

mutual

/-- The rule `ControlStmt ::= AssignStmt | IfStmt | WriteStmt`. -/
def ControlStmt : Nat → PState → Res
  | 0, _ => .timeout
  | n + 1, s =>
    let (t, s) := GetNextToken s
    if t.GetToken = .IDENT then
      pushBack t s (AssignStmt n)
    else if t.GetToken = .IF then
      pushBack t s (IfStmt n)
    else if t.GetToken = .WRITE then
      pushBack t s (WriteStmt n)
    else
      pushBack t s (failWith "Invalid Control Statement")

/-- The rule `IfStmt ::= IF ( LogicExpr ) ControlStmt`. -/
def IfStmt : Nat → PState → Res
  | 0, _ => .timeout
  | n + 1, s =>
    let (t, s) := GetNextToken s
    if t.GetToken ≠ .IF then
      pushBack t s (failWith "Missing IF")
    else
      let (t, s) := GetNextToken s
      if t.GetToken ≠ .LPAREN then
        pushBack t s (failWith "Missing Left Parenthesis of IF")
      else
        (LogicExpr n s).andThen (.done false) fun s =>
        let (t, s) := GetNextToken s
        if t.GetToken ≠ .RPAREN then
          pushBack t s (failWith "Missing Right Parenthesis of IF")
        else
          (ControlStmt n s).andThen (failWith "Missing Statement after IF") (.done true)

end

/-- The rule `IdentList ::= IDENT { , IDENT }`; `tok` is the type token. -/
def IdentList : Nat → PState → LexItem → Res
  | 0, _, _ => .timeout
  | n + 1, s, tok =>
    let typeTok := tok.GetToken
    let (idTok, s) := GetNextToken s
    if idTok.GetToken ≠ .IDENT then
      failWith "Invalid Identifier List" s
    else
      let name := idTok.GetLexeme
      if (s.defVar name).isSome then
        failWith "Variable Redefinition" s
      else
        let s := s.declare name typeTok
        let (t, s) := GetNextToken s
        if t.GetToken = .COMMA then
          IdentList n s tok
        else
          pushBack t s (.done true)

/-- The rule `DeclStmt ::= (INT | FLOAT) IdentList`. -/
def DeclStmt (n : Nat) (s : PState) : Res :=
  let (t, s) := GetNextToken s
  let tt := t.GetToken
  if tt ≠ .INT ∧ tt ≠ .FLOAT then
    pushBack t s (failWith "Incorrect Declaration Type.")
  else
    IdentList n s t

/-- The rule `Stmt ::= DeclStmt | ControlStmt`. -/
def Stmt (n : Nat) (s : PState) : Res :=
  let (t, s) := GetNextToken s
  let tt := t.GetToken
  if tt = .INT ∨ tt = .FLOAT then
    pushBack t s (DeclStmt n)
  else if tt = .IDENT ∨ tt = .IF ∨ tt = .WRITE then
    pushBack t s (ControlStmt n)
  else
    pushBack t s (failWith "Invalid Statement")

/-- The `while (true)` loop of `StmtList`, entered with the token `t` just
read. -/
def StmtListLoop : Nat → LexItem → PState → Res
  | 0, _, _ => .timeout
  | n + 1, t, s =>
    if t.GetToken = .END then
      pushBack t s (.done true)
    else
      pushBack t s fun s =>
        (Stmt n s).andThen (.done false) fun s =>
        let (t, s) := GetNextToken s
        if t.GetToken ≠ .SEMICOL then
          if t.GetToken = .END then
            pushBack t s (failWith "Missing a semicolon.")
          else
            pushBack t s (failWith "Missing a semicolon.")
        else
          let (t, s) := GetNextToken s
          StmtListLoop n t s

/-- The rule `StmtList ::= Stmt ; { Stmt ; }`. -/
def StmtList (n : Nat) (s : PState) : Res :=
  (Stmt n s).andThen (.done false) fun s =>
  let (t, s) := GetNextToken s
  if t.GetToken ≠ .SEMICOL then
    if t.GetToken = .END then
      pushBack t s (failWith "Missing a semicolon.")
    else
      pushBack t s (failWith "Missing a semicolon.")
  else
    let (t, s) := GetNextToken s
    StmtListLoop n t s

/-- The rule `Prog ::= PROGRAM IDENT StmtList END PROGRAM`. -/
def Prog (n : Nat) (s : PState) : Res :=
  let (t, s) := GetNextToken s
  if t.GetToken = .DONE then
    failWith "Empty File" s
  else if t.GetToken ≠ .PROGRAM then
    pushBack t s (failWith "Missing PROGRAM.")
  else
    let (t, s) := GetNextToken s
    if t.GetToken ≠ .IDENT then
      pushBack t s (failWith "Missing Program Name.")
    else
      (StmtList n s).andThen (.done false) fun s =>
      let (t, s) := GetNextToken s
      if t.GetToken ≠ .END then
        pushBack t s (failWith "Missing END at end of program.")
      else
        let (t, s) := GetNextToken s
        if t.GetToken ≠ .PROGRAM then
          pushBack t s (failWith "Missing PROGRAM at the End")
        else
          .done true s

/-- The state a parse starts from: the given lexer input, line counter
`line`, nothing pushed back, both maps empty, no error counted, nothing
printed. -/
def initState (input : List (LexItem × Int)) (line : Int) : PState :=
  { input := input, line := line, pushed := none, defVar := fun _ => none,
    SymTable := fun _ => none, error_count := 0, output := [] }

/-- The state `s` with its token source (pushback slot, remaining lexer input,
line counter) replaced. -/
def PState.seek (s : PState) (p : Option LexItem) (inp : List (LexItem × Int)) (ln : Int) :
    PState :=
  { s with pushed := p, input := inp, line := ln }

/-- The state `s` after declaring the names of a list, first to last. -/
def PState.declareAll (s : PState) (names : List String) (ty : Token) : PState :=
  names.foldl (fun st name => st.declare name ty) s

/-- The lexer entries of `{ , IDENT }`: each pair is a comma and the identifier after it. -/
def commaIdents : List ((LexItem × Int) × (LexItem × Int)) → List (LexItem × Int)
  | [] => []
  | p :: more => p.1 :: p.2 :: commaIdents more

/-! ## The grammar of the language, as derivations over token lists

`D` is the list of the names declared so far. -/

/-- A multiplicative operator: `*`, `/` or `%`. -/
def mulOp (k : Token) : Prop := k = .MULT ∨ k = .DIV ∨ k = .REM

/-- An additive operator: `+` or `-`. -/
def addOp (k : Token) : Prop := k = .PLUS ∨ k = .MINUS

instance (k : Token) : Decidable (mulOp k) := by unfold mulOp; infer_instance

instance (k : Token) : Decidable (addOp k) := by unfold addOp; infer_instance

/-- The nonterminals of the expression part of the grammar. -/
inductive ENT where
  | Factor | SFactor | Term | Expr | ExprList | LogicExpr
  deriving DecidableEq, Repr

/-- Derivations of the expression nonterminals, every operand identifier being
declared in `D`:

* `Factor ::= IDENT | ICONST | RCONST | SCONST | "(" Expr ")"`
* `SFactor ::= ["+"|"-"] Factor`
* `Term ::= SFactor { ("*"|"/"|"%") SFactor }`
* `Expr ::= Term { ("+"|"-") Term }`
* `ExprList ::= Expr { "," Expr }`
* `LogicExpr ::= Expr ("=="|">") Expr` -/
inductive DerivesE (D : List String) : ENT → List LexItem → Prop where
  | ident (t : LexItem) : t.GetToken = .IDENT → t.GetLexeme ∈ D → DerivesE D .Factor [t]
  | iconst (t : LexItem) : t.GetToken = .ICONST → DerivesE D .Factor [t]
  | rconst (t : LexItem) : t.GetToken = .RCONST → DerivesE D .Factor [t]
  | sconst (t : LexItem) : t.GetToken = .SCONST → DerivesE D .Factor [t]
  | paren (l r : LexItem) (e : List LexItem) : l.GetToken = .LPAREN → DerivesE D .Expr e →
      r.GetToken = .RPAREN → DerivesE D .Factor (l :: e ++ [r])
  | unsigned (f : List LexItem) : DerivesE D .Factor f → DerivesE D .SFactor f
  | signed (o : LexItem) (f : List LexItem) : addOp o.GetToken → DerivesE D .Factor f →
      DerivesE D .SFactor (o :: f)
  | termOne (f : List LexItem) : DerivesE D .SFactor f → DerivesE D .Term f
  | termMore (f : List LexItem) (o : LexItem) (t : List LexItem) : DerivesE D .SFactor f →
      mulOp o.GetToken → DerivesE D .Term t → DerivesE D .Term (f ++ o :: t)
  | exprOne (t : List LexItem) : DerivesE D .Term t → DerivesE D .Expr t
  | exprMore (t : List LexItem) (o : LexItem) (e : List LexItem) : DerivesE D .Term t →
      addOp o.GetToken → DerivesE D .Expr e → DerivesE D .Expr (t ++ o :: e)
  | listOne (e : List LexItem) : DerivesE D .Expr e → DerivesE D .ExprList e
  | listMore (e : List LexItem) (c : LexItem) (l : List LexItem) : DerivesE D .Expr e →
      c.GetToken = .COMMA → DerivesE D .ExprList l → DerivesE D .ExprList (e ++ c :: l)
  | logic (a : List LexItem) (o : LexItem) (b : List LexItem) : DerivesE D .Expr a →
      (o.GetToken = .EQUAL ∨ o.GetToken = .GTHAN) → DerivesE D .Expr b →
      DerivesE D .LogicExpr (a ++ o :: b)

/-- The nonterminals of the statement part of the grammar. -/
inductive SNT where
  | IdentList | DeclStmt | AssignStmt | WriteStmt | IfStmt | ControlStmt | Stmt | StmtList | Prog
  deriving DecidableEq, Repr

/-- Derivations of the statement nonterminals.  `DerivesS D nt ts D'`: the
tokens `ts` derive `nt` when the names `D` are declared before, and the names
`D'` are declared after; every declared name is fresh at its declaration and
every identifier used is declared before its use.

* `IdentList ::= IDENT { "," IDENT }`
* `DeclStmt ::= ("INT"|"FLOAT") IdentList`
* `AssignStmt ::= Var "=" Expr`, `Var ::= IDENT`
* `WriteStmt ::= "WRITE" ExprList`
* `IfStmt ::= "IF" "(" LogicExpr ")" ControlStmt`
* `ControlStmt ::= AssignStmt | IfStmt | WriteStmt`
* `Stmt ::= DeclStmt | ControlStmt`
* `StmtList ::= Stmt ";" { Stmt ";" }`
* `Prog ::= "PROGRAM" IDENT StmtList "END" "PROGRAM"` -/
inductive DerivesS : List String → SNT → List LexItem → List String → Prop where
  | identOne (D : List String) (t : LexItem) : t.GetToken = .IDENT → t.GetLexeme ∉ D →
      DerivesS D .IdentList [t] (t.GetLexeme :: D)
  | identMore (D D' : List String) (t c : LexItem) (l : List LexItem) : t.GetToken = .IDENT →
      t.GetLexeme ∉ D → c.GetToken = .COMMA → DerivesS (t.GetLexeme :: D) .IdentList l D' →
      DerivesS D .IdentList (t :: c :: l) D'
  | decl (D D' : List String) (ty : LexItem) (l : List LexItem) :
      (ty.GetToken = .INT ∨ ty.GetToken = .FLOAT) → DerivesS D .IdentList l D' →
      DerivesS D .DeclStmt (ty :: l) D'
  | assign (D : List String) (v a : LexItem) (e : List LexItem) : v.GetToken = .IDENT →
      v.GetLexeme ∈ D → a.GetToken = .ASSOP → DerivesE D .Expr e →
      DerivesS D .AssignStmt (v :: a :: e) D
  | write (D : List String) (w : LexItem) (l : List LexItem) : w.GetToken = .WRITE →
      DerivesE D .ExprList l → DerivesS D .WriteStmt (w :: l) D
  | ifStmt (D : List String) (i l r : LexItem) (c b : List LexItem) : i.GetToken = .IF →
      l.GetToken = .LPAREN → DerivesE D .LogicExpr c → r.GetToken = .RPAREN →
      DerivesS D .ControlStmt b D → DerivesS D .IfStmt (i :: l :: c ++ r :: b) D
  | ctlAssign (D : List String) (ts : List LexItem) : DerivesS D .AssignStmt ts D →
      DerivesS D .ControlStmt ts D
  | ctlIf (D : List String) (ts : List LexItem) : DerivesS D .IfStmt ts D →
      DerivesS D .ControlStmt ts D
  | ctlWrite (D : List String) (ts : List LexItem) : DerivesS D .WriteStmt ts D →
      DerivesS D .ControlStmt ts D
  | stmtDecl (D D' : List String) (ts : List LexItem) : DerivesS D .DeclStmt ts D' →
      DerivesS D .Stmt ts D'
  | stmtCtl (D : List String) (ts : List LexItem) : DerivesS D .ControlStmt ts D →
      DerivesS D .Stmt ts D
  | stmtsOne (D D' : List String) (st : List LexItem) (semi : LexItem) :
      DerivesS D .Stmt st D' → semi.GetToken = .SEMICOL →
      DerivesS D .StmtList (st ++ [semi]) D'
  | stmtsMore (D D1 D2 : List String) (st : List LexItem) (semi : LexItem)
      (l : List LexItem) : DerivesS D .Stmt st D1 → semi.GetToken = .SEMICOL →
      DerivesS D1 .StmtList l D2 → DerivesS D .StmtList (st ++ semi :: l) D2
  | prog (D D' : List String) (p name e p2 : LexItem) (l : List LexItem) :
      p.GetToken = .PROGRAM → name.GetToken = .IDENT → DerivesS D .StmtList l D' →
      e.GetToken = .END → p2.GetToken = .PROGRAM →
      DerivesS D .Prog (p :: name :: l ++ [e, p2]) D'

/-- The declared-name set of a state is the list `D`. -/
def Agree (s : PState) (D : List String) : Prop :=
  ∀ x, (s.defVar x).isSome = true ↔ x ∈ D

/-- The parsing function of an expression nonterminal. -/
def ERun : ENT → Nat → PState → Res
  | .Factor, n, s => Factor n s 1
  | .SFactor, n, s => SFactor n s
  | .Term, n, s => Term n s
  | .Expr, n, s => Expr n s
  | .ExprList, n, s => ExprList n s
  | .LogicExpr, n, s => LogicExpr n s

/-- The token kinds that end an expression nonterminal when they follow it. -/
def EFollow : ENT → Token → Prop
  | .Factor, _ => True
  | .SFactor, _ => True
  | .Term, k => ¬ mulOp k
  | .Expr, k => ¬ mulOp k ∧ ¬ addOp k
  | .ExprList, k => ¬ mulOp k ∧ ¬ addOp k ∧ k ≠ .COMMA
  | .LogicExpr, k => ¬ mulOp k ∧ ¬ addOp k

/-- Where the token source stands after an expression nonterminal followed by
the lexer entry `u`: `Factor` and `SFactor` stop in front of `u`, the other
rules have read `u` and pushed it back. -/
def EPost : ENT → PState → LexItem × Int → List (LexItem × Int) → Int → PState
  | .Factor, s, u, rest, ln => s.seek none (u :: rest) ln
  | .SFactor, s, u, rest, ln => s.seek none (u :: rest) ln
  | _, s, u, rest, _ => s.seek (some u.1) rest u.2
/-- The parsing function of a statement nonterminal; `tok` is the type token
handed to `IdentList`. -/
def SRun (tok : LexItem) : SNT → Nat → PState → Res
  | .IdentList, n, s => IdentList n s tok
  | .DeclStmt, n, s => DeclStmt n s
  | .AssignStmt, n, s => AssignStmt n s
  | .WriteStmt, n, s => WriteStmt n s
  | .IfStmt, n, s => IfStmt n s
  | .ControlStmt, n, s => ControlStmt n s
  | .Stmt, n, s => Stmt n s
  | .StmtList, n, s => StmtList n s
  | .Prog, n, s => Prog n s

/-- The token kinds that end a statement nonterminal when they follow it (the
rule `Prog` reads nothing after its last token, so it has none). -/
def SFollow : SNT → Token → Prop
  | .IdentList, k => k ≠ .COMMA
  | .DeclStmt, k => k ≠ .COMMA
  | .StmtList, k => k = .END
  | .Prog, _ => False
  | _, k => ¬ mulOp k ∧ ¬ addOp k ∧ k ≠ .COMMA
/-- Zero or more groups `Stmt ";"`, threading the declared names like
`DerivesS`. -/
inductive StmtSemis : List String → List LexItem → List String → Prop where
  | nil (D : List String) : StmtSemis D [] D
  | cons (D D1 D2 : List String) (st : List LexItem) (semi : LexItem) (l : List LexItem) :
      DerivesS D .Stmt st D1 → semi.GetToken = .SEMICOL → StmtSemis D1 l D2 →
      StmtSemis D (st ++ semi :: l) D2
/-- The outcome `r` satisfies `Q` if it is a return (nothing is said of a run
that ends in `abort()` or exhausts the budget). -/
def Res.sat (r : Res) (Q : Bool → PState → Prop) : Prop :=
  match r with
  | .done b s => Q b s
  | _ => True

/-- A relation between the state before a rule, its return value and the
state after it that is kept by every step the control rules are made of. -/
structure Compat (R : PState → Bool → PState → Prop) : Prop where
  ret : ∀ s, R s true s
  fail : ∀ s msg, R s false (ParseError s.line msg s)
  failAfter : ∀ s s1 msg, R s false s1 → R s false (ParseError s1.line msg s1)
  seq : ∀ s s1 b s', R s true s1 → R s1 b s' → R s b s'
  get : ∀ s b s', R (GetNextToken s).2 b s' → R s b s'
  push : ∀ t s b s', s.pushed = none → R { s with pushed := some t } b s' → R s b s'

/-- A `Compat` relation that is also kept by a declaration of a fresh name. -/
structure CompatDecl (R : PState → Bool → PState → Prop) extends Compat R : Prop where
  declare : ∀ s name ty b s', (s.defVar name).isSome = false →
    R (s.declare name ty) b s' → R s b s'
/-- The tokens a state will deliver next: the pushed-back token, if any, and
then the tokens of the lexer input. -/
def PState.stream (s : PState) : List LexItem :=
  s.pushed.toList ++ s.input.map Prod.fst

/-- Going from `s` to `s'` consumed exactly the tokens `ts`: the tokens `s`
delivers are `ts` followed by the tokens `s'` delivers, and the lexer input of
`s'` is what is left of the input of `s`.  When the lexer input ran out, the
token source of `s` is padded with the `DONE` tokens the lexer made up. -/
def Consumed (s : PState) (ts : List LexItem) (s' : PState) : Prop :=
  ∃ pad : List LexItem, (∀ t ∈ pad, t.GetToken = .DONE) ∧ (pad ≠ [] → s'.input = []) ∧
    (∃ k, s'.input = s.input.drop k) ∧ s.stream ++ pad = ts ++ s'.stream

/-- The relation "both symbol stores are unchanged". -/
def SameTables (s : PState) (_b : Bool) (s' : PState) : Prop :=
  s'.defVar = s.defVar ∧ s'.SymTable = s.SymTable

/-- The counter after `k` calls of `ParseError`, started at `c`. -/
def countUp : Nat → Int → Int
  | 0, c => c
  | k + 1, c => wrapInt (countUp k c + 1)

/-- The relation between the return value of a rule and the diagnostics of the
call: the output is the output before followed by the diagnostics `ext` the
call recorded, the counter was incremented once for each of them, and the rule
returns `true` exactly when it recorded none. -/
def Reports (s : PState) (b : Bool) (s' : PState) : Prop :=
  ∃ ext : List (Int × String), s'.output = s.output ++ ext ∧
    s'.error_count = countUp ext.length s.error_count ∧ (b = true ↔ ext = [])
/-- What a `true` return of the parsing function of the expression nonterminal
`nt` means: the tokens consumed derive `nt`. -/
def SoundE (D : List String) (nt : ENT) (s : PState) (b : Bool) (s' : PState) : Prop :=
  b = true → ∃ ts, DerivesE D nt ts ∧ Consumed s ts s'

/-- What a `true` return of a loop `{ op X }` means when the loop is entered
with the token just read from `s0`: either that token is no operator and
nothing is consumed, or it is one and the tokens consumed are the operator
followed by a derivation of `nt`. -/
def SoundLoop (D : List String) (isOp : Token → Prop) (nt : ENT) (s0 : PState) (b : Bool)
    (s' : PState) : Prop :=
  b = true → (¬ isOp (GetNextToken s0).1.GetToken ∧ Consumed s0 [] s') ∨
    (isOp (GetNextToken s0).1.GetToken ∧
      ∃ ts, DerivesE D nt ts ∧ Consumed s0 ((GetNextToken s0).1 :: ts) s')

/-- What a `true` return of the parsing function of the statement nonterminal
`nt` means, the names `D` being declared before: the tokens consumed derive
`nt`, and the names declared afterwards are those the derivation gives. -/
def SoundS (D : List String) (nt : SNT) (s : PState) (b : Bool) (s' : PState) : Prop :=
  b = true → ∃ ts D', DerivesS D nt ts D' ∧ Agree s' D' ∧ Consumed s ts s'
/-- What a `true` return of a control rule (one that declares nothing) means:
the tokens consumed derive `nt`, the declared names being `D` throughout. -/
def SoundC (D : List String) (nt : SNT) (s : PState) (b : Bool) (s' : PState) : Prop :=
  b = true → ∃ ts, DerivesS D nt ts D ∧ Consumed s ts s'

/-- What a `true` return of the loop of `StmtList` means when the loop is
entered with the token just read from `s0`: either that token is `END` and
nothing is consumed, or the tokens consumed derive a statement list. -/
def SoundStmtLoop (D : List String) (s0 : PState) (b : Bool) (s' : PState) : Prop :=
  b = true → ((GetNextToken s0).1.GetToken = .END ∧ Agree s' D ∧ Consumed s0 [] s') ∨
    ((GetNextToken s0).1.GetToken ≠ .END ∧
      ∃ ts D', DerivesS D .StmtList ts D' ∧ Agree s' D' ∧ Consumed s0 ts s')
/-! ## Example inputs -/

/-- A lexer entry for a token on line `ln`, the lexer leaving its line counter
on that line. -/
def entry (k : Token) (lexeme : String) (ln : Int) : LexItem × Int :=
  (⟨k, lexeme, ln⟩, ln)

/-- The input `PROGRAM P INT a; a = 5; END PROGRAM`. -/
def declareAndAssign : List (LexItem × Int) :=
  [entry .PROGRAM "PROGRAM" 1, entry .IDENT "P" 1, entry .INT "INT" 1, entry .IDENT "a" 1,
   entry .SEMICOL ";" 1, entry .IDENT "a" 1, entry .ASSOP "=" 1, entry .ICONST "5" 1,
   entry .SEMICOL ";" 1, entry .END "END" 1, entry .PROGRAM "PROGRAM" 1]

/-- The input `PROGRAM P WRITE 1; END PROGRAM`. -/
def writeOnly : List (LexItem × Int) :=
  [entry .PROGRAM "PROGRAM" 1, entry .IDENT "P" 1, entry .WRITE "WRITE" 1,
   entry .ICONST "1" 1, entry .SEMICOL ";" 1, entry .END "END" 1,
   entry .PROGRAM "PROGRAM" 1]

/-- The input `PROGRAM P WRITE 1; END PROGRAM WRITE`: a program followed by a
stray token. -/
def writeThenStray : List (LexItem × Int) :=
  writeOnly ++ [entry .WRITE "WRITE" 1]

/-- The input `PROGRAM P WRITE 1 END PROGRAM`: no semicolon before `END`. -/
def writeNoSemicolon : List (LexItem × Int) :=
  [entry .PROGRAM "PROGRAM" 1, entry .IDENT "P" 1, entry .WRITE "WRITE" 1,
   entry .ICONST "1" 1, entry .END "END" 1, entry .PROGRAM "PROGRAM" 1]

/-- A state whose pushback slot holds a pending `DONE` token. -/
def pendingDone : PState :=
  { initState [] 1 with pushed := some ⟨.DONE, "", 1⟩ }

/-- The number of tokens a state still has to deliver before the lexer only
signals `DONE`: the entries of the lexer input, and the pushed-back token
unless it is a `DONE`. -/
def PState.unread (s : PState) : Nat :=
  s.input.length +
    (match s.pushed with
     | some t => if t.GetToken = .DONE then 0 else 1
     | none => 0)

/-- The runs `F m` of a rule (one for each depth budget `m`) return: from some
budget on they all end with the same return value and state, neither in
`abort()` nor by exhausting the budget; and the state left has at most `bound`
unread tokens. -/
def Returns (F : Nat → Res) (bound : Nat) : Prop :=
  ∃ (b : Bool) (s' : PState) (n : Nat), (∀ m, n ≤ m → F m = .done b s') ∧ s'.unread ≤ bound

/-- The contract between the return value of a rule, its diagnostics and the
error counter, for the runs `F m` (one for each depth budget `m`) of a rule
started in `s`: from some budget on the rule returns, always the same value
and state; and whenever it returns `b` and leaves `s'`, the output has grown
by the diagnostics `ext` of the call, `b` is `true` if and only if there is
none, and the counter was incremented once for each.  When the counter does
not overflow during the call (it starts at `INT_MIN` or above and the counter
plus the number of diagnostics is at most `INT_MAX`), `b` is `true` if and
only if the counter is what it was, on `false` the counter is strictly larger,
and from a counter of 0 the rule returns `true` exactly when `ErrCount` is 0
afterwards. -/
def ErrorContract (F : Nat → Res) (s : PState) : Prop :=
  (∃ (n : Nat) (b : Bool) (s' : PState), ∀ m, n ≤ m → F m = .done b s') ∧
  ∀ (m : Nat) (b : Bool) (s' : PState), F m = .done b s' →
    ∃ ext : List (Int × String), s'.output = s.output ++ ext ∧ (b = true ↔ ext = []) ∧
      ErrCount s' = countUp ext.length (ErrCount s) ∧
      (INT_MIN ≤ ErrCount s → ErrCount s + ext.length ≤ INT_MAX →
        (b = true ↔ ErrCount s' = ErrCount s) ∧ (b = false → ErrCount s < ErrCount s') ∧
        (ErrCount s = 0 → (b = true ↔ ErrCount s' = 0)))

/-- Outcomes compared across depth budgets: a run that exhausted its budget
may become any outcome when the budget grows, every other outcome stays what
it is. -/
def Res.below (r r' : Res) : Prop := r = .timeout ∨ r = r'

/-- The input `PROGRAM P WRITE 1;` and nothing more: the closing `END PROGRAM`
is missing. -/
def writeNoEnd : List (LexItem × Int) :=
  [entry .PROGRAM "PROGRAM" 1, entry .IDENT "P" 1, entry .WRITE "WRITE" 1,
   entry .ICONST "1" 1, entry .SEMICOL ";" 1]

/-- The input `PROGRAM P WRITE 1;` / `PROGRAM`: the `END` before the closing
`PROGRAM` (on line 2) is missing. -/
def writeThenProgram : List (LexItem × Int) :=
  writeNoEnd ++ [entry .PROGRAM "PROGRAM" 2]

/-- The runs `F m` of a rule started in `s` (one for each depth budget `m`)
keep the relation `R`: from some budget on the rule returns, always the same
value and state; and whenever a run returns `b` and leaves `s'`, `R s b s'`
holds. -/
def Keeps (R : PState → Bool → PState → Prop) (F : Nat → Res) (s : PState) : Prop :=
  (∃ (n : Nat) (b : Bool) (s' : PState), ∀ m, n ≤ m → F m = .done b s') ∧
  ∀ (m : Nat) (b : Bool) (s' : PState), F m = .done b s' → R s b s'

/-- The relation "no entry is lost or altered": every name registered before
(a key of `defVar`, which is what `IdentList` tests) has afterwards the
`defVar` value and the `SymTable` entry it had. -/
def KeepsEntries (s : PState) (_b : Bool) (s' : PState) : Prop :=
  ∀ x, (s.defVar x).isSome = true → s'.defVar x = s.defVar x ∧ s'.SymTable x = s.SymTable x

/-- The runs `F m` of a rule (one for each depth budget `m`) never take the
`abort()` branch of `PushBackToken`: no run ends in `abort()`, whatever the
budget, and from some budget on the rule returns, always the same value and
state. -/
def NeverAborts (F : Nat → Res) : Prop :=
  (∀ m, F m ≠ .abort) ∧ ∃ (n : Nat) (b : Bool) (s' : PState), ∀ m, n ≤ m → F m = .done b s'

/-- The outcome `r` is a failure that pushed the token `t` back: the rule
returned `false`, `t` is the pending pushback token, and the next
`GetNextToken` returns `t` again. -/
def PushedBack (r : Res) (t : LexItem) : Prop :=
  ∃ s' : PState, r = .done false s' ∧ s'.pushed = some t ∧ (GetNextToken s').1 = t

/-- The outcome `r` is a failure that pushed nothing back: the rule returned
`false`, the pushback slot is empty and the lexer input is `input`, so the
next `GetNextToken` pulls a new token from the lexer. -/
def NotPushedBack (r : Res) (input : List (LexItem × Int)) : Prop :=
  ∃ s' : PState, r = .done false s' ∧ s'.pushed = none ∧ s'.input = input ∧
    GetNextToken s' = getNextToken s'

/-- The input `5 ;`: a constant where `IdentList` requires an identifier. -/
def constantThenSemicolon : List (LexItem × Int) :=
  [entry .ICONST "5" 1, entry .SEMICOL ";" 1]

/-- The input `; 5`: a semicolon where `Factor` requires an operand or `(`. -/
def semicolonThenConstant : List (LexItem × Int) :=
  [entry .SEMICOL ";" 1, entry .ICONST "5" 1]

/-- The input `( 1 ; 5`: a semicolon where `Factor` requires `)`. -/
def unclosedParenthesis : List (LexItem × Int) :=
  [entry .LPAREN "(" 1, entry .ICONST "1" 1, entry .SEMICOL ";" 1, entry .ICONST "5" 1]

/-- The input `PROGRAM P P = 1; END PROGRAM`: the program name used as a
variable. -/
def programNameUsed : List (LexItem × Int) :=
  [entry .PROGRAM "PROGRAM" 1, entry .IDENT "P" 1, entry .IDENT "P" 1, entry .ASSOP "=" 1,
   entry .ICONST "1" 1, entry .SEMICOL ";" 1, entry .END "END" 1, entry .PROGRAM "PROGRAM" 1]

/-- The two symbol stores are in lockstep: a name is a key of `defVar` if and
only if it is a key of `SymTable`, every `defVar` value is `true`, and every
`SymTable` value is `INT` or `FLOAT`. -/
def Lockstep (s : PState) : Prop :=
  (∀ x, (s.defVar x).isSome = true ↔ (s.SymTable x).isSome = true) ∧
  (∀ x v, s.defVar x = some v → v = true) ∧
  (∀ x K, s.SymTable x = some K → K = .INT ∨ K = .FLOAT)

/-- The relation "lockstep is kept": if the stores were in lockstep before,
they are in lockstep after. -/
def LockstepKept (s : PState) (_b : Bool) (s' : PState) : Prop :=
  Lockstep s → Lockstep s'

/-- The input `PROGRAM P INT a, a; END PROGRAM` of scenario (d): the second
`a` is already declared by the first position of the same list. -/
def declareTwice : List (LexItem × Int) :=
  [entry .PROGRAM "PROGRAM" 1, entry .IDENT "P" 1, entry .INT "INT" 1, entry .IDENT "a" 1,
   entry .COMMA "," 1, entry .IDENT "a" 1, entry .SEMICOL ";" 1, entry .END "END" 1,
   entry .PROGRAM "PROGRAM" 1]

/-- The input `a , b ;`: an identifier list of two names and the semicolon
after it. -/
def twoIdentifiers : List (LexItem × Int) :=
  [entry .IDENT "a" 1, entry .COMMA "," 1, entry .IDENT "b" 1, entry .SEMICOL ";" 1]

/-- A state in which `a` is registered as `INT` and the input is `b = 5 ;`,
the assignment to an undeclared `b` on line 2. -/
def declaredThenUndeclared : PState :=
  (initState [entry .IDENT "b" 2, entry .ASSOP "=" 2, entry .ICONST "5" 2,
    entry .SEMICOL ";" 2] 1).declare "a" .INT

/-- The state at the start of a parse of the empty input in which the counter
`error_count` has reached `INT_MAX`. -/
def counterAtMax : PState :=
  { initState [] 1 with error_count := INT_MAX }

/-- The rule whose runs are `F m` (one for each depth budget `m`), started in
`s`, fails when the diagnostic `msg` is recorded during the call: from some
budget on the rule returns, always the same value and state; and whenever it
returns `b` and leaves `s'`, the output of `s'` is the output of `s` followed
by the diagnostics `ext` recorded during the call (by the rule or by a rule it
called), and if `msg` is among them, `b` is `false`. -/
def FailsOn (msg : String) (F : Nat → Res) (s : PState) : Prop :=
  (∃ (n : Nat) (b : Bool) (s' : PState), ∀ m, n ≤ m → F m = .done b s') ∧
  ∀ (m : Nat) (b : Bool) (s' : PState), F m = .done b s' →
    ∃ ext : List (Int × String), s'.output = s.output ++ ext ∧
      ((∃ d ∈ ext, d.2 = msg) → b = false)

/-- A state in which `a` is registered as `INT` and the input is
`WRITE 1 + b ;`: the undeclared `b` is an operand after an operator. -/
def writeUndeclared : PState :=
  (initState [entry .WRITE "WRITE" 1, entry .ICONST "1" 1, entry .PLUS "+" 1,
    entry .IDENT "b" 1, entry .SEMICOL ";" 1] 1).declare "a" .INT

/-- A state in which `a` is registered as `INT` and the input is
`IF ( b == 1 ) WRITE 1 ;`: the undeclared `b` is an operand of the condition. -/
def ifUndeclared : PState :=
  (initState [entry .IF "IF" 1, entry .LPAREN "(" 1, entry .IDENT "b" 1, entry .EQUAL "==" 1,
    entry .ICONST "1" 1, entry .RPAREN ")" 1, entry .WRITE "WRITE" 1, entry .ICONST "1" 1,
    entry .SEMICOL ";" 1] 1).declare "a" .INT

/-- A state in which `a` is registered as `INT` and the input is
`a = ( b ) ;`: the undeclared `b` is an operand in parentheses. -/
def parenUndeclared : PState :=
  (initState [entry .IDENT "a" 1, entry .ASSOP "=" 1, entry .LPAREN "(" 1, entry .IDENT "b" 1,
    entry .RPAREN ")" 1, entry .SEMICOL ";" 1] 1).declare "a" .INT

@[simp] theorem andThen_true (s : PState) (f g : PState → Res) :
    (Res.done true s).andThen f g = g s := rfl

@[simp] theorem andThen_false (s : PState) (f g : PState → Res) :
    (Res.done false s).andThen f g = f s := rfl

@[simp] theorem andThen_abort (f g : PState → Res) : Res.abort.andThen f g = .abort := rfl

@[simp] theorem andThen_timeout (f g : PState → Res) : Res.timeout.andThen f g = .timeout := rfl

/-! ## The token source -/

theorem GetNextToken_pushed (s : PState) : (GetNextToken s).2.pushed = none := by
  unfold GetNextToken getNextToken
  cases h : s.pushed with
  | some t => rfl
  | none =>
    cases hi : s.input with
    | nil => simp [h]
    | cons x rest => simp

theorem GetNextToken_defVar (s : PState) : (GetNextToken s).2.defVar = s.defVar := by
  unfold GetNextToken getNextToken
  cases s.pushed <;> cases s.input <;> rfl

theorem GetNextToken_SymTable (s : PState) : (GetNextToken s).2.SymTable = s.SymTable := by
  unfold GetNextToken getNextToken
  cases s.pushed <;> cases s.input <;> rfl

theorem GetNextToken_error_count (s : PState) :
    (GetNextToken s).2.error_count = s.error_count := by
  unfold GetNextToken getNextToken
  cases s.pushed <;> cases s.input <;> rfl

theorem GetNextToken_output (s : PState) : (GetNextToken s).2.output = s.output := by
  unfold GetNextToken getNextToken
  cases s.pushed <;> cases s.input <;> rfl

theorem pushBack_none (t : LexItem) (s : PState) (k : PState → Res) (h : s.pushed = none) :
    pushBack t s k = k { s with pushed := some t } := by
  simp [pushBack, PushBackToken, h]

theorem pushBack_get (t : LexItem) (s : PState) (k : PState → Res) :
    pushBack t (GetNextToken s).2 k = k { (GetNextToken s).2 with pushed := some t } :=
  pushBack_none t _ k (GetNextToken_pushed s)

theorem GetNextToken_unget (t : LexItem) (s : PState) (h : s.pushed = none) :
    GetNextToken { s with pushed := some t } = (t, s) := by
  cases s
  simp_all [GetNextToken]

theorem GetNextToken_unget_get (t : LexItem) (s : PState) :
    GetNextToken { (GetNextToken s).2 with pushed := some t } = (t, (GetNextToken s).2) :=
  GetNextToken_unget t _ (GetNextToken_pushed s)

/-! ### Normal forms of the token source -/

@[simp] theorem seek_seek (s : PState) (p q : Option LexItem) (i j : List (LexItem × Int))
    (l m : Int) : (s.seek p i l).seek q j m = s.seek q j m := rfl

@[simp] theorem seek_pushed (s : PState) (p : Option LexItem) (i : List (LexItem × Int))
    (l : Int) : (s.seek p i l).pushed = p := rfl

@[simp] theorem seek_input (s : PState) (p : Option LexItem) (i : List (LexItem × Int))
    (l : Int) : (s.seek p i l).input = i := rfl

@[simp] theorem seek_line (s : PState) (p : Option LexItem) (i : List (LexItem × Int))
    (l : Int) : (s.seek p i l).line = l := rfl

@[simp] theorem seek_defVar (s : PState) (p : Option LexItem) (i : List (LexItem × Int))
    (l : Int) : (s.seek p i l).defVar = s.defVar := rfl

@[simp] theorem seek_SymTable (s : PState) (p : Option LexItem) (i : List (LexItem × Int))
    (l : Int) : (s.seek p i l).SymTable = s.SymTable := rfl

@[simp] theorem seek_error_count (s : PState) (p : Option LexItem) (i : List (LexItem × Int))
    (l : Int) : (s.seek p i l).error_count = s.error_count := rfl

@[simp] theorem seek_output (s : PState) (p : Option LexItem) (i : List (LexItem × Int))
    (l : Int) : (s.seek p i l).output = s.output := rfl

@[simp] theorem Get_seek_some (s : PState) (t : LexItem) (i : List (LexItem × Int)) (l : Int) :
    GetNextToken (s.seek (some t) i l) = (t, s.seek none i l) := rfl

@[simp] theorem Get_seek_cons (s : PState) (x : LexItem × Int) (i : List (LexItem × Int))
    (l : Int) : GetNextToken (s.seek none (x :: i) l) = (x.1, s.seek none i x.2) := rfl

@[simp] theorem Get_seek_nil (s : PState) (l : Int) :
    GetNextToken (s.seek none [] l) = (⟨.DONE, "", l⟩, s.seek none [] l) := rfl

@[simp] theorem pushBack_seek (s : PState) (t : LexItem) (i : List (LexItem × Int)) (l : Int)
    (k : PState → Res) : pushBack t (s.seek none i l) k = k (s.seek (some t) i l) := rfl

@[simp] theorem failWith_seek (s : PState) (p : Option LexItem) (i : List (LexItem × Int))
    (l : Int) (msg : String) :
    failWith msg (s.seek p i l) = .done false ((ParseError l msg s).seek p i l) := rfl

@[simp] theorem declare_seek (s : PState) (p : Option LexItem) (i : List (LexItem × Int))
    (l : Int) (name : String) (ty : Token) :
    (s.seek p i l).declare name ty = (s.declare name ty).seek p i l := rfl

theorem declareAll_defVar (names : List String) (s : PState) (ty : Token) (x : String) :
    (s.declareAll names ty).defVar x = if x ∈ names then some true else s.defVar x := by
  induction names generalizing s with
  | nil => simp [PState.declareAll]
  | cons a as ih =>
    have h := ih (s.declare a ty)
    simp only [PState.declareAll, List.foldl] at h ⊢
    rw [h]
    by_cases h1 : x ∈ as
    · simp [h1]
    · by_cases h2 : x = a <;> simp [h1, h2, PState.declare]

theorem declareAll_SymTable (names : List String) (s : PState) (ty : Token) (x : String) :
    (s.declareAll names ty).SymTable x = if x ∈ names then some ty else s.SymTable x := by
  induction names generalizing s with
  | nil => simp [PState.declareAll]
  | cons a as ih =>
    have h := ih (s.declare a ty)
    simp only [PState.declareAll, List.foldl] at h ⊢
    rw [h]
    by_cases h1 : x ∈ as
    · simp [h1]
    · by_cases h2 : x = a <;> simp [h1, h2, PState.declare]

theorem declareAll_error_count (names : List String) (s : PState) (ty : Token) :
    (s.declareAll names ty).error_count = s.error_count := by
  induction names generalizing s with
  | nil => rfl
  | cons a as ih => simpa [PState.declareAll, List.foldl] using ih (s.declare a ty)

theorem declareAll_output (names : List String) (s : PState) (ty : Token) :
    (s.declareAll names ty).output = s.output := by
  induction names generalizing s with
  | nil => rfl
  | cons a as ih => simpa [PState.declareAll, List.foldl] using ih (s.declare a ty)

section
variable {R : PState → Bool → PState → Prop}

theorem sat_mono {r : Res} {Q Q' : Bool → PState → Prop} (h : r.sat Q)
    (hq : ∀ b s, Q b s → Q' b s) : r.sat Q' := by
  cases r with
  | done b s => exact hq b s h
  | abort => trivial
  | timeout => trivial

theorem sat_iff {r : Res} {Q : Bool → PState → Prop} :
    r.sat Q ↔ ∀ b s, r = .done b s → Q b s := by
  cases r with
  | done b s => simp [Res.sat]
  | abort => simp [Res.sat]
  | timeout => simp [Res.sat]

theorem Compat.sat_get (hR : Compat R) {s : PState} {r : Res}
    (h : r.sat (R (GetNextToken s).2)) : r.sat (R s) :=
  sat_mono h (fun b s' => hR.get s b s')

theorem Compat.sat_ret_get (hR : Compat R) (s : PState) :
    (Res.done true (GetNextToken s).2).sat (R s) :=
  hR.get s _ _ (hR.ret _)

theorem Compat.sat_fail_get (hR : Compat R) (s : PState) (msg : String) :
    (failWith msg (GetNextToken s).2).sat (R s) :=
  hR.get s _ _ (hR.fail _ msg)

theorem Compat.sat_pushBack (hR : Compat R) (t : LexItem) (s : PState) (k : PState → Res)
    (h : (k { s with pushed := some t }).sat (R { s with pushed := some t })) :
    (pushBack t s k).sat (R s) := by
  cases hp : s.pushed with
  | some u => simp [pushBack, PushBackToken, hp, Res.sat]
  | none =>
    rw [pushBack_none t s k hp]
    exact sat_mono h (fun b s' => hR.push t s b s' hp)

theorem Compat.sat_push_fail (hR : Compat R) (t : LexItem) (s : PState) (msg : String) :
    (pushBack t s (failWith msg)).sat (R s) :=
  hR.sat_pushBack t s _ (hR.fail _ msg)

theorem Compat.sat_push_ret (hR : Compat R) (t : LexItem) (s : PState) :
    (pushBack t s (.done true)).sat (R s) :=
  hR.sat_pushBack t s _ (hR.ret _)

theorem Compat.sat_andThen (hR : Compat R) {s : PState} {r : Res} (msg : String)
    (g : PState → Res) (h : r.sat (R s)) (hg : ∀ s1, (g s1).sat (R s1)) :
    (r.andThen (failWith msg) g).sat (R s) := by
  cases r with
  | done b s1 =>
    cases b with
    | false => exact hR.failAfter s s1 msg h
    | true => exact sat_mono (hg s1) (fun b s' => hR.seq s s1 b s' h)
  | abort => trivial
  | timeout => trivial

theorem Compat.sat_andThen' (hR : Compat R) {s : PState} {r : Res}
    (g : PState → Res) (h : r.sat (R s)) (hg : ∀ s1, (g s1).sat (R s1)) :
    (r.andThen (.done false) g).sat (R s) := by
  cases r with
  | done b s1 =>
    cases b with
    | false => exact h
    | true => exact sat_mono (hg s1) (fun b s' => hR.seq s s1 b s' h)
  | abort => trivial
  | timeout => trivial

theorem Compat.expr (hR : Compat R) : ∀ n,
    (∀ s sg, (Factor n s sg).sat (R s)) ∧ (∀ s, (SFactor n s).sat (R s)) ∧
    (∀ t s, (TermLoop n t s).sat (R s)) ∧ (∀ s, (Term n s).sat (R s)) ∧
    (∀ t s, (ExprLoop n t s).sat (R s)) ∧ (∀ s, (Expr n s).sat (R s)) := by
  intro n
  induction n with
  | zero => simp [Factor, SFactor, TermLoop, Term, ExprLoop, Expr, Res.sat]
  | succ n ih =>
    obtain ⟨ihF, ihS, ihTL, ihT, ihEL, ihE⟩ := ih
    refine ⟨?_, ?_, ?_, ?_, ?_, ?_⟩
    · intro s sg
      simp only [Factor]
      split_ifs
      · exact hR.sat_fail_get s _
      · exact hR.sat_ret_get s
      · exact hR.sat_ret_get s
      · exact hR.sat_fail_get s _
      · refine hR.sat_get (hR.sat_andThen _ _ (ihE _) (fun s1 => ?_))
        split_ifs
        · exact hR.sat_fail_get s1 _
        · exact hR.sat_ret_get s1
    · intro s
      simp only [SFactor]
      split_ifs
      · exact hR.sat_get (ihF _ _)
      · exact hR.sat_get (ihF _ _)
      · exact hR.sat_get (hR.sat_pushBack _ _ _ (ihF _ _))
    · intro t s
      simp only [TermLoop]
      split_ifs
      · exact hR.sat_andThen _ _ (ihS _) (fun s1 => hR.sat_get (ihTL _ _))
      · exact hR.sat_push_ret t s
    · intro s
      simp only [Term]
      exact hR.sat_andThen _ _ (ihS _) (fun s1 => hR.sat_get (ihTL _ _))
    · intro t s
      simp only [ExprLoop]
      split_ifs
      · exact hR.sat_andThen _ _ (ihT _) (fun s1 => hR.sat_get (ihEL _ _))
      · exact hR.sat_push_ret t s
    · intro s
      simp only [Expr]
      exact hR.sat_andThen _ _ (ihT _) (fun s1 => hR.sat_get (ihEL _ _))

theorem Compat.sat_Expr (hR : Compat R) (n : Nat) (s : PState) : (Expr n s).sat (R s) :=
  (hR.expr n).2.2.2.2.2 s

theorem Compat.sat_Factor (hR : Compat R) (n : Nat) (s : PState) (sg : Int) :
    (Factor n s sg).sat (R s) :=
  (hR.expr n).1 s sg

theorem Compat.sat_SFactor (hR : Compat R) (n : Nat) (s : PState) : (SFactor n s).sat (R s) :=
  (hR.expr n).2.1 s

theorem Compat.sat_Term (hR : Compat R) (n : Nat) (s : PState) : (Term n s).sat (R s) :=
  (hR.expr n).2.2.2.1 s

theorem Compat.sat_ExprListLoop (hR : Compat R) (n : Nat) :
    ∀ t s, (ExprListLoop n t s).sat (R s) := by
  induction n with
  | zero => simp [ExprListLoop, Res.sat]
  | succ n ih =>
    intro t s
    simp only [ExprListLoop]
    split_ifs
    · exact hR.sat_andThen _ _ (hR.sat_Expr _ _) (fun s1 => hR.sat_get (ih _ _))
    · exact hR.sat_push_ret t s

theorem Compat.sat_ExprList (hR : Compat R) (n : Nat) (s : PState) : (ExprList n s).sat (R s) := by
  simp only [ExprList]
  exact hR.sat_andThen _ _ (hR.sat_Expr _ _) (fun s1 => hR.sat_get (hR.sat_ExprListLoop _ _ _))

theorem Compat.sat_LogicExpr (hR : Compat R) (n : Nat) (s : PState) :
    (LogicExpr n s).sat (R s) := by
  simp only [LogicExpr]
  refine hR.sat_andThen _ _ (hR.sat_Expr _ _) (fun s1 => ?_)
  split_ifs
  · exact hR.sat_get (hR.sat_push_fail _ _ _)
  · exact hR.sat_get (hR.sat_andThen _ _ (hR.sat_Expr _ _) (fun s2 => hR.ret s2))

theorem Compat.sat_Var (hR : Compat R) (s : PState) : (Var s).sat (R s) := by
  simp only [Var]
  split_ifs
  · exact hR.sat_get (hR.sat_push_fail _ _ _)
  · exact hR.sat_fail_get s _
  · exact hR.sat_ret_get s

theorem Compat.sat_AssignStmt (hR : Compat R) (n : Nat) (s : PState) :
    (AssignStmt n s).sat (R s) := by
  simp only [AssignStmt]
  refine hR.sat_andThen' _ (hR.sat_Var _) (fun s1 => ?_)
  split_ifs
  · exact hR.sat_get (hR.sat_push_fail _ _ _)
  · exact hR.sat_get (hR.sat_andThen _ _ (hR.sat_Expr _ _) (fun s2 => hR.ret s2))

theorem Compat.sat_WriteStmt (hR : Compat R) (n : Nat) (s : PState) :
    (WriteStmt n s).sat (R s) := by
  simp only [WriteStmt]
  split_ifs
  · exact hR.sat_get (hR.sat_push_fail _ _ _)
  · exact hR.sat_get (hR.sat_andThen _ _ (hR.sat_ExprList _ _) (fun s2 => hR.ret s2))

theorem Compat.control (hR : Compat R) : ∀ n,
    (∀ s, (ControlStmt n s).sat (R s)) ∧ (∀ s, (IfStmt n s).sat (R s)) := by
  intro n
  induction n with
  | zero => simp [ControlStmt, IfStmt, Res.sat]
  | succ n ih =>
    obtain ⟨ihC, ihI⟩ := ih
    refine ⟨?_, ?_⟩
    · intro s
      simp only [ControlStmt]
      split_ifs
      · exact hR.sat_get (hR.sat_pushBack _ _ _ (hR.sat_AssignStmt _ _))
      · exact hR.sat_get (hR.sat_pushBack _ _ _ (ihI _))
      · exact hR.sat_get (hR.sat_pushBack _ _ _ (hR.sat_WriteStmt _ _))
      · exact hR.sat_get (hR.sat_push_fail _ _ _)
    · intro s
      simp only [IfStmt]
      split_ifs
      · exact hR.sat_get (hR.sat_push_fail _ _ _)
      · exact hR.sat_get (hR.sat_get (hR.sat_push_fail _ _ _))
      · refine hR.sat_get (hR.sat_get (hR.sat_andThen' _ (hR.sat_LogicExpr _ _) (fun s1 => ?_)))
        split_ifs
        · exact hR.sat_get (hR.sat_push_fail _ _ _)
        · exact hR.sat_get (hR.sat_andThen _ _ (ihC _) (fun s2 => hR.ret s2))

theorem Compat.sat_ControlStmt (hR : Compat R) (n : Nat) (s : PState) :
    (ControlStmt n s).sat (R s) :=
  (hR.control n).1 s

theorem Compat.sat_IfStmt (hR : Compat R) (n : Nat) (s : PState) : (IfStmt n s).sat (R s) :=
  (hR.control n).2 s

theorem CompatDecl.sat_IdentList (hR : CompatDecl R) (n : Nat) :
    ∀ s tok, (IdentList n s tok).sat (R s) := by
  induction n with
  | zero => simp [IdentList, Res.sat]
  | succ n ih =>
    intro s tok
    simp only [IdentList]
    split_ifs with h1 h2 h3
    · exact hR.sat_fail_get s _
    · exact hR.sat_fail_get s _
    · refine hR.sat_get (sat_mono (hR.toCompat.sat_get (ih _ tok))
        (fun b s' => hR.declare _ _ _ b s' (by simpa using h2)))
    · refine hR.sat_get (sat_mono (hR.toCompat.sat_get (hR.sat_push_ret _ _))
        (fun b s' => hR.declare _ _ _ b s' (by simpa using h2)))

theorem CompatDecl.sat_DeclStmt (hR : CompatDecl R) (n : Nat) (s : PState) :
    (DeclStmt n s).sat (R s) := by
  simp only [DeclStmt]
  split_ifs
  · exact hR.sat_get (hR.sat_push_fail _ _ _)
  · exact hR.sat_get (hR.sat_IdentList _ _ _)

theorem CompatDecl.sat_Stmt (hR : CompatDecl R) (n : Nat) (s : PState) : (Stmt n s).sat (R s) := by
  simp only [Stmt]
  split_ifs
  · exact hR.sat_get (hR.sat_pushBack _ _ _ (hR.sat_DeclStmt _ _))
  · exact hR.sat_get (hR.sat_pushBack _ _ _ (hR.sat_ControlStmt _ _))
  · exact hR.sat_get (hR.sat_push_fail _ _ _)

theorem CompatDecl.sat_StmtListLoop (hR : CompatDecl R) (n : Nat) :
    ∀ t s, (StmtListLoop n t s).sat (R s) := by
  induction n with
  | zero => simp [StmtListLoop, Res.sat]
  | succ n ih =>
    intro t s
    simp only [StmtListLoop]
    split_ifs
    · exact hR.sat_push_ret t s
    · refine hR.sat_pushBack _ _ _ (hR.sat_andThen' _ (hR.sat_Stmt _ _) (fun s1 => ?_))
      split_ifs
      · exact hR.sat_get (hR.sat_push_fail _ _ _)
      · exact hR.sat_get (hR.sat_push_fail _ _ _)
      · exact hR.sat_get (hR.toCompat.sat_get (ih _ _))

theorem CompatDecl.sat_StmtList (hR : CompatDecl R) (n : Nat) (s : PState) :
    (StmtList n s).sat (R s) := by
  simp only [StmtList]
  refine hR.sat_andThen' _ (hR.sat_Stmt _ _) (fun s1 => ?_)
  split_ifs
  · exact hR.sat_get (hR.sat_push_fail _ _ _)
  · exact hR.sat_get (hR.sat_push_fail _ _ _)
  · exact hR.sat_get (hR.toCompat.sat_get (hR.sat_StmtListLoop _ _ _))

theorem CompatDecl.sat_Prog (hR : CompatDecl R) (n : Nat) (s : PState) : (Prog n s).sat (R s) := by
  simp only [Prog]
  split_ifs
  · exact hR.sat_fail_get s _
  · exact hR.sat_get (hR.sat_push_fail _ _ _)
  · exact hR.sat_get (hR.toCompat.sat_get (hR.sat_push_fail _ _ _))
  · refine hR.sat_get (hR.toCompat.sat_get (hR.sat_andThen' _ (hR.sat_StmtList _ _) (fun s1 => ?_)))
    split_ifs
    · exact hR.sat_get (hR.sat_push_fail _ _ _)
    · exact hR.sat_get (hR.toCompat.sat_get (hR.sat_push_fail _ _ _))
    · exact hR.sat_get (hR.toCompat.sat_get (hR.ret _))

end

theorem sameTables_compat : Compat SameTables where
  ret := fun _ => ⟨rfl, rfl⟩
  fail := fun _ _ => ⟨rfl, rfl⟩
  failAfter := fun _ _ _ h => h
  seq := fun _ _ _ _ h1 h2 => ⟨h2.1.trans h1.1, h2.2.trans h1.2⟩
  get := fun s _ _ h => ⟨h.1.trans (GetNextToken_defVar s), h.2.trans (GetNextToken_SymTable s)⟩
  push := fun _ _ _ _ _ h => h

@[simp] theorem wrapInt_one : wrapInt 1 = 1 := by decide

theorem wrapInt_of_range {x : Int} (h1 : INT_MIN ≤ x) (h2 : x ≤ INT_MAX) : wrapInt x = x := by
  unfold INT_MIN at h1
  unfold INT_MAX at h2
  unfold wrapInt
  omega

theorem countUp_of_range : ∀ (k : Nat) (c : Int), INT_MIN ≤ c → c + k ≤ INT_MAX →
    countUp k c = c + k := by
  intro k
  induction k with
  | zero => intro c _ _; simp [countUp]
  | succ k ih =>
    intro c h1 h2
    have hk : countUp k c = c + k := ih c h1 (by push_cast at h2; omega)
    rw [countUp, hk, wrapInt_of_range (by omega) (by push_cast at h2; omega)]
    push_cast
    ring

theorem reports_compat : CompatDecl Reports where
  ret := fun _ => ⟨[], by simp, rfl, by simp⟩
  fail := fun s msg => ⟨[(s.line, msg)], rfl, rfl, by simp⟩
  failAfter := fun s s1 msg h => by
    obtain ⟨ext, ho, hc, -⟩ := h
    exact ⟨ext ++ [(s1.line, msg)], by simp [ParseError, ho],
      by simp [ParseError, hc, countUp], by simp⟩
  seq := fun s s1 b s' h1 h2 => by
    obtain ⟨ext1, ho1, hc1, hb1⟩ := h1
    obtain rfl : ext1 = [] := hb1.1 rfl
    obtain ⟨ext, ho, hc, hb⟩ := h2
    refine ⟨ext, ?_, ?_, hb⟩
    · rw [ho, ho1, List.append_nil]
    · rw [hc, hc1]; rfl
  get := fun s b s' h => by
    obtain ⟨ext, ho, hc, hb⟩ := h
    exact ⟨ext, by rw [ho, GetNextToken_output], by rw [hc, GetNextToken_error_count], hb⟩
  push := fun t s b s' _ h => h
  declare := fun s name ty b s' _ h => h

theorem undeclared_operand (n : Nat) (s : PState)
    (hk : (GetNextToken s).1.GetToken = .IDENT)
    (hu : s.defVar (GetNextToken s).1.GetLexeme = none) :
    Factor (n + 1) s 1
      = .done false (ParseError (GetNextToken s).2.line "Undeclared Variable" (GetNextToken s).2) ∧
    Expr (n + 4) s = .done false
      (ParseError (GetNextToken s).2.line "Expression error"
        (ParseError (GetNextToken s).2.line "Term Error"
          (ParseError (GetNextToken s).2.line "Undeclared Variable" (GetNextToken s).2))) := by
  have hF : ∀ m, Factor (m + 1) s 1 = .done false
      (ParseError (GetNextToken s).2.line "Undeclared Variable" (GetNextToken s).2) := by
    intro m
    simp [Factor, hk, hu, GetNextToken_defVar, failWith]
  have hF' : ∀ m, Factor (m + 1) { (GetNextToken s).2 with pushed := some (GetNextToken s).1 } 1
      = Factor (m + 1) s 1 := by
    intro m
    simp [Factor, GetNextToken_unget_get]
  have hS : SFactor (n + 2) s = .done false
      (ParseError (GetNextToken s).2.line "Undeclared Variable" (GetNextToken s).2) := by
    simp only [SFactor, hk, pushBack_get, hF', hF]
    simp
  refine ⟨hF n, ?_⟩
  simp [Expr, Term, hS, failWith, ParseError]

theorem IdentList_seek (more : List ((LexItem × Int) × (LexItem × Int)))
    (k : Nat) (tok : LexItem) (first u : LexItem × Int) (rest : List (LexItem × Int))
    (s : PState) (ln : Int)
    (h1 : first.1.GetToken = .IDENT)
    (hm : ∀ p ∈ more, p.1.1.GetToken = .COMMA ∧ p.2.1.GetToken = .IDENT)
    (hnd : (first.1.GetLexeme :: more.map fun p => p.2.1.GetLexeme).Nodup)
    (hfresh : ∀ x ∈ first.1.GetLexeme :: more.map fun p => p.2.1.GetLexeme, s.defVar x = none)
    (hu : u.1.GetToken ≠ .COMMA) :
    IdentList (more.length + 1 + k)
        (s.seek none (first :: (commaIdents more ++ u :: rest)) ln) tok
      = .done true ((s.declareAll (first.1.GetLexeme :: more.map fun p => p.2.1.GetLexeme)
          tok.GetToken).seek (some u.1) rest u.2) := by
  induction more generalizing s first ln with
  | nil =>
    have hf : s.defVar first.1.GetLexeme = none := hfresh _ (by simp)
    simp only [List.length_nil, Nat.zero_add, commaIdents, List.nil_append]
    rw [Nat.add_comm]
    simp [IdentList, h1, hf, hu, PState.declareAll]
  | cons p more ih =>
    have hf : s.defVar first.1.GetLexeme = none := hfresh _ (by simp)
    obtain ⟨hc, hi⟩ := hm p (by simp)
    simp only [List.map_cons, List.nodup_cons] at hnd
    have hfuel : (p :: more).length + 1 + k = (more.length + 1 + k) + 1 := by
      simp only [List.length_cons]; omega
    rw [hfuel]
    simp only [IdentList, commaIdents, List.cons_append, Get_seek_some, h1, hc, seek_defVar, hf,
      Get_seek_cons, declare_seek, ne_eq, not_true_eq_false, if_false, Option.isSome_none,
      Bool.false_eq_true, if_true]
    have := ih p.2 (s.declare first.1.GetLexeme tok.GetToken) p.1.2 hi
      (fun q hq => hm q (by simp [hq])) (List.nodup_cons.mpr hnd.2)
      (by
        intro x hx
        have hne : x ≠ first.1.GetLexeme := by
          rintro rfl
          exact hnd.1 (by simpa using hx)
        simp only [PState.declare, hne, if_false]
        exact hfresh x (List.mem_cons_of_mem _ (by simpa using hx)))
    simpa [PState.declareAll] using this

theorem Factor_sign (n : Nat) (s : PState) (sg : Int) : Factor n s sg = Factor n s 1 := by
  cases n <;> simp [Factor]

theorem TermLoop_of_Term (m : Nat) (o : LexItem) (s s' : PState) (ho : mulOp o.GetToken)
    (h : Term (m + 1) s = .done true s') : TermLoop (m + 1) o s = .done true s' := by
  unfold mulOp at ho
  simp only [Term] at h
  simp only [TermLoop, ho, if_true]
  cases hs : SFactor m s with
  | done b s1 => cases b <;> simp_all [failWith]
  | abort => simp_all
  | timeout => simp_all

theorem ExprLoop_of_Expr (m : Nat) (o : LexItem) (s s' : PState) (ho : addOp o.GetToken)
    (h : Expr (m + 1) s = .done true s') : ExprLoop (m + 1) o s = .done true s' := by
  unfold addOp at ho
  simp only [Expr] at h
  simp only [ExprLoop, ho, if_true]
  cases hs : Term m s with
  | done b s1 => cases b <;> simp_all [failWith]
  | abort => simp_all
  | timeout => simp_all

theorem ExprListLoop_of_ExprList (m : Nat) (c : LexItem) (s s' : PState)
    (hc : c.GetToken = .COMMA)
    (h : ExprList m s = .done true s') : ExprListLoop (m + 1) c s = .done true s' := by
  simp only [ExprList] at h
  simp only [ExprListLoop, hc, if_true]
  cases hs : Expr m s with
  | done b s1 => cases b <;> simp_all [failWith]
  | abort => simp_all
  | timeout => simp_all

theorem Agree.mem {s : PState} {D : List String} (h : Agree s D) {x : String} (hx : x ∈ D) :
    (s.defVar x).isNone = false := by
  have := (h x).2 hx
  cases hd : s.defVar x <;> simp_all

theorem map_fst_cons {pre : List (LexItem × Int)} {t : LexItem} {ts : List LexItem}
    (h : pre.map Prod.fst = t :: ts) :
    ∃ x tl, pre = x :: tl ∧ x.1 = t ∧ tl.map Prod.fst = ts := by
  rcases pre with _ | ⟨x, tl⟩
  · simp at h
  · simp only [List.map_cons, List.cons.injEq] at h
    exact ⟨x, tl, rfl, h.1, h.2⟩

theorem map_fst_nil {pre : List (LexItem × Int)} (h : pre.map Prod.fst = []) : pre = [] := by
  simpa using h

theorem map_fst_append {pre : List (LexItem × Int)} {a b : List LexItem}
    (h : pre.map Prod.fst = a ++ b) :
    ∃ pa pb, pre = pa ++ pb ∧ pa.map Prod.fst = a ∧ pb.map Prod.fst = b :=
  List.map_eq_append_iff.mp h

theorem Factor_fresh (n : Nat) (s : PState) (x : LexItem × Int) (i : List (LexItem × Int))
    (l : Int) (sg : Int) :
    Factor n (s.seek (some x.1) i x.2) sg = Factor n (s.seek none (x :: i) l) sg := by
  cases n <;> simp [Factor]

theorem DerivesE.factor_head {D : List String} {ts : List LexItem} (h : DerivesE D .Factor ts) :
    ∃ t tl, ts = t :: tl ∧ ¬ addOp t.GetToken := by
  cases h with
  | ident t hk _ => exact ⟨t, [], rfl, by simp [addOp, hk]⟩
  | iconst t hk => exact ⟨t, [], rfl, by simp [addOp, hk]⟩
  | rconst t hk => exact ⟨t, [], rfl, by simp [addOp, hk]⟩
  | sconst t hk => exact ⟨t, [], rfl, by simp [addOp, hk]⟩
  | paren l r e hl _ _ => exact ⟨l, e ++ [r], rfl, by simp [addOp, hl]⟩

theorem complete_E {D : List String} {nt : ENT} {ts : List LexItem} (h : DerivesE D nt ts) :
    ∀ (s : PState) (ln : Int) (pre : List (LexItem × Int)) (u : LexItem × Int)
      (rest : List (LexItem × Int)), pre.map Prod.fst = ts → Agree s D →
      EFollow nt u.1.GetToken →
      ∃ n ln', ∀ m, n ≤ m →
        ERun nt m (s.seek none (pre ++ u :: rest) ln) = .done true (EPost nt s u rest ln') := by
  induction h with
  | ident t hk hd =>
    intro s ln pre u rest hpre hag _
    obtain ⟨x, tl, rfl, rfl, htl⟩ := map_fst_cons hpre
    obtain rfl := map_fst_nil htl
    refine ⟨1, x.2, fun m hm => ?_⟩
    obtain ⟨m, rfl⟩ : ∃ k, m = k + 1 := ⟨m - 1, by omega⟩
    simp [ERun, EPost, Factor, hk, hag.mem hd]
  | iconst t hk =>
    intro s ln pre u rest hpre hag _
    obtain ⟨x, tl, rfl, rfl, htl⟩ := map_fst_cons hpre
    obtain rfl := map_fst_nil htl
    refine ⟨1, x.2, fun m hm => ?_⟩
    obtain ⟨m, rfl⟩ : ∃ k, m = k + 1 := ⟨m - 1, by omega⟩
    simp [ERun, EPost, Factor, hk]
  | rconst t hk =>
    intro s ln pre u rest hpre hag _
    obtain ⟨x, tl, rfl, rfl, htl⟩ := map_fst_cons hpre
    obtain rfl := map_fst_nil htl
    refine ⟨1, x.2, fun m hm => ?_⟩
    obtain ⟨m, rfl⟩ : ∃ k, m = k + 1 := ⟨m - 1, by omega⟩
    simp [ERun, EPost, Factor, hk]
  | sconst t hk =>
    intro s ln pre u rest hpre hag _
    obtain ⟨x, tl, rfl, rfl, htl⟩ := map_fst_cons hpre
    obtain rfl := map_fst_nil htl
    refine ⟨1, x.2, fun m hm => ?_⟩
    obtain ⟨m, rfl⟩ : ∃ k, m = k + 1 := ⟨m - 1, by omega⟩
    simp [ERun, EPost, Factor, hk]
  | paren l r e hl _ hr ih =>
    intro s ln pre u rest hpre hag _
    rw [List.cons_append] at hpre
    obtain ⟨x, tl, rfl, rfl, htl⟩ := map_fst_cons hpre
    obtain ⟨pe, py, rfl, rfl, hy⟩ := map_fst_append htl
    obtain ⟨y, tl2, rfl, rfl, htl2⟩ := map_fst_cons hy
    obtain rfl := map_fst_nil htl2
    obtain ⟨n, ln', hn⟩ := ih s x.2 pe y (u :: rest) rfl hag
      (by simp [EFollow, mulOp, addOp, hr])
    refine ⟨n + 1, y.2, fun m hm => ?_⟩
    obtain ⟨m, rfl⟩ : ∃ k, m = k + 1 := ⟨m - 1, by omega⟩
    have := hn m (by omega)
    simp only [ERun, EPost] at this
    simp [ERun, EPost, Factor, hl, hr, this]
  | unsigned f hf ih =>
    intro s ln pre u rest hpre hag hfo
    obtain ⟨t, tl, rfl, hna⟩ := hf.factor_head
    obtain ⟨x, ptl, rfl, rfl, htl⟩ := map_fst_cons hpre
    obtain ⟨n, ln', hn⟩ := ih s ln (x :: ptl) u rest hpre hag trivial
    refine ⟨n + 1, ln', fun m hm => ?_⟩
    obtain ⟨m, rfl⟩ : ∃ k, m = k + 1 := ⟨m - 1, by omega⟩
    have := hn m (by omega)
    simp only [ERun, EPost] at this
    simp only [addOp, not_or] at hna
    simp only [ERun, EPost, SFactor, List.cons_append, Get_seek_cons, hna.1, hna.2, if_false,
      pushBack_seek]
    rw [Factor_fresh m s x _ ln]
    exact this
  | signed o f ho hf ih =>
    intro s ln pre u rest hpre hag hfo
    obtain ⟨x, ptl, rfl, rfl, htl⟩ := map_fst_cons hpre
    obtain ⟨n, ln', hn⟩ := ih s x.2 ptl u rest htl hag trivial
    refine ⟨n + 1, ln', fun m hm => ?_⟩
    obtain ⟨m, rfl⟩ : ∃ k, m = k + 1 := ⟨m - 1, by omega⟩
    have := hn m (by omega)
    simp only [ERun, EPost] at this
    simp only [ERun, EPost, SFactor, List.cons_append, Get_seek_cons]
    rcases ho with ho | ho
    · simp only [ho, if_true]; exact this
    · simp only [ho, if_true]
      rw [Factor_sign m _ (-1)]
      exact this
  | termOne f hf ih =>
    intro s ln pre u rest hpre hag hfo
    obtain ⟨n, ln', hn⟩ := ih s ln pre u rest hpre hag trivial
    refine ⟨n + 2, ln', fun m hm => ?_⟩
    obtain ⟨m, rfl⟩ : ∃ k, m = k + 2 := ⟨m - 2, by omega⟩
    have := hn (m + 1) (by omega)
    simp only [ERun, EPost] at this
    simp only [EFollow, mulOp] at hfo
    simp [ERun, EPost, Term, this, TermLoop, hfo]
  | termMore f o t hf ho ht ihf iht =>
    intro s ln pre u rest hpre hag hfo
    obtain ⟨pf, pb, rfl, rfl, hb⟩ := map_fst_append hpre
    obtain ⟨x, pt, rfl, rfl, rfl⟩ := map_fst_cons hb
    obtain ⟨n1, ln1, hn1⟩ := ihf s ln pf x (pt ++ u :: rest) rfl hag trivial
    obtain ⟨n2, ln2, hn2⟩ := iht s x.2 pt u rest rfl hag hfo
    refine ⟨n1 + n2 + 2, ln2, fun m hm => ?_⟩
    obtain ⟨m, rfl⟩ : ∃ k, m = k + 2 := ⟨m - 2, by omega⟩
    have h1 := hn1 (m + 1) (by omega)
    have h2 := hn2 (m + 1) (by omega)
    simp only [ERun, EPost] at h1 h2
    have h3 := TermLoop_of_Term m x.1 _ _ ho h2
    simp only [andThen_true, ERun, EPost, Term, List.append_assoc, List.cons_append, h1, Get_seek_cons]
    exact h3
  | exprOne t ht ih =>
    intro s ln pre u rest hpre hag hfo
    obtain ⟨n, ln', hn⟩ := ih s ln pre u rest hpre hag hfo.1
    refine ⟨n + 2, ln', fun m hm => ?_⟩
    obtain ⟨m, rfl⟩ : ∃ k, m = k + 2 := ⟨m - 2, by omega⟩
    have := hn (m + 1) (by omega)
    simp only [ERun, EPost] at this
    simp only [EFollow, addOp] at hfo
    simp [ERun, EPost, Expr, this, ExprLoop, hfo.2]
  | exprMore t o e ht ho he iht ihe =>
    intro s ln pre u rest hpre hag hfo
    obtain ⟨pf, pb, rfl, rfl, hb⟩ := map_fst_append hpre
    obtain ⟨x, pt, rfl, rfl, rfl⟩ := map_fst_cons hb
    obtain ⟨n1, ln1, hn1⟩ := iht s ln pf x (pt ++ u :: rest) rfl hag
      (by simp only [EFollow, mulOp]; rcases ho with h | h <;> simp [h])
    obtain ⟨n2, ln2, hn2⟩ := ihe s x.2 pt u rest rfl hag hfo
    refine ⟨n1 + n2 + 2, ln2, fun m hm => ?_⟩
    obtain ⟨m, rfl⟩ : ∃ k, m = k + 2 := ⟨m - 2, by omega⟩
    have h1 := hn1 (m + 1) (by omega)
    have h2 := hn2 (m + 1) (by omega)
    simp only [ERun, EPost] at h1 h2
    have h3 := ExprLoop_of_Expr m x.1 _ _ ho h2
    simp only [andThen_true, ERun, EPost, Expr, List.append_assoc, List.cons_append, h1, Get_seek_cons]
    exact h3
  | listOne e he ih =>
    intro s ln pre u rest hpre hag hfo
    obtain ⟨n, ln', hn⟩ := ih s ln pre u rest hpre hag ⟨hfo.1, hfo.2.1⟩
    refine ⟨n + 1, ln', fun m hm => ?_⟩
    obtain ⟨m, rfl⟩ : ∃ k, m = k + 1 := ⟨m - 1, by omega⟩
    have := hn (m + 1) (by omega)
    simp only [ERun, EPost] at this
    simp [ERun, EPost, ExprList, this, ExprListLoop, hfo.2.2]
  | listMore e c l he hc hl ihe ihl =>
    intro s ln pre u rest hpre hag hfo
    obtain ⟨pf, pb, rfl, rfl, hb⟩ := map_fst_append hpre
    obtain ⟨x, pt, rfl, rfl, rfl⟩ := map_fst_cons hb
    obtain ⟨n1, ln1, hn1⟩ := ihe s ln pf x (pt ++ u :: rest) rfl hag
      (by simp [EFollow, mulOp, addOp, hc])
    obtain ⟨n2, ln2, hn2⟩ := ihl s x.2 pt u rest rfl hag hfo
    refine ⟨n1 + n2 + 1, ln2, fun m hm => ?_⟩
    obtain ⟨m, rfl⟩ : ∃ k, m = k + 1 := ⟨m - 1, by omega⟩
    have h1 := hn1 (m + 1) (by omega)
    have h2 := hn2 m (by omega)
    simp only [ERun, EPost] at h1 h2
    have h3 := ExprListLoop_of_ExprList m x.1 _ _ hc h2
    simp only [andThen_true, ERun, EPost, ExprList, List.append_assoc, List.cons_append, h1, Get_seek_cons]
    exact h3
  | logic a o b ha ho hb iha ihb =>
    intro s ln pre u rest hpre hag hfo
    obtain ⟨pf, pb, rfl, rfl, hb'⟩ := map_fst_append hpre
    obtain ⟨x, pt, rfl, rfl, rfl⟩ := map_fst_cons hb'
    obtain ⟨n1, ln1, hn1⟩ := iha s ln pf x (pt ++ u :: rest) rfl hag
      (by simp only [EFollow, mulOp, addOp]; rcases ho with h | h <;> simp [h])
    obtain ⟨n2, ln2, hn2⟩ := ihb s x.2 pt u rest rfl hag hfo
    refine ⟨n1 + n2, ln2, fun m hm => ?_⟩
    have h1 := hn1 m (by omega)
    have h2 := hn2 m (by omega)
    simp only [ERun, EPost] at h1 h2
    have ho' : ¬ (x.1.GetToken ≠ .EQUAL ∧ x.1.GetToken ≠ .GTHAN) := by
      rcases ho with h | h <;> simp [h]
    simp only [andThen_true, ERun, EPost, LogicExpr, List.append_assoc, List.cons_append, h1, Get_seek_some,
      ho', if_false, h2]

theorem Var_fresh (s : PState) (x : LexItem × Int) (i : List (LexItem × Int)) (l : Int) :
    Var (s.seek (some x.1) i x.2) = Var (s.seek none (x :: i) l) := by
  simp [Var]

theorem AssignStmt_fresh (n : Nat) (s : PState) (x : LexItem × Int) (i : List (LexItem × Int))
    (l : Int) : AssignStmt n (s.seek (some x.1) i x.2) = AssignStmt n (s.seek none (x :: i) l) := by
  simp only [AssignStmt, Var_fresh s x i l]

theorem WriteStmt_fresh (n : Nat) (s : PState) (x : LexItem × Int) (i : List (LexItem × Int))
    (l : Int) : WriteStmt n (s.seek (some x.1) i x.2) = WriteStmt n (s.seek none (x :: i) l) := by
  simp [WriteStmt]

theorem IfStmt_fresh (n : Nat) (s : PState) (x : LexItem × Int) (i : List (LexItem × Int))
    (l : Int) : IfStmt n (s.seek (some x.1) i x.2) = IfStmt n (s.seek none (x :: i) l) := by
  cases n <;> simp [IfStmt]

theorem ControlStmt_fresh (n : Nat) (s : PState) (x : LexItem × Int)
    (i : List (LexItem × Int)) (l : Int) :
    ControlStmt n (s.seek (some x.1) i x.2) = ControlStmt n (s.seek none (x :: i) l) := by
  cases n <;> simp [ControlStmt]

theorem DeclStmt_fresh (n : Nat) (s : PState) (x : LexItem × Int) (i : List (LexItem × Int))
    (l : Int) : DeclStmt n (s.seek (some x.1) i x.2) = DeclStmt n (s.seek none (x :: i) l) := by
  simp [DeclStmt]

theorem Stmt_fresh (n : Nat) (s : PState) (x : LexItem × Int) (i : List (LexItem × Int))
    (l : Int) : Stmt n (s.seek (some x.1) i x.2) = Stmt n (s.seek none (x :: i) l) := by
  simp [Stmt]

theorem StmtList_fresh (n : Nat) (s : PState) (x : LexItem × Int) (i : List (LexItem × Int))
    (l : Int) : StmtList n (s.seek (some x.1) i x.2) = StmtList n (s.seek none (x :: i) l) := by
  simp only [StmtList, Stmt_fresh n s x i l]

theorem StmtListLoop_eq (n : Nat) (s : PState) (x : LexItem × Int) (i : List (LexItem × Int))
    (l : Int) (h : x.1.GetToken ≠ .END) :
    StmtListLoop (n + 1) x.1 (s.seek none i x.2) = StmtList n (s.seek none (x :: i) l) := by
  rw [← StmtList_fresh n s x i l]
  simp only [StmtListLoop, h, if_false, pushBack_seek, StmtList]

theorem DerivesS.head {D D' : List String} {nt : SNT} {ts : List LexItem}
    (h : DerivesS D nt ts D') : ∃ t tl, ts = t :: tl ∧
      match nt with
      | .IdentList => t.GetToken = .IDENT
      | .DeclStmt => t.GetToken = .INT ∨ t.GetToken = .FLOAT
      | .AssignStmt => t.GetToken = .IDENT
      | .WriteStmt => t.GetToken = .WRITE
      | .IfStmt => t.GetToken = .IF
      | .ControlStmt => t.GetToken = .IDENT ∨ t.GetToken = .IF ∨ t.GetToken = .WRITE
      | .Stmt => t.GetToken = .INT ∨ t.GetToken = .FLOAT ∨ t.GetToken = .IDENT ∨
          t.GetToken = .IF ∨ t.GetToken = .WRITE
      | .StmtList => t.GetToken = .INT ∨ t.GetToken = .FLOAT ∨ t.GetToken = .IDENT ∨
          t.GetToken = .IF ∨ t.GetToken = .WRITE
      | .Prog => t.GetToken = .PROGRAM := by
  induction h with
  | identOne D t hk _ => exact ⟨t, [], rfl, hk⟩
  | identMore D D' t c l hk _ _ _ _ => exact ⟨t, c :: l, rfl, hk⟩
  | decl D D' ty l hty _ _ => exact ⟨ty, l, rfl, hty⟩
  | assign D v a e hv _ _ _ => exact ⟨v, a :: e, rfl, hv⟩
  | write D w l hw _ => exact ⟨w, l, rfl, hw⟩
  | ifStmt D i l r c b hi _ _ _ _ _ => exact ⟨i, l :: c ++ r :: b, rfl, hi⟩
  | ctlAssign D ts _ ih =>
    obtain ⟨t, tl, rfl, h⟩ := ih
    exact ⟨t, tl, rfl, Or.inl h⟩
  | ctlIf D ts _ ih =>
    obtain ⟨t, tl, rfl, h⟩ := ih
    exact ⟨t, tl, rfl, Or.inr (Or.inl h)⟩
  | ctlWrite D ts _ ih =>
    obtain ⟨t, tl, rfl, h⟩ := ih
    exact ⟨t, tl, rfl, Or.inr (Or.inr h)⟩
  | stmtDecl D D' ts _ ih =>
    obtain ⟨t, tl, rfl, h⟩ := ih
    refine ⟨t, tl, rfl, ?_⟩
    rcases h with h | h <;> simp [h]
  | stmtCtl D ts _ ih =>
    obtain ⟨t, tl, rfl, h⟩ := ih
    refine ⟨t, tl, rfl, ?_⟩
    rcases h with h | h | h <;> simp [h]
  | stmtsOne D D' st semi _ _ ih =>
    obtain ⟨t, tl, rfl, h⟩ := ih
    exact ⟨t, tl ++ [semi], rfl, h⟩
  | stmtsMore D D1 D2 st semi l _ _ _ ih _ =>
    obtain ⟨t, tl, rfl, h⟩ := ih
    exact ⟨t, tl ++ semi :: l, rfl, h⟩
  | prog D D' p name e p2 l hp _ _ _ _ _ => exact ⟨p, name :: l ++ [e, p2], rfl, hp⟩

theorem Agree.declare {s : PState} {D : List String} (h : Agree s D) (name : String)
    (ty : Token) : Agree (s.declare name ty) (name :: D) := by
  intro x
  by_cases hx : x = name
  · simp [PState.declare, hx]
  · simp [PState.declare, hx, h x]

theorem Agree.fresh {s : PState} {D : List String} (h : Agree s D) {x : String} (hx : x ∉ D) :
    (s.defVar x).isSome = false := by
  have := (h x).not.2 hx
  simpa using this

theorem complete_S {D D' : List String} {nt : SNT} {ts : List LexItem}
    (h : DerivesS D nt ts D') :
    ∀ (tok : LexItem) (s : PState) (ln : Int) (pre : List (LexItem × Int)) (u : LexItem × Int)
      (rest : List (LexItem × Int)), pre.map Prod.fst = ts → Agree s D →
      SFollow nt u.1.GetToken →
      ∃ n s', (∀ m, n ≤ m →
        SRun tok nt m (s.seek none (pre ++ u :: rest) ln)
          = .done true (s'.seek (some u.1) rest u.2)) ∧
        Agree s' D' ∧ s'.error_count = s.error_count ∧ s'.output = s.output := by
  induction h with
  | identOne D t hk hd =>
    intro tok s ln pre u rest hpre hag hfo
    obtain ⟨x, tl, rfl, rfl, htl⟩ := map_fst_cons hpre
    obtain rfl := map_fst_nil htl
    refine ⟨1, s.declare x.1.GetLexeme tok.GetToken, fun m hm => ?_, hag.declare _ _, rfl, rfl⟩
    obtain ⟨m, rfl⟩ : ∃ k, m = k + 1 := ⟨m - 1, by omega⟩
    simp only [SFollow] at hfo
    simp [SRun, IdentList, hk, hag.fresh hd, hfo]
  | identMore D D' t c l hk hd hc hl ih =>
    intro tok s ln pre u rest hpre hag hfo
    obtain ⟨x, tl, rfl, rfl, htl⟩ := map_fst_cons hpre
    obtain ⟨y, tl2, rfl, rfl, htl2⟩ := map_fst_cons htl
    obtain ⟨n, s', hn, hag', he, ho⟩ := ih tok (s.declare x.1.GetLexeme tok.GetToken) y.2 tl2 u
      rest htl2 (hag.declare _ _) hfo
    refine ⟨n + 1, s', fun m hm => ?_, hag', he, ho⟩
    obtain ⟨m, rfl⟩ : ∃ k, m = k + 1 := ⟨m - 1, by omega⟩
    have := hn m (by omega)
    simp only [SRun] at this
    simp [SRun, IdentList, hk, hag.fresh hd, hc, this]
  | decl D D' ty l hty hl ih =>
    intro tok s ln pre u rest hpre hag hfo
    obtain ⟨x, tl, rfl, rfl, htl⟩ := map_fst_cons hpre
    obtain ⟨n, s', hn, hag', he, ho⟩ := ih x.1 s x.2 tl u rest htl hag hfo
    refine ⟨n, s', fun m hm => ?_, hag', he, ho⟩
    have := hn m hm
    simp only [SRun] at this
    have hty' : ¬ (x.1.GetToken ≠ .INT ∧ x.1.GetToken ≠ .FLOAT) := by
      rcases hty with h | h <;> simp [h]
    simp [SRun, DeclStmt, hty', this]
  | assign D v a e hv hd ha he =>
    intro tok s ln pre u rest hpre hag hfo
    obtain ⟨x, tl, rfl, rfl, htl⟩ := map_fst_cons hpre
    obtain ⟨y, tl2, rfl, rfl, htl2⟩ := map_fst_cons htl
    obtain ⟨n, ln', hn⟩ := complete_E he s y.2 tl2 u rest htl2 hag ⟨hfo.1, hfo.2.1⟩
    refine ⟨n, s, fun m hm => ?_, hag, rfl, rfl⟩
    have := hn m hm
    simp only [ERun, EPost] at this
    simp [SRun, AssignStmt, Var, hv, hag.mem hd, ha, this]
  | write D w l hw hl =>
    intro tok s ln pre u rest hpre hag hfo
    obtain ⟨x, tl, rfl, rfl, htl⟩ := map_fst_cons hpre
    obtain ⟨n, ln', hn⟩ := complete_E hl s x.2 tl u rest htl hag hfo
    refine ⟨n, s, fun m hm => ?_, hag, rfl, rfl⟩
    have := hn m hm
    simp only [ERun, EPost] at this
    simp [SRun, WriteStmt, hw, this]
  | ifStmt D i l r c b hi hl hc hr hb ih =>
    intro tok s ln pre u rest hpre hag hfo
    rw [List.cons_append, List.cons_append] at hpre
    obtain ⟨x, tl, rfl, rfl, htl⟩ := map_fst_cons hpre
    obtain ⟨y, tl2, rfl, rfl, htl2⟩ := map_fst_cons htl
    obtain ⟨pc, pb, rfl, rfl, hb'⟩ := map_fst_append htl2
    obtain ⟨z, pb2, rfl, rfl, rfl⟩ := map_fst_cons hb'
    obtain ⟨n1, ln1, hn1⟩ := complete_E hc s y.2 pc z (pb2 ++ u :: rest) rfl hag
      (by simp [EFollow, mulOp, addOp, hr])
    obtain ⟨n2, s', hn2, hag', he, ho⟩ := ih tok s z.2 pb2 u rest rfl hag hfo
    refine ⟨n1 + n2 + 1, s', fun m hm => ?_, hag', he, ho⟩
    obtain ⟨m, rfl⟩ : ∃ k, m = k + 1 := ⟨m - 1, by omega⟩
    have h1 := hn1 m (by omega)
    have h2 := hn2 m (by omega)
    simp only [ERun, EPost, SRun] at h1 h2
    simp [SRun, IfStmt, hi, hl, hr, h1, h2]
  | ctlAssign D ts hd ih =>
    intro tok s ln pre u rest hpre hag hfo
    obtain ⟨t, tl, rfl, hk⟩ := hd.head
    simp only at hk
    obtain ⟨x, ptl, rfl, rfl, htl⟩ := map_fst_cons hpre
    obtain ⟨n, s', hn, hag', he, ho⟩ := ih tok s ln (x :: ptl) u rest hpre hag hfo
    refine ⟨n + 1, s', fun m hm => ?_, hag', he, ho⟩
    obtain ⟨m, rfl⟩ : ∃ k, m = k + 1 := ⟨m - 1, by omega⟩
    have := hn m (by omega)
    simp only [SRun, List.cons_append] at this
    simp only [SRun, ControlStmt, List.cons_append, Get_seek_cons, hk, if_true, pushBack_seek]
    rw [AssignStmt_fresh m s x _ ln]
    exact this
  | ctlIf D ts hd ih =>
    intro tok s ln pre u rest hpre hag hfo
    obtain ⟨t, tl, rfl, hk⟩ := hd.head
    simp only at hk
    obtain ⟨x, ptl, rfl, rfl, htl⟩ := map_fst_cons hpre
    obtain ⟨n, s', hn, hag', he, ho⟩ := ih tok s ln (x :: ptl) u rest hpre hag hfo
    refine ⟨n + 1, s', fun m hm => ?_, hag', he, ho⟩
    obtain ⟨m, rfl⟩ : ∃ k, m = k + 1 := ⟨m - 1, by omega⟩
    have := hn m (by omega)
    simp only [SRun, List.cons_append] at this
    simp only [SRun, ControlStmt, List.cons_append, Get_seek_cons, hk, if_true, pushBack_seek]
    simp only [reduceCtorEq, if_false]
    rw [IfStmt_fresh m s x _ ln]
    exact this
  | ctlWrite D ts hd ih =>
    intro tok s ln pre u rest hpre hag hfo
    obtain ⟨t, tl, rfl, hk⟩ := hd.head
    simp only at hk
    obtain ⟨x, ptl, rfl, rfl, htl⟩ := map_fst_cons hpre
    obtain ⟨n, s', hn, hag', he, ho⟩ := ih tok s ln (x :: ptl) u rest hpre hag hfo
    refine ⟨n + 1, s', fun m hm => ?_, hag', he, ho⟩
    obtain ⟨m, rfl⟩ : ∃ k, m = k + 1 := ⟨m - 1, by omega⟩
    have := hn m (by omega)
    simp only [SRun, List.cons_append] at this
    simp only [SRun, ControlStmt, List.cons_append, Get_seek_cons, hk, if_true, pushBack_seek]
    simp only [reduceCtorEq, if_false]
    rw [WriteStmt_fresh m s x _ ln]
    exact this
  | stmtDecl D D' ts hd ih =>
    intro tok s ln pre u rest hpre hag hfo
    obtain ⟨t, tl, rfl, hk⟩ := hd.head
    simp only at hk
    obtain ⟨x, ptl, rfl, rfl, htl⟩ := map_fst_cons hpre
    obtain ⟨n, s', hn, hag', he, ho⟩ := ih tok s ln (x :: ptl) u rest hpre hag hfo.2.2
    refine ⟨n, s', fun m hm => ?_, hag', he, ho⟩
    have := hn m hm
    simp only [SRun, List.cons_append] at this
    simp only [SRun, Stmt, List.cons_append, Get_seek_cons, hk, if_true, pushBack_seek]
    rw [DeclStmt_fresh m s x _ ln]
    exact this
  | stmtCtl D ts hd ih =>
    intro tok s ln pre u rest hpre hag hfo
    obtain ⟨t, tl, rfl, hk⟩ := hd.head
    simp only at hk
    obtain ⟨x, ptl, rfl, rfl, htl⟩ := map_fst_cons hpre
    obtain ⟨n, s', hn, hag', he, ho⟩ := ih tok s ln (x :: ptl) u rest hpre hag hfo
    refine ⟨n, s', fun m hm => ?_, hag', he, ho⟩
    have := hn m hm
    simp only [SRun, List.cons_append] at this
    have hnd : ¬ (x.1.GetToken = .INT ∨ x.1.GetToken = .FLOAT) := by
      rcases hk with h | h | h <;> simp [h]
    simp only [SRun, Stmt, List.cons_append, Get_seek_cons, hk, hnd, if_true, if_false,
      pushBack_seek]
    rw [ControlStmt_fresh m s x _ ln]
    exact this
  | stmtsOne D D' st semi hst hsemi ih =>
    intro tok s ln pre u rest hpre hag hfo
    obtain ⟨pst, pb, rfl, rfl, hb⟩ := map_fst_append hpre
    obtain ⟨x, tl, rfl, rfl, htl⟩ := map_fst_cons hb
    obtain rfl := map_fst_nil htl
    obtain ⟨n, s', hn, hag', he, ho⟩ := ih tok s ln pst x (u :: rest) rfl hag
      (by simp [SFollow, mulOp, addOp, hsemi])
    refine ⟨n + 1, s', fun m hm => ?_, hag', he, ho⟩
    obtain ⟨m, rfl⟩ : ∃ k, m = k + 1 := ⟨m - 1, by omega⟩
    have := hn (m + 1) (by omega)
    simp only [SRun] at this
    simp only [SFollow] at hfo
    simp [SRun, StmtList, this, hsemi, StmtListLoop, hfo]
  | stmtsMore D D1 D2 st semi l hst hsemi hl ih1 ih2 =>
    intro tok s ln pre u rest hpre hag hfo
    obtain ⟨pst, pb, rfl, rfl, hb⟩ := map_fst_append hpre
    obtain ⟨x, pl, rfl, rfl, rfl⟩ := map_fst_cons hb
    obtain ⟨t, tl, htl, hk⟩ := hl.head
    simp only at hk
    obtain ⟨y, pl2, rfl, rfl, -⟩ := map_fst_cons htl
    obtain ⟨n1, s1, hn1, hag1, he1, ho1⟩ := ih1 tok s ln pst x (y :: pl2 ++ u :: rest) rfl hag
      (by simp [SFollow, mulOp, addOp, hsemi])
    obtain ⟨n2, s2, hn2, hag2, he2, ho2⟩ := ih2 tok s1 x.2 (y :: pl2) u rest rfl hag1 hfo
    refine ⟨n1 + n2 + 1, s2, fun m hm => ?_, hag2, he2.trans he1, ho2.trans ho1⟩
    obtain ⟨m, rfl⟩ : ∃ k, m = k + 1 := ⟨m - 1, by omega⟩
    have h1 := hn1 (m + 1) (by omega)
    have h2 := hn2 m (by omega)
    simp only [SRun, List.cons_append] at h1 h2
    have hne : y.1.GetToken ≠ .END := by
      rcases hk with h | h | h | h | h <;> simp [h]
    have h3 := StmtListLoop_eq m s1 y (pl2 ++ u :: rest) x.2 hne
    simp only [andThen_true, SRun, StmtList, List.append_assoc, List.cons_append, h1, Get_seek_some, hsemi,
      Get_seek_cons, ne_eq, not_true_eq_false, if_false]
    rw [h3]
    exact h2
  | prog D D' p name e p2 l _ _ _ _ _ _ =>
    intro tok s ln pre u rest hpre hag hfo
    exact absurd hfo (by simp [SFollow])

theorem complete_Prog {D D' : List String} {ts : List LexItem} (h : DerivesS D .Prog ts D')
    (s : PState) (ln : Int) (pre rest : List (LexItem × Int)) (hpre : pre.map Prod.fst = ts)
    (hag : Agree s D) :
    ∃ n s' ln', (∀ m, n ≤ m →
        Prog m (s.seek none (pre ++ rest) ln) = .done true (s'.seek none rest ln')) ∧
      Agree s' D' ∧ s'.error_count = s.error_count ∧ s'.output = s.output := by
  cases h with
  | prog _ _ p name e p2 l hp hname hl he hp2 =>
    rw [List.cons_append, List.cons_append] at hpre
    obtain ⟨x, tl, rfl, rfl, htl⟩ := map_fst_cons hpre
    obtain ⟨y, tl2, rfl, rfl, htl2⟩ := map_fst_cons htl
    obtain ⟨pl, pb, rfl, rfl, hb⟩ := map_fst_append htl2
    obtain ⟨z, pb2, rfl, rfl, hb2⟩ := map_fst_cons hb
    obtain ⟨w, pb3, rfl, rfl, hb3⟩ := map_fst_cons hb2
    obtain rfl := map_fst_nil hb3
    obtain ⟨n, s', hn, hag', herr, hout⟩ := complete_S hl x.1 s y.2 pl z (w :: rest) rfl hag
      (by simp [SFollow, he])
    refine ⟨n, s', w.2, fun m hm => ?_, hag', herr, hout⟩
    have := hn m hm
    simp only [SRun] at this
    simp [Prog, hp, hname, he, hp2, this]

theorem StmtSemis.head_ne_END {D D' : List String} {l : List LexItem} (h : StmtSemis D l D')
    (t : LexItem) (tl : List LexItem) (hl : l = t :: tl) : t.GetToken ≠ .END := by
  cases h with
  | nil => simp at hl
  | cons _ D1 _ st semi l2 hst _ _ =>
    obtain ⟨t2, tl2, rfl, hk⟩ := hst.head
    simp only at hk
    simp only [List.cons_append, List.cons.injEq] at hl
    rw [← hl.1]
    rcases hk with h | h | h | h | h <;> simp [h]

/-- After a prefix of groups `Stmt ;`, `StmtList` goes on as it does when it is started on
the token `x` that follows the prefix. -/
theorem StmtSemis_continue {D D' : List String} {l : List LexItem} (h : StmtSemis D l D') :
    ∀ (s : PState) (ln : Int) (pl : List (LexItem × Int)) (x : LexItem × Int)
      (i : List (LexItem × Int)), pl.map Prod.fst = l → Agree s D → x.1.GetToken ≠ .END →
      ∃ s', Agree s' D' ∧ s'.error_count = s.error_count ∧ s'.output = s.output ∧
        ∀ (r : Res) (n0 : Nat), (∀ m, n0 ≤ m → StmtList m (s'.seek (some x.1) i x.2) = r) →
          ∃ n, ∀ m, n ≤ m → StmtList m (s.seek none (pl ++ x :: i) ln) = r := by
  induction h with
  | nil D =>
    intro s ln pl x i hpl hag hx
    obtain rfl := map_fst_nil hpl
    refine ⟨s, hag, rfl, rfl, fun r n0 hr => ⟨n0, fun m hm => ?_⟩⟩
    rw [List.nil_append, ← StmtList_fresh m s x i ln]
    exact hr m hm
  | cons D D1 D2 st semi l hst hsemi hl ih =>
    intro s ln pl x i hpl hag hx
    obtain ⟨pst, pb, rfl, rfl, hb⟩ := map_fst_append hpl
    obtain ⟨y, pl1, rfl, rfl, rfl⟩ := map_fst_cons hb
    -- the token after the semicolon starts a statement or is `x`
    obtain ⟨z, tl, hz, hne⟩ : ∃ z tl, pl1 ++ x :: i = z :: tl ∧ z.1.GetToken ≠ .END := by
      rcases pl1 with _ | ⟨z, pl2⟩
      · exact ⟨x, i, rfl, hx⟩
      · refine ⟨z, pl2 ++ x :: i, rfl, ?_⟩
        exact hl.head_ne_END z.1 (pl2.map Prod.fst) rfl
    obtain ⟨n1, s1, hn1, hag1, he1, ho1⟩ := complete_S hst y.1 s ln pst y
      (pl1 ++ x :: i) rfl hag (by simp [SFollow, mulOp, addOp, hsemi])
    obtain ⟨s2, hag2, he2, ho2, hcont⟩ := ih s1 y.2 pl1 x i rfl hag1 hx
    refine ⟨s2, hag2, he2.trans he1, ho2.trans ho1, fun r n0 hr => ?_⟩
    obtain ⟨n2, hn2⟩ := hcont r n0 hr
    refine ⟨n1 + n2 + 1, fun m hm => ?_⟩
    obtain ⟨m, rfl⟩ : ∃ k, m = k + 1 := ⟨m - 1, by omega⟩
    have h1 := hn1 (m + 1) (by omega)
    have h2 := hn2 m (by omega)
    simp only [SRun] at h1
    rw [hz] at h1 h2
    have h3 := StmtListLoop_eq m s1 z tl y.2 hne
    simp only [andThen_true, StmtList, List.append_assoc, List.cons_append, hz, h1, Get_seek_some, hsemi,
      Get_seek_cons, ne_eq, not_true_eq_false, if_false]
    rw [h3]
    exact h2

theorem Prog_of_StmtList_false (m : Nat) (s s' : PState) (p name : LexItem × Int)
    (body : List (LexItem × Int)) (ln : Int) (hp : p.1.GetToken = .PROGRAM)
    (hname : name.1.GetToken = .IDENT)
    (h : StmtList m (s.seek none body name.2) = .done false s') :
    Prog m (s.seek none (p :: name :: body) ln) = .done false s' := by
  simp [Prog, hp, hname, h]

theorem StmtList_missing_semicolon (D D1 D2 : List String) (l st : List LexItem)
    (hl : StmtSemis D l D1) (hst : DerivesS D1 .Stmt st D2)
    (s : PState) (pl pst : List (LexItem × Int)) (e : LexItem × Int)
    (rest : List (LexItem × Int)) (ln : Int)
    (hag : Agree s D)
    (hpl : pl.map Prod.fst = l) (hpst : pst.map Prod.fst = st) (he : e.1.GetToken = .END) :
    ∃ s' : PState, s'.output = s.output ++ [(e.2, "Missing a semicolon.")] ∧
      s'.error_count = wrapInt (s.error_count + 1) ∧
      ∃ n, ∀ m, n ≤ m → StmtList m (s.seek none (pl ++ pst ++ e :: rest) ln) = .done false
        (s'.seek (some e.1) rest e.2) := by
  obtain ⟨t, tl, rfl, hk⟩ := hst.head
  simp only at hk
  obtain ⟨x, ptl, rfl, rfl, htl⟩ := map_fst_cons hpst
  have hx : x.1.GetToken ≠ .END := by
    rcases hk with h | h | h | h | h <;> simp [h]
  obtain ⟨s1, hag1, he1, ho1, hcont⟩ := StmtSemis_continue hl s ln pl x (ptl ++ e :: rest) hpl hag hx
  obtain ⟨n2, s2, hn2, -, he2, ho2⟩ := complete_S hst x.1 s1 x.2 (x :: ptl) e rest hpst hag1
    (by simp [SFollow, mulOp, addOp, he])
  refine ⟨ParseError e.2 "Missing a semicolon." s2, ?_, ?_, ?_⟩
  · simp [ParseError, ho2, ho1]
  · simp [ParseError, he2, he1]
  · obtain ⟨n, hn⟩ := hcont (.done false ((ParseError e.2 "Missing a semicolon." s2).seek
      (some e.1) rest e.2)) n2 (fun m hm => by
        have h2 := hn2 m hm
        simp only [SRun, List.cons_append] at h2
        rw [StmtList_fresh m s1 x _ x.2]
        simp [StmtList, h2, he])
    refine ⟨n, fun m hm => ?_⟩
    rw [List.append_assoc, List.cons_append]
    exact hn m hm

/-! ## Soundness -/

theorem Consumed.trans {s s1 s2 : PState} {a b : List LexItem} (h1 : Consumed s a s1)
    (h2 : Consumed s1 b s2) : Consumed s (a ++ b) s2 := by
  obtain ⟨p1, hd1, he1, ⟨k1, hk1⟩, hs1⟩ := h1
  obtain ⟨p2, hd2, he2, ⟨k2, hk2⟩, hs2⟩ := h2
  refine ⟨p1 ++ p2, ?_, ?_, ⟨k1 + k2, ?_⟩, ?_⟩
  · intro t ht
    rcases List.mem_append.1 ht with h | h
    · exact hd1 t h
    · exact hd2 t h
  · intro hne
    by_cases hp2 : p2 = []
    · have hp1 : p1 ≠ [] := by
        intro h; apply hne; simp [h, hp2]
      rw [hk2, he1 hp1]; simp
    · exact he2 hp2
  · rw [hk2, hk1, List.drop_drop, Nat.add_comm]
  · rw [← List.append_assoc, hs1, List.append_assoc, hs2, List.append_assoc]

theorem Consumed.get (s : PState) : Consumed s [(GetNextToken s).1] (GetNextToken s).2 := by
  unfold GetNextToken getNextToken
  cases hp : s.pushed with
  | some t =>
    exact ⟨[], by simp, by simp, ⟨0, by simp⟩, by simp [PState.stream, hp]⟩
  | none =>
    cases hi : s.input with
    | nil =>
      refine ⟨[⟨.DONE, "", s.line⟩], by simp [LexItem.GetToken], by simp [hi], ⟨0, by simp⟩, ?_⟩
      simp [PState.stream, hp, hi]
    | cons x rest =>
      exact ⟨[], by simp, by simp, ⟨1, by simp [hi]⟩, by simp [PState.stream, hp, hi]⟩

theorem Consumed.unget (s : PState) :
    Consumed s [] { (GetNextToken s).2 with pushed := some (GetNextToken s).1 } := by
  unfold GetNextToken getNextToken
  cases hp : s.pushed with
  | some t =>
    exact ⟨[], by simp, by simp, ⟨0, by simp⟩, by simp [PState.stream, hp]⟩
  | none =>
    cases hi : s.input with
    | nil =>
      refine ⟨[⟨.DONE, "", s.line⟩], by simp [LexItem.GetToken], by simp [hi], ⟨0, by simp⟩, ?_⟩
      simp [PState.stream, hp, hi]
    | cons x rest =>
      exact ⟨[], by simp, by simp, ⟨1, by simp [hi]⟩, by simp [PState.stream, hp, hi]⟩

theorem Consumed.of_source_eq {s s1 s' : PState} {ts : List LexItem}
    (hp : s1.pushed = s.pushed) (hi : s1.input = s.input) (h : Consumed s1 ts s') :
    Consumed s ts s' := by
  obtain ⟨p, hd, he, ⟨k, hk⟩, hs⟩ := h
  exact ⟨p, hd, he, ⟨k, by rw [hk, hi]⟩, by simpa [PState.stream, hp, hi] using hs⟩

theorem Consumed.cons_get {s s' : PState} {ts : List LexItem}
    (h : Consumed (GetNextToken s).2 ts s') : Consumed s ((GetNextToken s).1 :: ts) s' :=
  (Consumed.get s).trans h

theorem sat_andThen_gen {r : Res} {f g : PState → Res} {Q1 Q : Bool → PState → Prop}
    (h : r.sat Q1) (hf : ∀ s1, Q1 false s1 → (f s1).sat Q) (hg : ∀ s1, Q1 true s1 → (g s1).sat Q) :
    (r.andThen f g).sat Q := by
  cases r with
  | done b s1 =>
    cases b with
    | false => exact hf s1 h
    | true => exact hg s1 h
  | abort => trivial
  | timeout => trivial

theorem sat_pushBack_gen {t : LexItem} {s : PState} {k : PState → Res}
    {Q : Bool → PState → Prop} (h : s.pushed = none → (k { s with pushed := some t }).sat Q) :
    (pushBack t s k).sat Q := by
  cases hp : s.pushed with
  | some u => simp [pushBack, PushBackToken, hp, Res.sat]
  | none =>
    rw [pushBack_none t s k hp]
    exact h hp

theorem sat_and {r : Res} {A B : Bool → PState → Prop} (ha : r.sat A) (hb : r.sat B) :
    r.sat (fun b s => A b s ∧ B b s) := by
  cases r with
  | done b s => exact ⟨ha, hb⟩
  | abort => trivial
  | timeout => trivial

theorem Agree.of_defVar {s s1 : PState} {D : List String} (h : Agree s D)
    (he : s1.defVar = s.defVar) : Agree s1 D := by
  intro x; rw [he]; exact h x

theorem Agree.next {s : PState} {D : List String} (h : Agree s D) :
    Agree (GetNextToken s).2 D :=
  h.of_defVar (GetNextToken_defVar s)

theorem soundE_false (D : List String) (nt : ENT) (s s' : PState) : SoundE D nt s false s' := by
  intro h; simp at h

theorem soundLoop_false (D : List String) (isOp : Token → Prop) (nt : ENT) (s s' : PState) :
    SoundLoop D isOp nt s false s' := by
  intro h; simp at h

theorem sound_expr (D : List String) : ∀ n,
    (∀ s sg, Agree s D → (Factor n s sg).sat (SoundE D .Factor s)) ∧
    (∀ s, Agree s D → (SFactor n s).sat (SoundE D .SFactor s)) ∧
    (∀ s0, Agree s0 D →
      (TermLoop n (GetNextToken s0).1 (GetNextToken s0).2).sat (SoundLoop D mulOp .Term s0)) ∧
    (∀ s, Agree s D → (Term n s).sat (SoundE D .Term s)) ∧
    (∀ s0, Agree s0 D →
      (ExprLoop n (GetNextToken s0).1 (GetNextToken s0).2).sat (SoundLoop D addOp .Expr s0)) ∧
    (∀ s, Agree s D → (Expr n s).sat (SoundE D .Expr s)) := by
  intro n
  induction n with
  | zero => simp [Factor, SFactor, TermLoop, Term, ExprLoop, Expr, Res.sat]
  | succ n ih =>
    obtain ⟨ihF, ihS, ihTL, ihT, ihEL, ihE⟩ := ih
    refine ⟨?_, ?_, ?_, ?_, ?_, ?_⟩
    · intro s sg hag
      simp only [Factor]
      split_ifs with h1 h2 h3 h4
      · exact soundE_false _ _ _ _
      · intro _
        refine ⟨[(GetNextToken s).1], .ident _ h1 ?_, Consumed.get s⟩
        have := (hag.next (s := s) _).1 (by
          cases hd : (GetNextToken s).2.defVar (GetNextToken s).1.GetLexeme <;> simp_all)
        exact this
      · intro _
        refine ⟨[(GetNextToken s).1], ?_, Consumed.get s⟩
        rcases h3 with h | h | h
        · exact .iconst _ h
        · exact .rconst _ h
        · exact .sconst _ h
      · exact soundE_false _ _ _ _
      · refine sat_andThen_gen (ihE _ hag.next) (fun s1 _ => soundE_false _ _ _ _)
          (fun s1 h1' => ?_)
        obtain ⟨e, he, hc⟩ := h1' rfl
        split_ifs with h5
        · exact soundE_false _ _ _ _
        · intro _
          refine ⟨(GetNextToken s).1 :: e ++ [(GetNextToken s1).1],
            .paren _ _ e (by simpa using h4) he (by simpa using h5), ?_⟩
          have := (Consumed.get s).trans (hc.trans (Consumed.get s1))
          simpa using this
    · intro s hag
      simp only [SFactor]
      split_ifs with h1 h2
      · refine sat_mono (ihF _ 1 hag.next) (fun b s' h hb => ?_)
        obtain ⟨f, hf, hc⟩ := h hb
        exact ⟨_ :: f, .signed _ f (Or.inl h1) hf, hc.cons_get⟩
      · refine sat_mono (ihF _ (-1) hag.next) (fun b s' h hb => ?_)
        obtain ⟨f, hf, hc⟩ := h hb
        exact ⟨_ :: f, .signed _ f (Or.inr h2) hf, hc.cons_get⟩
      · refine sat_pushBack_gen (fun _ => ?_)
        refine sat_mono (ihF _ 1 (hag.next.of_defVar rfl)) (fun b s' h hb => ?_)
        obtain ⟨f, hf, hc⟩ := h hb
        exact ⟨f, .unsigned f hf, by simpa using (Consumed.unget s).trans hc⟩
    · intro s0 hag
      simp only [TermLoop]
      split_ifs with h1
      · refine sat_andThen_gen (sat_and (ihS _ hag.next) (sameTables_compat.sat_SFactor n _))
          (fun s1 _ => soundLoop_false _ _ _ _ _) (fun s1 h => ?_)
        obtain ⟨hs, hfr⟩ := h
        obtain ⟨f, hf, hc⟩ := hs rfl
        refine sat_mono (ihTL s1 (hag.next.of_defVar hfr.1)) (fun b s' h hb => ?_)
        refine Or.inr ⟨h1, ?_⟩
        rcases h hb with ⟨_, hc2⟩ | ⟨hop, ts1, ht1, hc2⟩
        · exact ⟨f, .termOne f hf, by simpa using (hc.trans hc2).cons_get⟩
        · exact ⟨f ++ (GetNextToken s1).1 :: ts1, .termMore f _ ts1 hf hop ht1,
            (hc.trans hc2).cons_get⟩
      · refine sat_pushBack_gen (fun _ => ?_)
        intro _
        exact Or.inl ⟨h1, Consumed.unget s0⟩
    · intro s hag
      simp only [Term]
      refine sat_andThen_gen (sat_and (ihS _ hag) (sameTables_compat.sat_SFactor n _))
        (fun s1 _ => soundE_false _ _ _ _) (fun s1 h => ?_)
      obtain ⟨hs, hfr⟩ := h
      obtain ⟨f, hf, hc⟩ := hs rfl
      refine sat_mono (ihTL s1 (hag.of_defVar hfr.1)) (fun b s' h hb => ?_)
      rcases h hb with ⟨_, hc2⟩ | ⟨hop, ts1, ht1, hc2⟩
      · exact ⟨f, .termOne f hf, by simpa using hc.trans hc2⟩
      · exact ⟨f ++ (GetNextToken s1).1 :: ts1, .termMore f _ ts1 hf hop ht1, hc.trans hc2⟩
    · intro s0 hag
      simp only [ExprLoop]
      split_ifs with h1
      · refine sat_andThen_gen (sat_and (ihT _ hag.next) (sameTables_compat.sat_Term n _))
          (fun s1 _ => soundLoop_false _ _ _ _ _) (fun s1 h => ?_)
        obtain ⟨hs, hfr⟩ := h
        obtain ⟨f, hf, hc⟩ := hs rfl
        refine sat_mono (ihEL s1 (hag.next.of_defVar hfr.1)) (fun b s' h hb => ?_)
        refine Or.inr ⟨h1, ?_⟩
        rcases h hb with ⟨_, hc2⟩ | ⟨hop, ts1, ht1, hc2⟩
        · exact ⟨f, .exprOne f hf, by simpa using (hc.trans hc2).cons_get⟩
        · exact ⟨f ++ (GetNextToken s1).1 :: ts1, .exprMore f _ ts1 hf hop ht1,
            (hc.trans hc2).cons_get⟩
      · refine sat_pushBack_gen (fun _ => ?_)
        intro _
        exact Or.inl ⟨h1, Consumed.unget s0⟩
    · intro s hag
      simp only [Expr]
      refine sat_andThen_gen (sat_and (ihT _ hag) (sameTables_compat.sat_Term n _))
        (fun s1 _ => soundE_false _ _ _ _) (fun s1 h => ?_)
      obtain ⟨hs, hfr⟩ := h
      obtain ⟨f, hf, hc⟩ := hs rfl
      refine sat_mono (ihEL s1 (hag.of_defVar hfr.1)) (fun b s' h hb => ?_)
      rcases h hb with ⟨_, hc2⟩ | ⟨hop, ts1, ht1, hc2⟩
      · exact ⟨f, .exprOne f hf, by simpa using hc.trans hc2⟩
      · exact ⟨f ++ (GetNextToken s1).1 :: ts1, .exprMore f _ ts1 hf hop ht1, hc.trans hc2⟩

theorem sound_Expr (D : List String) (n : Nat) (s : PState) (h : Agree s D) :
    (Expr n s).sat (SoundE D .Expr s) :=
  (sound_expr D n).2.2.2.2.2 s h

theorem sound_ExprListLoop (D : List String) : ∀ n s0, Agree s0 D →
    (ExprListLoop n (GetNextToken s0).1 (GetNextToken s0).2).sat
      (SoundLoop D (fun k => k = .COMMA) .ExprList s0) := by
  intro n
  induction n with
  | zero => simp [ExprListLoop, Res.sat]
  | succ n ih =>
    intro s0 hag
    simp only [ExprListLoop]
    split_ifs with h1
    · refine sat_andThen_gen (sat_and (sound_Expr D n _ hag.next) (sameTables_compat.sat_Expr n _))
        (fun s1 _ => soundLoop_false D (fun k => k = .COMMA) .ExprList s0 _) (fun s1 h => ?_)
      obtain ⟨hs, hfr⟩ := h
      obtain ⟨f, hf, hc⟩ := hs rfl
      refine sat_mono (ih s1 (hag.next.of_defVar hfr.1)) (fun b s' h hb => ?_)
      refine Or.inr ⟨h1, ?_⟩
      rcases h hb with ⟨_, hc2⟩ | ⟨hop, ts1, ht1, hc2⟩
      · exact ⟨f, .listOne f hf, by simpa using (hc.trans hc2).cons_get⟩
      · exact ⟨f ++ (GetNextToken s1).1 :: ts1, .listMore f _ ts1 hf hop ht1,
          (hc.trans hc2).cons_get⟩
    · refine sat_pushBack_gen (fun _ => ?_)
      intro _
      exact Or.inl ⟨h1, Consumed.unget s0⟩

theorem sound_ExprList (D : List String) (n : Nat) (s : PState) (hag : Agree s D) :
    (ExprList n s).sat (SoundE D .ExprList s) := by
  simp only [ExprList]
  refine sat_andThen_gen (sat_and (sound_Expr D n _ hag) (sameTables_compat.sat_Expr n _))
    (fun s1 _ => soundE_false _ _ _ _) (fun s1 h => ?_)
  obtain ⟨hs, hfr⟩ := h
  obtain ⟨f, hf, hc⟩ := hs rfl
  refine sat_mono (sound_ExprListLoop D n s1 (hag.of_defVar hfr.1)) (fun b s' h hb => ?_)
  rcases h hb with ⟨_, hc2⟩ | ⟨hop, ts1, ht1, hc2⟩
  · exact ⟨f, .listOne f hf, by simpa using hc.trans hc2⟩
  · exact ⟨f ++ (GetNextToken s1).1 :: ts1, .listMore f _ ts1 hf hop ht1, hc.trans hc2⟩

theorem sound_LogicExpr (D : List String) (n : Nat) (s : PState) (hag : Agree s D) :
    (LogicExpr n s).sat (SoundE D .LogicExpr s) := by
  simp only [LogicExpr]
  refine sat_andThen_gen (sat_and (sound_Expr D n _ hag) (sameTables_compat.sat_Expr n _))
    (fun s1 _ => soundE_false _ _ _ _) (fun s1 h => ?_)
  obtain ⟨hs, hfr⟩ := h
  obtain ⟨a, ha, hc⟩ := hs rfl
  split_ifs with h1
  · exact sat_pushBack_gen (fun _ => soundE_false _ _ _ _)
  · refine sat_andThen_gen (sound_Expr D n _ (hag.of_defVar hfr.1).next)
      (fun s2 _ => soundE_false _ _ _ _) (fun s2 h2 => ?_)
    obtain ⟨b, hb, hc2⟩ := h2 rfl
    intro _
    refine ⟨a ++ (GetNextToken s1).1 :: b, .logic a _ b ha ?_ hb, hc.trans hc2.cons_get⟩
    by_contra hcon
    exact h1 ⟨fun h => hcon (Or.inl h), fun h => hcon (Or.inr h)⟩

theorem soundC_false (D : List String) (nt : SNT) (s s' : PState) : SoundC D nt s false s' := by
  intro h; simp at h

theorem sound_Var (D : List String) (s : PState) (hag : Agree s D) :
    (Var s).sat (fun b s' => b = true → (GetNextToken s).1.GetToken = .IDENT ∧
      (GetNextToken s).1.GetLexeme ∈ D ∧ Consumed s [(GetNextToken s).1] s') := by
  simp only [Var]
  split_ifs with h1 h2
  · exact sat_pushBack_gen (fun _ h => by simp at h)
  · intro h; simp at h
  · intro _
    refine ⟨by simpa using h1, ?_, Consumed.get s⟩
    exact (hag.next (s := s) _).1 (by
      cases hd : (GetNextToken s).2.defVar (GetNextToken s).1.GetLexeme <;> simp_all)

theorem sound_AssignStmt (D : List String) (n : Nat) (s : PState) (hag : Agree s D) :
    (AssignStmt n s).sat (SoundC D .AssignStmt s) := by
  simp only [AssignStmt]
  refine sat_andThen_gen (sat_and (sound_Var D _ hag) (sameTables_compat.sat_Var _))
    (fun s1 _ => soundC_false _ _ _ _) (fun s1 h => ?_)
  obtain ⟨hs, hfr⟩ := h
  obtain ⟨hk, hd, hc⟩ := hs rfl
  split_ifs with h1
  · exact sat_pushBack_gen (fun _ => soundC_false _ _ _ _)
  · refine sat_andThen_gen (sound_Expr D n _ (hag.of_defVar hfr.1).next)
      (fun s2 _ => soundC_false _ _ _ _) (fun s2 h2 => ?_)
    obtain ⟨e, he, hc2⟩ := h2 rfl
    intro _
    exact ⟨(GetNextToken s).1 :: (GetNextToken s1).1 :: e,
      .assign D _ _ e hk hd (by simpa using h1) he, hc.trans hc2.cons_get⟩

theorem sound_WriteStmt (D : List String) (n : Nat) (s : PState) (hag : Agree s D) :
    (WriteStmt n s).sat (SoundC D .WriteStmt s) := by
  simp only [WriteStmt]
  split_ifs with h1
  · exact sat_pushBack_gen (fun _ => soundC_false _ _ _ _)
  · refine sat_andThen_gen (sound_ExprList D n _ hag.next)
      (fun s2 _ => soundC_false _ _ _ _) (fun s2 h2 => ?_)
    obtain ⟨e, he, hc2⟩ := h2 rfl
    intro _
    exact ⟨(GetNextToken s).1 :: e, .write D _ e (by simpa using h1) he, hc2.cons_get⟩

theorem sound_control (D : List String) : ∀ n,
    (∀ s, Agree s D → (ControlStmt n s).sat (SoundC D .ControlStmt s)) ∧
    (∀ s, Agree s D → (IfStmt n s).sat (SoundC D .IfStmt s)) := by
  intro n
  induction n with
  | zero => simp [ControlStmt, IfStmt, Res.sat]
  | succ n ih =>
    obtain ⟨ihC, ihI⟩ := ih
    refine ⟨?_, ?_⟩
    · intro s hag
      simp only [ControlStmt]
      split_ifs with h1 h2 h3
      · refine sat_pushBack_gen (fun _ => ?_)
        refine sat_mono (sound_AssignStmt D n _ (hag.next.of_defVar rfl)) (fun b s' h hb => ?_)
        obtain ⟨ts, hts, hc⟩ := h hb
        exact ⟨ts, .ctlAssign D ts hts, by simpa using (Consumed.unget s).trans hc⟩
      · refine sat_pushBack_gen (fun _ => ?_)
        refine sat_mono (ihI _ (hag.next.of_defVar rfl)) (fun b s' h hb => ?_)
        obtain ⟨ts, hts, hc⟩ := h hb
        exact ⟨ts, .ctlIf D ts hts, by simpa using (Consumed.unget s).trans hc⟩
      · refine sat_pushBack_gen (fun _ => ?_)
        refine sat_mono (sound_WriteStmt D n _ (hag.next.of_defVar rfl)) (fun b s' h hb => ?_)
        obtain ⟨ts, hts, hc⟩ := h hb
        exact ⟨ts, .ctlWrite D ts hts, by simpa using (Consumed.unget s).trans hc⟩
      · exact sat_pushBack_gen (fun _ => soundC_false _ _ _ _)
    · intro s hag
      simp only [IfStmt]
      split_ifs with h1 h2
      · exact sat_pushBack_gen (fun _ => soundC_false _ _ _ _)
      · exact sat_pushBack_gen (fun _ => soundC_false _ _ _ _)
      · refine sat_andThen_gen (sat_and (sound_LogicExpr D n _ hag.next.next)
          (sameTables_compat.sat_LogicExpr n _))
          (fun s1 _ => soundC_false _ _ _ _) (fun s1 h => ?_)
        obtain ⟨hs, hfr⟩ := h
        obtain ⟨c, hcd, hc⟩ := hs rfl
        split_ifs with h3
        · exact sat_pushBack_gen (fun _ => soundC_false _ _ _ _)
        · refine sat_andThen_gen (ihC _ (hag.next.next.of_defVar hfr.1).next)
            (fun s2 _ => soundC_false _ _ _ _) (fun s2 h4 => ?_)
          obtain ⟨b, hb, hc2⟩ := h4 rfl
          intro _
          refine ⟨(GetNextToken s).1 :: (GetNextToken (GetNextToken s).2).1 ::
            c ++ (GetNextToken s1).1 :: b,
            .ifStmt D _ _ _ c b (by simpa using h1) (by simpa using h2) hcd
              (by simpa using h3) hb, ?_⟩
          have := (Consumed.get s).trans ((Consumed.get _).trans (hc.trans hc2.cons_get))
          simpa using this

theorem soundS_false (D : List String) (nt : SNT) (s s' : PState) : SoundS D nt s false s' := by
  intro h; simp at h

theorem sound_IdentList : ∀ n (D : List String) (s : PState) (tok : LexItem), Agree s D →
    (IdentList n s tok).sat (SoundS D .IdentList s) := by
  intro n
  induction n with
  | zero => simp [IdentList, Res.sat]
  | succ n ih =>
    intro D s tok hag
    simp only [IdentList]
    split_ifs with h1 h2 h3
    · exact soundS_false _ _ _ _
    · exact soundS_false _ _ _ _
    · have hfresh : (GetNextToken s).1.GetLexeme ∉ D := by
        intro hm
        exact h2 ((hag.next (s := s) _).2 hm)
      have hag2 : Agree (((GetNextToken s).2).declare (GetNextToken s).1.GetLexeme tok.GetToken)
          ((GetNextToken s).1.GetLexeme :: D) := hag.next.declare _ _
      refine sat_mono (ih _ _ tok hag2.next) (fun b s' h hb => ?_)
      obtain ⟨ts, D', hts, hag', hc⟩ := h hb
      refine ⟨(GetNextToken s).1 :: _ :: ts, D',
        .identMore D D' _ _ ts (by simpa using h1) hfresh h3 hts, hag', ?_⟩
      exact (Consumed.get s).trans (Consumed.of_source_eq rfl rfl hc.cons_get)
    · have hfresh : (GetNextToken s).1.GetLexeme ∉ D := by
        intro hm
        exact h2 ((hag.next (s := s) _).2 hm)
      have hag2 : Agree (((GetNextToken s).2).declare (GetNextToken s).1.GetLexeme tok.GetToken)
          ((GetNextToken s).1.GetLexeme :: D) := hag.next.declare _ _
      refine sat_pushBack_gen (fun _ => ?_)
      intro _
      refine ⟨[(GetNextToken s).1], _, .identOne D _ (by simpa using h1) hfresh,
        hag2.next.of_defVar rfl, ?_⟩
      have := (Consumed.get s).trans (@Consumed.of_source_eq (GetNextToken s).2
        ((GetNextToken s).2.declare (GetNextToken s).1.GetLexeme tok.GetToken) _ _ rfl rfl
        (Consumed.unget _))
      simpa using this

theorem sound_DeclStmt (D : List String) (n : Nat) (s : PState) (hag : Agree s D) :
    (DeclStmt n s).sat (SoundS D .DeclStmt s) := by
  simp only [DeclStmt]
  split_ifs with h1
  · exact sat_pushBack_gen (fun _ => soundS_false _ _ _ _)
  · refine sat_mono (sound_IdentList n D _ _ hag.next) (fun b s' h hb => ?_)
    obtain ⟨ts, D', hts, hag', hc⟩ := h hb
    refine ⟨(GetNextToken s).1 :: ts, D', .decl D D' _ ts ?_ hts, hag', hc.cons_get⟩
    by_contra hcon
    exact h1 ⟨fun h => hcon (Or.inl h), fun h => hcon (Or.inr h)⟩

theorem sound_Stmt (D : List String) (n : Nat) (s : PState) (hag : Agree s D) :
    (Stmt n s).sat (SoundS D .Stmt s) := by
  simp only [Stmt]
  split_ifs with h1 h2
  · refine sat_pushBack_gen (fun _ => ?_)
    refine sat_mono (sound_DeclStmt D n _ (hag.next.of_defVar rfl)) (fun b s' h hb => ?_)
    obtain ⟨ts, D', hts, hag', hc⟩ := h hb
    exact ⟨ts, D', .stmtDecl D D' ts hts, hag', by simpa using (Consumed.unget s).trans hc⟩
  · refine sat_pushBack_gen (fun _ => ?_)
    refine sat_mono (sat_and ((sound_control D n).1 _ (hag.next.of_defVar rfl))
      (sameTables_compat.sat_ControlStmt n _)) (fun b s' h hb => ?_)
    obtain ⟨ts, hts, hc⟩ := h.1 hb
    exact ⟨ts, D, .stmtCtl D ts hts, (hag.next.of_defVar rfl).of_defVar h.2.1,
      by simpa using (Consumed.unget s).trans hc⟩
  · exact sat_pushBack_gen (fun _ => soundS_false _ _ _ _)

theorem sound_StmtListLoop : ∀ n (D : List String) (s0 : PState), Agree s0 D →
    (StmtListLoop n (GetNextToken s0).1 (GetNextToken s0).2).sat (SoundStmtLoop D s0) := by
  intro n
  induction n with
  | zero => simp [StmtListLoop, Res.sat]
  | succ n ih =>
    intro D s0 hag
    simp only [StmtListLoop]
    split_ifs with h1
    · refine sat_pushBack_gen (fun _ => ?_)
      intro _
      exact Or.inl ⟨h1, hag.next.of_defVar rfl, Consumed.unget s0⟩
    · refine sat_pushBack_gen (fun _ => ?_)
      refine sat_andThen_gen (sound_Stmt D n _ (hag.next.of_defVar rfl))
        (fun s1 _ h => by simp at h) (fun s1 hs => ?_)
      obtain ⟨st, D1, hst, hag1, hc⟩ := hs rfl
      split_ifs with h2 h3
      · exact sat_pushBack_gen (fun _ h => by simp at h)
      · exact sat_pushBack_gen (fun _ h => by simp at h)
      · refine sat_mono (ih D1 _ hag1.next) (fun b s' h hb => ?_)
        refine Or.inr ⟨h1, ?_⟩
        have hsemi : (GetNextToken s1).1.GetToken = .SEMICOL := by simpa using h2
        rcases h hb with ⟨_, hag', hc2⟩ | ⟨_, l, D2, hl, hag', hc2⟩
        · refine ⟨st ++ [(GetNextToken s1).1], D1, .stmtsOne D D1 st _ hst hsemi, hag', ?_⟩
          have := (Consumed.unget s0).trans (hc.trans ((Consumed.get s1).trans hc2))
          simpa using this
        · refine ⟨st ++ (GetNextToken s1).1 :: l, D2, .stmtsMore D D1 D2 st _ l hst hsemi hl,
            hag', ?_⟩
          have := (Consumed.unget s0).trans (hc.trans ((Consumed.get s1).trans hc2))
          simpa using this

theorem sound_StmtList (D : List String) (n : Nat) (s : PState) (hag : Agree s D) :
    (StmtList n s).sat (SoundS D .StmtList s) := by
  simp only [StmtList]
  refine sat_andThen_gen (sound_Stmt D n _ hag)
    (fun s1 _ => soundS_false _ _ _ _) (fun s1 hs => ?_)
  obtain ⟨st, D1, hst, hag1, hc⟩ := hs rfl
  split_ifs with h2 h3
  · exact sat_pushBack_gen (fun _ => soundS_false _ _ _ _)
  · exact sat_pushBack_gen (fun _ => soundS_false _ _ _ _)
  · refine sat_mono (sound_StmtListLoop n D1 _ hag1.next) (fun b s' h hb => ?_)
    have hsemi : (GetNextToken s1).1.GetToken = .SEMICOL := by simpa using h2
    rcases h hb with ⟨_, hag', hc2⟩ | ⟨_, l, D2, hl, hag', hc2⟩
    · refine ⟨st ++ [(GetNextToken s1).1], D1, .stmtsOne D D1 st _ hst hsemi, hag', ?_⟩
      have := hc.trans ((Consumed.get s1).trans hc2)
      simpa using this
    · refine ⟨st ++ (GetNextToken s1).1 :: l, D2, .stmtsMore D D1 D2 st _ l hst hsemi hl,
        hag', ?_⟩
      have := hc.trans ((Consumed.get s1).trans hc2)
      simpa using this

theorem sound_Prog (D : List String) (n : Nat) (s : PState) (hag : Agree s D) :
    (Prog n s).sat (fun b s' => b = true →
      s'.pushed = none ∧ ∃ ts D', DerivesS D .Prog ts D' ∧ Agree s' D' ∧ Consumed s ts s') := by
  simp only [Prog]
  split_ifs with h1 h2 h3
  · intro h; simp at h
  · exact sat_pushBack_gen (fun _ h => by simp at h)
  · exact sat_pushBack_gen (fun _ h => by simp at h)
  · refine sat_andThen_gen (sound_StmtList D n _ hag.next.next) (fun s1 _ h => by simp at h)
      (fun s1 hs => ?_)
    obtain ⟨l, D', hl, hag', hc⟩ := hs rfl
    split_ifs with h4 h5
    · exact sat_pushBack_gen (fun _ h => by simp at h)
    · exact sat_pushBack_gen (fun _ h => by simp at h)
    · intro _
      refine ⟨GetNextToken_pushed _, (GetNextToken s).1 :: (GetNextToken (GetNextToken s).2).1 ::
        l ++ [(GetNextToken s1).1, (GetNextToken (GetNextToken s1).2).1], D',
        .prog D D' _ _ _ _ l (by simpa using h2) (by simpa using h3) hl (by simpa using h4)
          (by simpa using h5), hag'.next.next, ?_⟩
      have := (Consumed.get s).trans ((Consumed.get _).trans (hc.trans
        ((Consumed.get s1).trans (Consumed.get _))))
      simpa using this

theorem DerivesS.prog_last {D D' : List String} {ts : List LexItem}
    (h : DerivesS D .Prog ts D') : ∃ init p2, ts = init ++ [p2] ∧ p2.GetToken = .PROGRAM := by
  cases h with
  | prog _ _ p name e p2 l _ _ _ _ hp2 =>
    exact ⟨p :: name :: l ++ [e], p2, by simp, hp2⟩

theorem declareAndAssign_derives :
    DerivesS [] .Prog (declareAndAssign.map Prod.fst) ["a"] :=
  .prog [] ["a"] ⟨.PROGRAM, "PROGRAM", 1⟩ ⟨.IDENT, "P", 1⟩ ⟨.END, "END", 1⟩
    ⟨.PROGRAM, "PROGRAM", 1⟩
    [⟨.INT, "INT", 1⟩, ⟨.IDENT, "a", 1⟩, ⟨.SEMICOL, ";", 1⟩, ⟨.IDENT, "a", 1⟩,
      ⟨.ASSOP, "=", 1⟩, ⟨.ICONST, "5", 1⟩, ⟨.SEMICOL, ";", 1⟩]
    rfl rfl
    (.stmtsMore [] ["a"] ["a"] [⟨.INT, "INT", 1⟩, ⟨.IDENT, "a", 1⟩] ⟨.SEMICOL, ";", 1⟩
      [⟨.IDENT, "a", 1⟩, ⟨.ASSOP, "=", 1⟩, ⟨.ICONST, "5", 1⟩, ⟨.SEMICOL, ";", 1⟩]
      (.stmtDecl [] ["a"] _ (.decl [] ["a"] ⟨.INT, "INT", 1⟩ [⟨.IDENT, "a", 1⟩] (Or.inl rfl)
        (.identOne [] ⟨.IDENT, "a", 1⟩ rfl (by simp))))
      rfl
      (.stmtsOne ["a"] ["a"] [⟨.IDENT, "a", 1⟩, ⟨.ASSOP, "=", 1⟩, ⟨.ICONST, "5", 1⟩]
        ⟨.SEMICOL, ";", 1⟩
        (.stmtCtl ["a"] _ (.ctlAssign ["a"] _ (.assign ["a"] ⟨.IDENT, "a", 1⟩ ⟨.ASSOP, "=", 1⟩
          [⟨.ICONST, "5", 1⟩] rfl (by simp [LexItem.GetLexeme]) rfl
          (.exprOne _ (.termOne _ (.unsigned _ (.iconst ⟨.ICONST, "5", 1⟩ rfl)))))))
        rfl))
    rfl rfl

theorem run_writeOnly : Prog 6 (initState writeOnly 1) = .done true (initState [] 1) := by
  simp [Prog, StmtList, StmtListLoop, Stmt, ControlStmt, WriteStmt, ExprList, ExprListLoop,
    Expr, ExprLoop, Term, TermLoop, SFactor, Factor, GetNextToken, getNextToken, pushBack,
    PushBackToken, initState, writeOnly, entry, LexItem.GetToken, Res.andThen]

theorem run_writeNoSemicolon :
    Prog 6 (initState writeNoSemicolon 1) = .done false
      (ParseError 1 "Missing a semicolon."
        ((initState [entry .PROGRAM "PROGRAM" 1] 1).seek (some ⟨.END, "END", 1⟩)
          [entry .PROGRAM "PROGRAM" 1] 1)) := by
  simp [Prog, StmtList, StmtListLoop, Stmt, ControlStmt, WriteStmt, ExprList, ExprListLoop,
    Expr, ExprLoop, Term, TermLoop, SFactor, Factor, GetNextToken, getNextToken, pushBack,
    PushBackToken, initState, writeNoSemicolon, entry, LexItem.GetToken, Res.andThen, failWith,
    ParseError, PState.seek]

theorem write_one_derives :
    DerivesS [] .Stmt ([entry .WRITE "WRITE" 1, entry .ICONST "1" 1].map Prod.fst) [] :=
  .stmtCtl [] _ (.ctlWrite [] _ (.write [] ⟨.WRITE, "WRITE", 1⟩ [⟨.ICONST, "1", 1⟩] rfl
    (.listOne _ (.exprOne _ (.termOne _ (.unsigned _ (.iconst ⟨.ICONST, "1", 1⟩ rfl)))))))

theorem unread_get_le (s : PState) : (GetNextToken s).2.unread ≤ s.unread := by
  obtain ⟨inp, ln, p, dv, st, ec, out⟩ := s
  cases p with
  | some t => simp [GetNextToken, PState.unread]
  | none =>
    cases inp with
    | nil => simp [GetNextToken, getNextToken, PState.unread]
    | cons x rest => simp [GetNextToken, getNextToken, PState.unread]

theorem unread_get_lt (s : PState) (h : (GetNextToken s).1.GetToken ≠ .DONE) :
    (GetNextToken s).2.unread < s.unread := by
  obtain ⟨inp, ln, p, dv, st, ec, out⟩ := s
  cases p with
  | some t =>
    simp only [GetNextToken] at h
    simp [GetNextToken, PState.unread, h]
  | none =>
    cases inp with
    | nil => simp [GetNextToken, getNextToken, LexItem.GetToken] at h
    | cons x rest => simp [GetNextToken, getNextToken, PState.unread]

theorem unread_unget (s : PState) :
    PState.unread { (GetNextToken s).2 with pushed := some (GetNextToken s).1 } ≤ s.unread := by
  obtain ⟨inp, ln, p, dv, st, ec, out⟩ := s
  cases p with
  | some t => simp [GetNextToken, PState.unread]
  | none =>
    cases inp with
    | nil => simp [GetNextToken, getNextToken, PState.unread, LexItem.GetToken]
    | cons x rest =>
      simp only [GetNextToken, getNextToken, PState.unread, List.length_cons]
      split_ifs <;> omega

theorem unread_declare (name : String) (ty : Token) (s : PState) :
    (s.declare name ty).unread = s.unread := rfl

theorem Returns.mono {F : Nat → Res} {a b : Nat} (h : Returns F a) (hab : a ≤ b) :
    Returns F b := by
  obtain ⟨r, s', n, hn, hs⟩ := h
  exact ⟨r, s', n, hn, le_trans hs hab⟩

theorem Returns.const {b : Bool} {s' : PState} {bound : Nat} (h : s'.unread ≤ bound) :
    Returns (fun _ => .done b s') bound :=
  ⟨b, s', 0, fun _ _ => rfl, h⟩

theorem Returns.fail {msg : String} {s : PState} {bound : Nat} (h : s.unread ≤ bound) :
    Returns (fun _ => failWith msg s) bound :=
  ⟨false, _, 0, fun _ _ => rfl, h⟩

theorem Returns.shift {F : Nat → Res} {bound : Nat} (h : Returns (fun m => F (m + 1)) bound) :
    Returns F bound := by
  obtain ⟨r, s', n, hn, hs⟩ := h
  refine ⟨r, s', n + 1, fun m hm => ?_, hs⟩
  obtain ⟨m, rfl⟩ : ∃ k, m = k + 1 := ⟨m - 1, by omega⟩
  exact hn m (by omega)

theorem Returns.andThen {R : Nat → Res} {f g : Nat → PState → Res} {mid bound : Nat}
    (hR : Returns R mid)
    (hf : ∀ s1 : PState, s1.unread ≤ mid → Returns (fun m => f m s1) bound)
    (hg : ∀ s1 : PState, s1.unread ≤ mid → Returns (fun m => g m s1) bound) :
    Returns (fun m => (R m).andThen (f m) (g m)) bound := by
  obtain ⟨b1, s1, n1, hn1, hs1⟩ := hR
  cases b1 with
  | false =>
    obtain ⟨b2, s2, n2, hn2, hs2⟩ := hf s1 hs1
    refine ⟨b2, s2, n1 + n2, fun m hm => ?_, hs2⟩
    simp only [hn1 m (by omega), andThen_false]
    exact hn2 m (by omega)
  | true =>
    obtain ⟨b2, s2, n2, hn2, hs2⟩ := hg s1 hs1
    refine ⟨b2, s2, n1 + n2, fun m hm => ?_, hs2⟩
    simp only [hn1 m (by omega), andThen_true]
    exact hn2 m (by omega)

theorem returns_const_get (b : Bool) (s : PState) :
    Returns (fun _ => .done b (GetNextToken s).2) s.unread :=
  Returns.const (unread_get_le s)

theorem returns_fail_get (msg : String) (s : PState) :
    Returns (fun _ => failWith msg (GetNextToken s).2) s.unread :=
  Returns.fail (unread_get_le s)

theorem returns_push_fail (msg : String) (s : PState) :
    Returns (fun _ => pushBack (GetNextToken s).1 (GetNextToken s).2 (failWith msg)) s.unread := by
  simp only [pushBack_get]
  exact Returns.fail (unread_unget s)

theorem returns_push_ret (s : PState) :
    Returns (fun _ => pushBack (GetNextToken s).1 (GetNextToken s).2 (.done true)) s.unread := by
  simp only [pushBack_get]
  exact Returns.const (unread_unget s)

theorem returns_expr (k : Nat) : ∀ s : PState, s.unread ≤ k →
    (∀ sg, Returns (fun m => Factor m s sg) s.unread) ∧
    Returns (fun m => SFactor m s) s.unread ∧
    Returns (fun m => TermLoop m (GetNextToken s).1 (GetNextToken s).2) s.unread ∧
    Returns (fun m => Term m s) s.unread ∧
    Returns (fun m => ExprLoop m (GetNextToken s).1 (GetNextToken s).2) s.unread ∧
    Returns (fun m => Expr m s) s.unread := by
  induction k using Nat.strong_induction_on with
  | _ k ih =>
    -- the rules on a state with fewer unread tokens
    have ihE : ∀ s1 : PState, s1.unread < k → Returns (fun m => Expr m s1) s1.unread :=
      fun s1 h => (ih _ h s1 le_rfl).2.2.2.2.2
    have ihS : ∀ s1 : PState, s1.unread < k → Returns (fun m => SFactor m s1) s1.unread :=
      fun s1 h => (ih _ h s1 le_rfl).2.1
    have ihT : ∀ s1 : PState, s1.unread < k → Returns (fun m => Term m s1) s1.unread :=
      fun s1 h => (ih _ h s1 le_rfl).2.2.2.1
    have ihTL : ∀ s1 : PState, s1.unread < k →
        Returns (fun m => TermLoop m (GetNextToken s1).1 (GetNextToken s1).2) s1.unread :=
      fun s1 h => (ih _ h s1 le_rfl).2.2.1
    have ihEL : ∀ s1 : PState, s1.unread < k →
        Returns (fun m => ExprLoop m (GetNextToken s1).1 (GetNextToken s1).2) s1.unread :=
      fun s1 h => (ih _ h s1 le_rfl).2.2.2.2.1
    have hF : ∀ s : PState, s.unread ≤ k → ∀ sg, Returns (fun m => Factor m s sg) s.unread := by
      intro s hs sg
      apply Returns.shift
      simp only [Factor]
      split_ifs with h1 h2 h3 h4
      · exact returns_fail_get _ s
      · exact returns_const_get _ s
      · exact returns_const_get _ s
      · exact returns_fail_get _ s
      · have hlt : (GetNextToken s).2.unread < s.unread :=
          unread_get_lt s (by
            have : (GetNextToken s).1.GetToken = .LPAREN := by simpa using h4
            simp [this])
        refine Returns.andThen (ihE _ (by omega)) (fun s1 h1 => Returns.fail (by omega))
          (fun s1 h1 => ?_)
        split_ifs
        · exact (returns_fail_get _ s1).mono (by omega)
        · exact (returns_const_get _ s1).mono (by omega)
    have hS : ∀ s : PState, s.unread ≤ k → Returns (fun m => SFactor m s) s.unread := by
      intro s hs
      apply Returns.shift
      simp only [SFactor]
      have hle := unread_get_le s
      split_ifs with h1 h2
      · exact (hF _ (by omega) 1).mono hle
      · exact (hF _ (by omega) (-1)).mono hle
      · simp only [pushBack_get]
        exact (hF _ (le_trans (unread_unget s) hs) 1).mono (unread_unget s)
    have hTL : ∀ s : PState, s.unread ≤ k →
        Returns (fun m => TermLoop m (GetNextToken s).1 (GetNextToken s).2) s.unread := by
      intro s hs
      apply Returns.shift
      simp only [TermLoop]
      split_ifs with h1
      · have hlt : (GetNextToken s).2.unread < s.unread :=
          unread_get_lt s (by rcases h1 with h | h | h <;> simp [h])
        refine Returns.andThen (ihS _ (by omega)) (fun s1 h1 => Returns.fail (by omega))
          (fun s1 h1 => ?_)
        exact (ihTL s1 (by omega)).mono (by omega)
      · exact returns_push_ret s
    have hT : ∀ s : PState, s.unread ≤ k → Returns (fun m => Term m s) s.unread := by
      intro s hs
      apply Returns.shift
      simp only [Term]
      refine Returns.andThen (hS s hs) (fun s1 h1 => Returns.fail h1) (fun s1 h1 => ?_)
      exact (hTL s1 (by omega)).mono h1
    have hEL : ∀ s : PState, s.unread ≤ k →
        Returns (fun m => ExprLoop m (GetNextToken s).1 (GetNextToken s).2) s.unread := by
      intro s hs
      apply Returns.shift
      simp only [ExprLoop]
      split_ifs with h1
      · have hlt : (GetNextToken s).2.unread < s.unread :=
          unread_get_lt s (by rcases h1 with h | h <;> simp [h])
        refine Returns.andThen (ihT _ (by omega)) (fun s1 h1 => Returns.fail (by omega))
          (fun s1 h1 => ?_)
        exact (ihEL s1 (by omega)).mono (by omega)
      · exact returns_push_ret s
    have hE : ∀ s : PState, s.unread ≤ k → Returns (fun m => Expr m s) s.unread := by
      intro s hs
      apply Returns.shift
      simp only [Expr]
      refine Returns.andThen (hT s hs) (fun s1 h1 => Returns.fail h1) (fun s1 h1 => ?_)
      exact (hEL s1 (by omega)).mono h1
    exact fun s hs => ⟨hF s hs, hS s hs, hTL s hs, hT s hs, hEL s hs, hE s hs⟩

theorem returns_Expr (s : PState) : Returns (fun m => Expr m s) s.unread :=
  (returns_expr s.unread s le_rfl).2.2.2.2.2

theorem returns_Factor (s : PState) (sg : Int) : Returns (fun m => Factor m s sg) s.unread :=
  (returns_expr s.unread s le_rfl).1 sg

theorem returns_SFactor (s : PState) : Returns (fun m => SFactor m s) s.unread :=
  (returns_expr s.unread s le_rfl).2.1

theorem returns_Term (s : PState) : Returns (fun m => Term m s) s.unread :=
  (returns_expr s.unread s le_rfl).2.2.2.1

theorem returns_ExprListLoop (k : Nat) : ∀ s : PState, s.unread ≤ k →
    Returns (fun m => ExprListLoop m (GetNextToken s).1 (GetNextToken s).2) s.unread := by
  induction k using Nat.strong_induction_on with
  | _ k ih =>
    intro s hs
    apply Returns.shift
    simp only [ExprListLoop]
    split_ifs with h1
    · have hlt : (GetNextToken s).2.unread < s.unread := unread_get_lt s (by simp [h1])
      refine Returns.andThen (returns_Expr _) (fun s1 h1 => Returns.fail (by omega))
        (fun s1 h1 => ?_)
      exact (ih s1.unread (by omega) s1 le_rfl).mono (by omega)
    · exact returns_push_ret s

theorem returns_ExprList (s : PState) : Returns (fun m => ExprList m s) s.unread := by
  simp only [ExprList]
  refine Returns.andThen (returns_Expr s) (fun s1 h1 => Returns.fail h1) (fun s1 h1 => ?_)
  exact (returns_ExprListLoop _ s1 le_rfl).mono h1

theorem returns_LogicExpr (s : PState) : Returns (fun m => LogicExpr m s) s.unread := by
  simp only [LogicExpr]
  refine Returns.andThen (returns_Expr s) (fun s1 h1 => Returns.fail h1) (fun s1 h1 => ?_)
  split_ifs
  · exact (returns_push_fail _ s1).mono h1
  · have := unread_get_le s1
    refine Returns.andThen (returns_Expr _) (fun s2 h2 => Returns.fail (by omega))
      (fun s2 h2 => Returns.const (by omega))

theorem returns_Var (s : PState) : Returns (fun _ => Var s) s.unread := by
  simp only [Var]
  split_ifs
  · exact returns_push_fail _ s
  · exact returns_fail_get _ s
  · exact returns_const_get _ s

theorem returns_AssignStmt (s : PState) : Returns (fun m => AssignStmt m s) s.unread := by
  simp only [AssignStmt]
  refine Returns.andThen (returns_Var s) (fun s1 h1 => Returns.const h1) (fun s1 h1 => ?_)
  split_ifs
  · exact (returns_push_fail _ s1).mono h1
  · have := unread_get_le s1
    refine Returns.andThen (returns_Expr _) (fun s2 h2 => Returns.fail (by omega))
      (fun s2 h2 => Returns.const (by omega))

theorem returns_WriteStmt (s : PState) : Returns (fun m => WriteStmt m s) s.unread := by
  simp only [WriteStmt]
  split_ifs
  · exact returns_push_fail _ s
  · have := unread_get_le s
    refine Returns.andThen (returns_ExprList _) (fun s2 h2 => Returns.fail (by omega))
      (fun s2 h2 => Returns.const (by omega))

theorem returns_control (k : Nat) : ∀ s : PState, s.unread ≤ k →
    Returns (fun m => ControlStmt m s) s.unread ∧ Returns (fun m => IfStmt m s) s.unread := by
  induction k using Nat.strong_induction_on with
  | _ k ih =>
    have hI : ∀ s : PState, s.unread ≤ k → Returns (fun m => IfStmt m s) s.unread := by
      intro s hs
      apply Returns.shift
      simp only [IfStmt]
      split_ifs with h1 h2
      · exact returns_push_fail _ s
      · exact (returns_push_fail _ _).mono (unread_get_le s)
      · have hlt : (GetNextToken s).2.unread < s.unread :=
          unread_get_lt s (by
            have : (GetNextToken s).1.GetToken = .IF := by simpa using h1
            simp [this])
        have hle := unread_get_le (GetNextToken s).2
        refine Returns.andThen (returns_LogicExpr _) (fun s1 h1 => Returns.const (by omega))
          (fun s1 h1 => ?_)
        split_ifs
        · exact (returns_push_fail _ s1).mono (by omega)
        · have := unread_get_le s1
          refine Returns.andThen ((ih (GetNextToken s1).2.unread (by omega) _ le_rfl).1)
            (fun s2 h2 => Returns.fail (by omega)) (fun s2 h2 => Returns.const (by omega))
    have hC : ∀ s : PState, s.unread ≤ k → Returns (fun m => ControlStmt m s) s.unread := by
      intro s hs
      apply Returns.shift
      simp only [ControlStmt]
      split_ifs
      · simp only [pushBack_get]
        exact (returns_AssignStmt _).mono (unread_unget s)
      · simp only [pushBack_get]
        exact (hI _ (le_trans (unread_unget s) hs)).mono (unread_unget s)
      · simp only [pushBack_get]
        exact (returns_WriteStmt _).mono (unread_unget s)
      · exact returns_push_fail _ s
    exact fun s hs => ⟨hC s hs, hI s hs⟩

theorem returns_ControlStmt (s : PState) : Returns (fun m => ControlStmt m s) s.unread :=
  (returns_control s.unread s le_rfl).1

theorem returns_IfStmt (s : PState) : Returns (fun m => IfStmt m s) s.unread :=
  (returns_control s.unread s le_rfl).2

theorem returns_IdentList (k : Nat) : ∀ (s : PState) (tok : LexItem), s.unread ≤ k →
    Returns (fun m => IdentList m s tok) s.unread := by
  induction k using Nat.strong_induction_on with
  | _ k ih =>
    intro s tok hs
    apply Returns.shift
    simp only [IdentList]
    split_ifs with h1 h2 h3
    · exact returns_fail_get _ s
    · exact returns_fail_get _ s
    · have hlt : (GetNextToken s).2.unread < s.unread :=
        unread_get_lt s (by
          have : (GetNextToken s).1.GetToken = .IDENT := by simpa using h1
          simp [this])
      have hle := unread_get_le ((GetNextToken s).2.declare (GetNextToken s).1.GetLexeme
        tok.GetToken)
      rw [unread_declare] at hle
      exact (ih _ (by omega) _ tok le_rfl).mono (by omega)
    · have hle := unread_get_le s
      have := returns_push_ret ((GetNextToken s).2.declare (GetNextToken s).1.GetLexeme
        tok.GetToken)
      rw [unread_declare] at this
      exact this.mono hle

theorem returns_DeclStmt (s : PState) : Returns (fun m => DeclStmt m s) s.unread := by
  simp only [DeclStmt]
  split_ifs
  · exact returns_push_fail _ s
  · exact (returns_IdentList _ _ _ le_rfl).mono (unread_get_le s)

theorem returns_Stmt (s : PState) : Returns (fun m => Stmt m s) s.unread := by
  simp only [Stmt]
  split_ifs
  · simp only [pushBack_get]
    exact (returns_DeclStmt _).mono (unread_unget s)
  · simp only [pushBack_get]
    exact (returns_ControlStmt _).mono (unread_unget s)
  · exact returns_push_fail _ s

theorem returns_StmtListLoop (k : Nat) : ∀ s : PState, s.unread ≤ k →
    Returns (fun m => StmtListLoop m (GetNextToken s).1 (GetNextToken s).2) s.unread := by
  induction k using Nat.strong_induction_on with
  | _ k ih =>
    intro s hs
    apply Returns.shift
    simp only [StmtListLoop]
    split_ifs with h1
    · exact returns_push_ret s
    · simp only [pushBack_get]
      have hle := unread_unget s
      refine Returns.andThen (returns_Stmt _) (fun s1 h1 => Returns.const (le_trans h1 hle))
        (fun s1 h1 => ?_)
      split_ifs with h2 h3
      · exact Returns.fail (le_trans (unread_unget s1) (le_trans h1 hle))
      · exact Returns.fail (le_trans (unread_unget s1) (le_trans h1 hle))
      · have hlt : (GetNextToken s1).2.unread < s1.unread :=
          unread_get_lt s1 (by
            have : (GetNextToken s1).1.GetToken = .SEMICOL := by simpa using h2
            simp [this])
        have h4 := le_trans h1 hle
        exact (ih _ (by omega) (GetNextToken s1).2 le_rfl).mono (by omega)

theorem returns_StmtList (s : PState) : Returns (fun m => StmtList m s) s.unread := by
  simp only [StmtList]
  refine Returns.andThen (returns_Stmt s) (fun s1 h1 => Returns.const h1) (fun s1 h1 => ?_)
  split_ifs with h2 h3
  · exact (returns_push_fail _ s1).mono h1
  · exact (returns_push_fail _ s1).mono h1
  · have := unread_get_le s1
    exact (returns_StmtListLoop _ (GetNextToken s1).2 le_rfl).mono (by omega)

theorem returns_Prog (s : PState) : Returns (fun m => Prog m s) s.unread := by
  simp only [Prog]
  have hle := unread_get_le s
  have hle2 := unread_get_le (GetNextToken s).2
  split_ifs
  · exact returns_fail_get _ s
  · exact returns_push_fail _ s
  · exact (returns_push_fail _ _).mono hle
  · refine Returns.andThen (returns_StmtList _) (fun s1 h1 => Returns.const (by omega))
      (fun s1 h1 => ?_)
    have h3 := unread_get_le s1
    have h4 := unread_get_le (GetNextToken s1).2
    split_ifs
    · exact (returns_push_fail _ s1).mono (by omega)
    · exact (returns_push_fail _ _).mono (by omega)
    · exact Returns.const (by omega)

theorem Reports.of_true {s s' : PState} (h : Reports s true s') :
    s'.error_count = s.error_count ∧ s'.output = s.output := by
  obtain ⟨ext, ho, hc, hb⟩ := h
  obtain rfl : ext = [] := hb.1 rfl
  exact ⟨hc, by rw [ho, List.append_nil]⟩

theorem Reports.contract {s s' : PState} {b : Bool} (h : Reports s b s') :
    ∃ ext : List (Int × String), s'.output = s.output ++ ext ∧ (b = true ↔ ext = []) ∧
      ErrCount s' = countUp ext.length (ErrCount s) ∧
      (INT_MIN ≤ ErrCount s → ErrCount s + ext.length ≤ INT_MAX →
        (b = true ↔ ErrCount s' = ErrCount s) ∧ (b = false → ErrCount s < ErrCount s') ∧
        (ErrCount s = 0 → (b = true ↔ ErrCount s' = 0))) := by
  obtain ⟨ext, ho, hc, hb⟩ := h
  refine ⟨ext, ho, hb, hc, fun h1 h2 => ?_⟩
  simp only [ErrCount] at h1 h2 ⊢
  have hval : s'.error_count = s.error_count + ext.length := by
    rw [hc]; exact countUp_of_range _ _ h1 h2
  have hlen : ext = [] ↔ ext.length = 0 := List.length_eq_zero.symm
  have hiff : b = true ↔ s'.error_count = s.error_count := by
    rw [hb, hlen, hval]
    omega
  refine ⟨hiff, fun hf => ?_, fun h0 => by rw [hiff, h0]⟩
  have hne : ext.length ≠ 0 := by
    intro h0
    have := hb.2 (hlen.2 h0)
    rw [hf] at this
    cases this
  omega

theorem errorContract_of {F : Nat → Res} {s : PState} {bound : Nat} (hr : Returns F bound)
    (hs : ∀ m, (F m).sat (Reports s)) : ErrorContract F s := by
  obtain ⟨b, s', n, hn, -⟩ := hr
  exact ⟨⟨n, b, s', hn⟩, fun m b1 s1 h => (sat_iff.1 (hs m) b1 s1 h).contract⟩

/-! ## Independence of the depth budget -/

theorem below_refl (r : Res) : r.below r := Or.inr rfl

theorem below_timeout (r : Res) : Res.timeout.below r := Or.inl rfl

theorem below_andThen {r r' : Res} {f f' g g' : PState → Res} (h : r.below r')
    (hf : ∀ s, (f s).below (f' s)) (hg : ∀ s, (g s).below (g' s)) :
    (r.andThen f g).below (r'.andThen f' g') := by
  rcases h with h | h
  · subst h; exact Or.inl rfl
  · subst h
    cases r with
    | done b s => cases b <;> simp [hf, hg]
    | abort => exact Or.inr rfl
    | timeout => exact Or.inl rfl

theorem below_pushBack {t : LexItem} {s : PState} {k k' : PState → Res}
    (h : ∀ s, (k s).below (k' s)) : (pushBack t s k).below (pushBack t s k') := by
  unfold pushBack
  cases PushBackToken t s with
  | none => exact Or.inr rfl
  | some s1 => exact h s1

theorem below_expr : ∀ n,
    (∀ s sg, (Factor n s sg).below (Factor (n + 1) s sg)) ∧
    (∀ s, (SFactor n s).below (SFactor (n + 1) s)) ∧
    (∀ t s, (TermLoop n t s).below (TermLoop (n + 1) t s)) ∧
    (∀ s, (Term n s).below (Term (n + 1) s)) ∧
    (∀ t s, (ExprLoop n t s).below (ExprLoop (n + 1) t s)) ∧
    (∀ s, (Expr n s).below (Expr (n + 1) s)) := by
  intro n
  induction n with
  | zero => simp [Factor, SFactor, TermLoop, Term, ExprLoop, Expr, below_timeout]
  | succ n ih =>
    obtain ⟨ihF, ihS, ihTL, ihT, ihEL, ihE⟩ := ih
    refine ⟨?_, ?_, ?_, ?_, ?_, ?_⟩
    · intro s sg
      simp only [Factor]
      split_ifs
      · exact below_refl _
      · exact below_refl _
      · exact below_refl _
      · exact below_refl _
      · exact below_andThen (ihE _) (fun _ => below_refl _) (fun _ => below_refl _)
    · intro s
      simp only [SFactor]
      split_ifs
      · exact ihF _ _
      · exact ihF _ _
      · exact below_pushBack (fun _ => ihF _ _)
    · intro t s
      simp only [TermLoop]
      split_ifs
      · exact below_andThen (ihS _) (fun _ => below_refl _) (fun _ => ihTL _ _)
      · exact below_refl _
    · intro s
      simp only [Term]
      exact below_andThen (ihS _) (fun _ => below_refl _) (fun _ => ihTL _ _)
    · intro t s
      simp only [ExprLoop]
      split_ifs
      · exact below_andThen (ihT _) (fun _ => below_refl _) (fun _ => ihEL _ _)
      · exact below_refl _
    · intro s
      simp only [Expr]
      exact below_andThen (ihT _) (fun _ => below_refl _) (fun _ => ihEL _ _)

theorem below_Expr (n : Nat) (s : PState) : (Expr n s).below (Expr (n + 1) s) :=
  (below_expr n).2.2.2.2.2 s

theorem below_ExprListLoop : ∀ n t s, (ExprListLoop n t s).below (ExprListLoop (n + 1) t s) := by
  intro n
  induction n with
  | zero => simp [ExprListLoop, below_timeout]
  | succ n ih =>
    intro t s
    simp only [ExprListLoop]
    split_ifs
    · exact below_andThen (below_Expr _ _) (fun _ => below_refl _) (fun _ => ih _ _)
    · exact below_refl _

theorem below_ExprList (n : Nat) (s : PState) : (ExprList n s).below (ExprList (n + 1) s) := by
  simp only [ExprList]
  exact below_andThen (below_Expr _ _) (fun _ => below_refl _) (fun _ => below_ExprListLoop _ _ _)

theorem below_LogicExpr (n : Nat) (s : PState) : (LogicExpr n s).below (LogicExpr (n + 1) s) := by
  simp only [LogicExpr]
  refine below_andThen (below_Expr _ _) (fun _ => below_refl _) (fun s1 => ?_)
  split_ifs
  · exact below_refl _
  · exact below_andThen (below_Expr _ _) (fun _ => below_refl _) (fun _ => below_refl _)

theorem below_AssignStmt (n : Nat) (s : PState) :
    (AssignStmt n s).below (AssignStmt (n + 1) s) := by
  simp only [AssignStmt]
  refine below_andThen (below_refl _) (fun _ => below_refl _) (fun s1 => ?_)
  split_ifs
  · exact below_refl _
  · exact below_andThen (below_Expr _ _) (fun _ => below_refl _) (fun _ => below_refl _)

theorem below_WriteStmt (n : Nat) (s : PState) : (WriteStmt n s).below (WriteStmt (n + 1) s) := by
  simp only [WriteStmt]
  split_ifs
  · exact below_refl _
  · exact below_andThen (below_ExprList _ _) (fun _ => below_refl _) (fun _ => below_refl _)

theorem below_control : ∀ n,
    (∀ s, (ControlStmt n s).below (ControlStmt (n + 1) s)) ∧
    (∀ s, (IfStmt n s).below (IfStmt (n + 1) s)) := by
  intro n
  induction n with
  | zero => simp [ControlStmt, IfStmt, below_timeout]
  | succ n ih =>
    obtain ⟨ihC, ihI⟩ := ih
    refine ⟨?_, ?_⟩
    · intro s
      simp only [ControlStmt]
      split_ifs
      · exact below_pushBack (fun _ => below_AssignStmt _ _)
      · exact below_pushBack (fun _ => ihI _)
      · exact below_pushBack (fun _ => below_WriteStmt _ _)
      · exact below_refl _
    · intro s
      simp only [IfStmt]
      split_ifs
      · exact below_refl _
      · exact below_refl _
      · refine below_andThen (below_LogicExpr _ _) (fun _ => below_refl _) (fun s1 => ?_)
        split_ifs
        · exact below_refl _
        · exact below_andThen (ihC _) (fun _ => below_refl _) (fun _ => below_refl _)

theorem below_ControlStmt (n : Nat) (s : PState) :
    (ControlStmt n s).below (ControlStmt (n + 1) s) :=
  (below_control n).1 s

theorem below_IdentList : ∀ n s tok, (IdentList n s tok).below (IdentList (n + 1) s tok) := by
  intro n
  induction n with
  | zero => simp [IdentList, below_timeout]
  | succ n ih =>
    intro s tok
    rw [IdentList, IdentList]
    dsimp only
    split_ifs
    · exact below_refl _
    · exact below_refl _
    · exact ih _ _
    · exact below_refl _

theorem below_DeclStmt (n : Nat) (s : PState) : (DeclStmt n s).below (DeclStmt (n + 1) s) := by
  simp only [DeclStmt]
  split_ifs
  · exact below_refl _
  · exact below_IdentList _ _ _

theorem below_Stmt (n : Nat) (s : PState) : (Stmt n s).below (Stmt (n + 1) s) := by
  simp only [Stmt]
  split_ifs
  · exact below_pushBack (fun _ => below_DeclStmt _ _)
  · exact below_pushBack (fun _ => below_ControlStmt _ _)
  · exact below_refl _

theorem below_StmtListLoop : ∀ n t s, (StmtListLoop n t s).below (StmtListLoop (n + 1) t s) := by
  intro n
  induction n with
  | zero => simp [StmtListLoop, below_timeout]
  | succ n ih =>
    intro t s
    rw [StmtListLoop, StmtListLoop]
    dsimp only
    split_ifs
    · exact below_refl _
    · refine below_pushBack (fun s1 => below_andThen (below_Stmt _ _) (fun _ => below_refl _)
        (fun s2 => ?_))
      split_ifs
      · exact below_refl _
      · exact below_refl _
      · exact ih _ _

theorem below_StmtList (n : Nat) (s : PState) : (StmtList n s).below (StmtList (n + 1) s) := by
  simp only [StmtList]
  refine below_andThen (below_Stmt _ _) (fun _ => below_refl _) (fun s2 => ?_)
  split_ifs
  · exact below_refl _
  · exact below_refl _
  · exact below_StmtListLoop _ _ _

theorem below_Prog (n : Nat) (s : PState) : (Prog n s).below (Prog (n + 1) s) := by
  simp only [Prog]
  split_ifs
  · exact below_refl _
  · exact below_refl _
  · exact below_refl _
  · refine below_andThen (below_StmtList _ _) (fun _ => below_refl _) (fun _ => below_refl _)

/-- A run that did not exhaust its budget gives the same outcome with every
larger budget. -/
theorem below_stable {F : Nat → Res} (h : ∀ n, (F n).below (F (n + 1))) {n : Nat}
    (hn : F n ≠ .timeout) : ∀ m, n ≤ m → F m = F n := by
  intro m hm
  induction m, hm using Nat.le_induction with
  | base => rfl
  | succ m _ ih =>
    rcases h m with h1 | h1
    · rw [ih] at h1; exact absurd h1 hn
    · rw [← h1, ih]

/-- What `Returns` gives for every budget: no run ends in `abort()`, and every
run that returns gives the value and the state all large budgets give. -/
theorem Returns.every_budget {F : Nat → Res} {bound : Nat} (hr : Returns F bound)
    (h : ∀ n, (F n).below (F (n + 1))) :
    (∀ m, F m ≠ .abort) ∧
    ∀ m b s', F m = .done b s' → s'.unread ≤ bound ∧ ∃ n, ∀ k, n ≤ k → F k = .done b s' := by
  obtain ⟨b0, s0, n0, hn0, hs0⟩ := hr
  have key : ∀ m, F m ≠ .timeout → F m = .done b0 s0 := by
    intro m hm
    have h1 := below_stable h hm (max m n0) (le_max_left _ _)
    rw [hn0 _ (le_max_right _ _)] at h1
    exact h1.symm
  refine ⟨fun m hm => ?_, fun m b s' hm => ?_⟩
  · have := key m (by rw [hm]; simp)
    rw [hm] at this
    cases this
  · have := key m (by rw [hm]; simp)
    rw [hm] at this
    cases this
    exact ⟨hs0, n0, hn0⟩

theorem below_Factor (n : Nat) (s : PState) (sg : Int) :
    (Factor n s sg).below (Factor (n + 1) s sg) :=
  (below_expr n).1 s sg

theorem below_SFactor (n : Nat) (s : PState) : (SFactor n s).below (SFactor (n + 1) s) :=
  (below_expr n).2.1 s

theorem below_Term (n : Nat) (s : PState) : (Term n s).below (Term (n + 1) s) :=
  (below_expr n).2.2.2.1 s

theorem below_IfStmt (n : Nat) (s : PState) : (IfStmt n s).below (IfStmt (n + 1) s) :=
  (below_control n).2 s

theorem neverAborts_of {F : Nat → Res} {bound : Nat} (hr : Returns F bound)
    (h : ∀ n, (F n).below (F (n + 1))) : NeverAborts F := by
  refine ⟨(hr.every_budget h).1, ?_⟩
  obtain ⟨b, s', n, hn, -⟩ := hr
  exact ⟨n, b, s', hn⟩

/-- After `PROGRAM`, a program name and zero or more groups `Stmt ;`, a token
`x` that is neither `END` nor the start of a statement makes `Prog` return
`false` with the one diagnostic "Invalid Statement", `x` being pushed back. -/
theorem Prog_no_END_Invalid_Statement (D1 : List String) (l : List LexItem)
    (hl : StmtSemis [] l D1) (p name x : LexItem × Int) (pl rest : List (LexItem × Int))
    (line : Int) (hp : p.1.GetToken = .PROGRAM) (hname : name.1.GetToken = .IDENT)
    (hpl : pl.map Prod.fst = l) (hx : x.1.GetToken ≠ .END)
    (hns : x.1.GetToken ≠ .INT ∧ x.1.GetToken ≠ .FLOAT ∧ x.1.GetToken ≠ .IDENT ∧
      x.1.GetToken ≠ .IF ∧ x.1.GetToken ≠ .WRITE) :
    ∃ n s', (∀ m, n ≤ m →
        Prog m (initState (p :: name :: (pl ++ x :: rest)) line) = .done false s') ∧
      s'.output = [(x.2, "Invalid Statement")] ∧ ErrCount s' = 1 ∧ s'.pushed = some x.1 := by
  have hag : Agree (initState (p :: name :: (pl ++ x :: rest)) line) [] := by
    intro y; simp [initState]
  obtain ⟨s1, -, he1, ho1, hcont⟩ := StmtSemis_continue hl _ name.2 pl x rest hpl hag hx
  obtain ⟨n, hn⟩ := hcont (.done false ((ParseError x.2 "Invalid Statement" s1).seek (some x.1)
    rest x.2)) 0 (fun m _ => by
      simp [StmtList, Stmt, hns])
  refine ⟨n, (ParseError x.2 "Invalid Statement" s1).seek (some x.1) rest x.2,
    fun m hm => ?_, ?_, ?_, rfl⟩
  · have := Prog_of_StmtList_false m _ _ p name _ line hp hname (hn m hm)
    simpa [PState.seek, initState] using this
  · simp [ParseError, ho1, initState]
  · simp [ErrCount, ParseError, he1, initState]

theorem keeps_of {R : PState → Bool → PState → Prop} {F : Nat → Res} {s : PState} {bound : Nat}
    (hr : Returns F bound) (hs : ∀ m, (F m).sat (R s)) : Keeps R F s := by
  obtain ⟨b, s', n, hn, -⟩ := hr
  exact ⟨⟨n, b, s', hn⟩, fun m b1 s1 h => sat_iff.1 (hs m) b1 s1 h⟩

theorem keepsEntries_compat : CompatDecl KeepsEntries where
  ret := fun _ _ _ => ⟨rfl, rfl⟩
  fail := fun _ _ _ _ => ⟨rfl, rfl⟩
  failAfter := fun _ _ _ h => h
  seq := fun s s1 _ s' h1 h2 x hx => by
    obtain ⟨h1d, h1s⟩ := h1 x hx
    obtain ⟨h2d, h2s⟩ := h2 x (by rw [h1d]; exact hx)
    exact ⟨h2d.trans h1d, h2s.trans h1s⟩
  get := fun s _ _ h x hx => by
    have hd := GetNextToken_defVar s
    have ht := GetNextToken_SymTable s
    obtain ⟨h1, h2⟩ := h x (by rw [hd]; exact hx)
    exact ⟨by rw [h1, hd], by rw [h2, ht]⟩
  push := fun _ _ _ _ _ h => h
  declare := fun s name ty _ s' hfresh h x hx => by
    have hne : x ≠ name := by
      rintro rfl
      rw [hx] at hfresh
      cases hfresh
    have hd : (s.declare name ty).defVar x = s.defVar x := by simp [PState.declare, hne]
    have ht : (s.declare name ty).SymTable x = s.SymTable x := by simp [PState.declare, hne]
    obtain ⟨h1, h2⟩ := h x (by rw [hd]; exact hx)
    exact ⟨by rw [h1, hd], by rw [h2, ht]⟩

theorem pushedBack_fail (s : PState) (msg : String) :
    PushedBack (pushBack (GetNextToken s).1 (GetNextToken s).2 (failWith msg))
      (GetNextToken s).1 := by
  rw [pushBack_get]
  exact ⟨_, rfl, rfl, by simp [failWith, ParseError, GetNextToken]⟩

theorem GetNextToken_of_empty (s : PState) (h : s.pushed = none) :
    GetNextToken s = getNextToken s := by
  unfold GetNextToken
  rw [h]

theorem notPushedBack_fail (s : PState) (msg : String) :
    NotPushedBack (failWith msg (GetNextToken s).2) (GetNextToken s).2.input := by
  have hp := GetNextToken_pushed s
  have hp2 : (failWith msg (GetNextToken s).2 = .done false
      (ParseError (GetNextToken s).2.line msg (GetNextToken s).2)) := rfl
  exact ⟨_, hp2, hp, rfl, GetNextToken_of_empty _ hp⟩

theorem sat_true (r : Res) : r.sat (fun _ _ => True) := by
  cases r <;> trivial

/-- A `true` return of the loop of `StmtList` leaves an `END` token pending. -/
theorem StmtListLoop_true_END : ∀ n t s,
    (StmtListLoop n t s).sat
      (fun b s' => b = true → ∃ e : LexItem, s'.pushed = some e ∧ e.GetToken = .END) := by
  intro n
  induction n with
  | zero => simp [StmtListLoop, Res.sat]
  | succ n ih =>
    intro t s
    simp only [StmtListLoop]
    split_ifs with h
    · exact sat_pushBack_gen (fun _ _ => ⟨t, rfl, h⟩)
    · refine sat_pushBack_gen (fun _ => sat_andThen_gen (sat_true _)
        (fun s1 _ hb => by cases hb) (fun s1 _ => ?_))
      split_ifs
      · exact sat_pushBack_gen (fun _ hb => by cases hb)
      · exact sat_pushBack_gen (fun _ hb => by cases hb)
      · exact ih _ _

/-- A `true` return of `StmtList` leaves an `END` token pending. -/
theorem StmtList_true_END (n : Nat) (s s' : PState) (h : StmtList n s = .done true s') :
    ∃ e : LexItem, s'.pushed = some e ∧ e.GetToken = .END := by
  have hs : (StmtList n s).sat
      (fun b s' => b = true → ∃ e : LexItem, s'.pushed = some e ∧ e.GetToken = .END) := by
    simp only [StmtList]
    refine sat_andThen_gen (sat_true _) (fun s1 _ hb => by cases hb) (fun s1 _ => ?_)
    split_ifs
    · exact sat_pushBack_gen (fun _ hb => by cases hb)
    · exact sat_pushBack_gen (fun _ hb => by cases hb)
    · exact StmtListLoop_true_END _ _ _
  exact sat_iff.1 hs true s' h rfl

/-! ## The unread tokens as a measure -/

theorem SFactor_unread {n : Nat} {s s' : PState} {b : Bool} (h : SFactor n s = .done b s') :
    s'.unread ≤ s.unread :=
  (((returns_SFactor s).every_budget (fun m => below_SFactor m s)).2 n b s' h).1

theorem Term_unread {n : Nat} {s s' : PState} {b : Bool} (h : Term n s = .done b s') :
    s'.unread ≤ s.unread :=
  (((returns_Term s).every_budget (fun m => below_Term m s)).2 n b s' h).1

theorem Expr_unread {n : Nat} {s s' : PState} {b : Bool} (h : Expr n s = .done b s') :
    s'.unread ≤ s.unread :=
  (((returns_Expr s).every_budget (fun m => below_Expr m s)).2 n b s' h).1

theorem LogicExpr_unread {n : Nat} {s s' : PState} {b : Bool}
    (h : LogicExpr n s = .done b s') : s'.unread ≤ s.unread :=
  (((returns_LogicExpr s).every_budget (fun m => below_LogicExpr m s)).2 n b s' h).1

theorem Stmt_unread {n : Nat} {s s' : PState} {b : Bool} (h : Stmt n s = .done b s') :
    s'.unread ≤ s.unread :=
  (((returns_Stmt s).every_budget (fun m => below_Stmt m s)).2 n b s' h).1

theorem unread_get_of_kind (s : PState) {k : Token} (h : (GetNextToken s).1.GetToken = k)
    (hk : k ≠ .DONE) : (GetNextToken s).2.unread < s.unread :=
  unread_get_lt s (by rw [h]; exact hk)

/-! ## The two stores in lockstep -/

theorem Lockstep.of_tables {s s' : PState} (h : Lockstep s) (hd : s'.defVar = s.defVar)
    (ht : s'.SymTable = s.SymTable) : Lockstep s' := by
  unfold Lockstep
  rw [hd, ht]
  exact h

theorem Lockstep.after_declare {s : PState} (h : Lockstep s) (name : String) {ty : Token}
    (hty : ty = .INT ∨ ty = .FLOAT) : Lockstep (s.declare name ty) := by
  obtain ⟨h1, h2, h3⟩ := h
  refine ⟨fun x => ?_, fun x v hv => ?_, fun x K hK => ?_⟩
  · by_cases hx : x = name
    · simp [PState.declare, hx]
    · simp only [PState.declare, hx, if_false]
      exact h1 x
  · by_cases hx : x = name
    · simp only [PState.declare, hx, if_true, Option.some.injEq] at hv
      exact hv.symm
    · simp only [PState.declare, hx, if_false] at hv
      exact h2 x v hv
  · by_cases hx : x = name
    · simp only [PState.declare, hx, if_true, Option.some.injEq] at hK
      rw [← hK]; exact hty
    · simp only [PState.declare, hx, if_false] at hK
      exact h3 x K hK

theorem lockstep_compat : Compat LockstepKept where
  ret := fun _ h => h
  fail := fun _ _ h => h.of_tables rfl rfl
  failAfter := fun _ _ _ h1 h => (h1 h).of_tables rfl rfl
  seq := fun _ _ _ _ h1 h2 h => h2 (h1 h)
  get := fun s _ _ h1 h =>
    h1 (h.of_tables (GetNextToken_defVar s) (GetNextToken_SymTable s))
  push := fun _ _ _ _ _ h1 h => h1 (h.of_tables rfl rfl)

theorem lockstep_IdentList (tok : LexItem) (htok : tok.GetToken = .INT ∨ tok.GetToken = .FLOAT) :
    ∀ n s, (IdentList n s tok).sat (LockstepKept s) := by
  have hR := lockstep_compat
  intro n
  induction n with
  | zero => simp [IdentList, Res.sat]
  | succ n ih =>
    intro s
    simp only [IdentList]
    split_ifs
    · exact hR.sat_fail_get s _
    · exact hR.sat_fail_get s _
    · exact hR.sat_get (sat_mono (hR.sat_get (ih _))
        (fun b s' hk h => hk (h.after_declare _ htok)))
    · exact hR.sat_get (sat_mono (hR.sat_get (hR.sat_push_ret _ _))
        (fun b s' hk h => hk (h.after_declare _ htok)))

theorem lockstep_DeclStmt (n : Nat) (s : PState) : (DeclStmt n s).sat (LockstepKept s) := by
  have hR := lockstep_compat
  simp only [DeclStmt]
  split_ifs with h
  · exact hR.sat_get (hR.sat_push_fail _ _ _)
  · refine hR.sat_get (lockstep_IdentList _ ?_ _ _)
    by_cases h1 : (GetNextToken s).1.GetToken = .INT
    · exact Or.inl h1
    · by_cases h2 : (GetNextToken s).1.GetToken = .FLOAT
      · exact Or.inr h2
      · exact absurd ⟨h1, h2⟩ h

section
variable {R : PState → Bool → PState → Prop}

theorem Compat.sat_Stmt_of (hR : Compat R) (hD : ∀ n s, (DeclStmt n s).sat (R s)) (n : Nat)
    (s : PState) : (Stmt n s).sat (R s) := by
  simp only [Stmt]
  split_ifs
  · exact hR.sat_get (hR.sat_pushBack _ _ _ (hD _ _))
  · exact hR.sat_get (hR.sat_pushBack _ _ _ (hR.sat_ControlStmt _ _))
  · exact hR.sat_get (hR.sat_push_fail _ _ _)

theorem Compat.sat_StmtListLoop_of (hR : Compat R) (hD : ∀ n s, (DeclStmt n s).sat (R s))
    (n : Nat) : ∀ t s, (StmtListLoop n t s).sat (R s) := by
  induction n with
  | zero => simp [StmtListLoop, Res.sat]
  | succ n ih =>
    intro t s
    simp only [StmtListLoop]
    split_ifs
    · exact hR.sat_push_ret t s
    · refine hR.sat_pushBack _ _ _ (hR.sat_andThen' _ (hR.sat_Stmt_of hD _ _) (fun s1 => ?_))
      split_ifs
      · exact hR.sat_get (hR.sat_push_fail _ _ _)
      · exact hR.sat_get (hR.sat_push_fail _ _ _)
      · exact hR.sat_get (hR.sat_get (ih _ _))

theorem Compat.sat_StmtList_of (hR : Compat R) (hD : ∀ n s, (DeclStmt n s).sat (R s)) (n : Nat)
    (s : PState) : (StmtList n s).sat (R s) := by
  simp only [StmtList]
  refine hR.sat_andThen' _ (hR.sat_Stmt_of hD _ _) (fun s1 => ?_)
  split_ifs
  · exact hR.sat_get (hR.sat_push_fail _ _ _)
  · exact hR.sat_get (hR.sat_push_fail _ _ _)
  · exact hR.sat_get (hR.sat_get (hR.sat_StmtListLoop_of hD _ _ _))

theorem Compat.sat_Prog_of (hR : Compat R) (hD : ∀ n s, (DeclStmt n s).sat (R s)) (n : Nat)
    (s : PState) : (Prog n s).sat (R s) := by
  simp only [Prog]
  split_ifs
  · exact hR.sat_fail_get s _
  · exact hR.sat_get (hR.sat_push_fail _ _ _)
  · exact hR.sat_get (hR.sat_get (hR.sat_push_fail _ _ _))
  · refine hR.sat_get (hR.sat_get (hR.sat_andThen' _ (hR.sat_StmtList_of hD _ _)
      (fun s1 => ?_)))
    split_ifs
    · exact hR.sat_get (hR.sat_push_fail _ _ _)
    · exact hR.sat_get (hR.sat_get (hR.sat_push_fail _ _ _))
    · exact hR.sat_get (hR.sat_get (hR.ret _))

end

theorem lockstep_of {F : Nat → Res} {s : PState} {bound : Nat} (h : Lockstep s)
    (hr : Returns F bound) (hs : ∀ m, (F m).sat (LockstepKept s)) :
    Keeps (fun _ _ s' => Lockstep s') F s :=
  keeps_of hr (fun m => sat_mono (hs m) (fun _ _ hk => hk h))

/-! ## A declaration that fails part way -/

/-- After the identifiers `first`, `more` and the comma that follows them,
`IdentList` goes on with what follows the comma, the names being declared. -/
theorem IdentList_commas_seek (more : List ((LexItem × Int) × (LexItem × Int)))
    (k : Nat) (tok : LexItem) (first comma : LexItem × Int) (tail : List (LexItem × Int))
    (s : PState) (ln : Int)
    (h1 : first.1.GetToken = .IDENT)
    (hm : ∀ p ∈ more, p.1.1.GetToken = .COMMA ∧ p.2.1.GetToken = .IDENT)
    (hnd : (first.1.GetLexeme :: more.map fun p => p.2.1.GetLexeme).Nodup)
    (hfresh : ∀ x ∈ first.1.GetLexeme :: more.map fun p => p.2.1.GetLexeme, s.defVar x = none)
    (hc : comma.1.GetToken = .COMMA) :
    IdentList (more.length + 1 + k)
        (s.seek none (first :: (commaIdents more ++ comma :: tail)) ln) tok
      = IdentList k ((s.declareAll (first.1.GetLexeme :: more.map fun p => p.2.1.GetLexeme)
          tok.GetToken).seek none tail comma.2) tok := by
  induction more generalizing s first ln with
  | nil =>
    have hf : s.defVar first.1.GetLexeme = none := hfresh _ (by simp)
    simp only [List.length_nil, Nat.zero_add, commaIdents, List.nil_append]
    rw [Nat.add_comm]
    simp [IdentList, h1, hf, hc, PState.declareAll]
  | cons p more ih =>
    have hf : s.defVar first.1.GetLexeme = none := hfresh _ (by simp)
    obtain ⟨hpc, hi⟩ := hm p (by simp)
    simp only [List.map_cons, List.nodup_cons] at hnd
    have hfuel : (p :: more).length + 1 + k = (more.length + 1 + k) + 1 := by
      simp only [List.length_cons]; omega
    rw [hfuel]
    simp only [IdentList, commaIdents, List.cons_append, Get_seek_some, h1, hpc, seek_defVar, hf,
      Get_seek_cons, declare_seek, ne_eq, not_true_eq_false, if_false, Option.isSome_none,
      Bool.false_eq_true, if_true]
    have := ih p.2 (s.declare first.1.GetLexeme tok.GetToken) p.1.2 hi
      (fun q hq => hm q (by simp [hq])) (List.nodup_cons.mpr hnd.2)
      (by
        intro x hx
        have hne : x ≠ first.1.GetLexeme := by
          rintro rfl
          exact hnd.1 (by simpa using hx)
        simp only [PState.declare, hne, if_false]
        exact hfresh x (List.mem_cons_of_mem _ (by simpa using hx)))
    simpa [PState.declareAll] using this

/-- The message `IdentList` reports for the entry `bad` it cannot declare. -/
theorem IdentList_bad_seek (k : Nat) (tok : LexItem) (bad : LexItem × Int)
    (rest : List (LexItem × Int)) (s : PState) (ln : Int)
    (hbad : bad.1.GetToken ≠ .IDENT ∨ (s.defVar bad.1.GetLexeme).isSome = true) :
    ∃ msg, (msg = "Invalid Identifier List" ∨ msg = "Variable Redefinition") ∧
      IdentList (k + 1) (s.seek none (bad :: rest) ln) tok
        = .done false (ParseError bad.2 msg (s.seek none rest bad.2)) := by
  by_cases hb : bad.1.GetToken = .IDENT
  · have hd : (s.defVar bad.1.GetLexeme).isSome = true := by
      rcases hbad with h | h
      · exact absurd hb h
      · exact h
    exact ⟨_, Or.inr rfl, by simp [IdentList, hb, hd, failWith]⟩
  · exact ⟨_, Or.inl rfl, by simp [IdentList, hb, failWith]⟩

/-- The run of `IdentList` that fails at the entry `bad` after the identifiers
`first`, `more` and a comma: the identifiers before `bad` are declared. -/
theorem IdentList_fails_seek (more : List ((LexItem × Int) × (LexItem × Int)))
    (k : Nat) (tok : LexItem) (first comma bad : LexItem × Int) (rest : List (LexItem × Int))
    (s : PState) (ln : Int)
    (h1 : first.1.GetToken = .IDENT)
    (hm : ∀ p ∈ more, p.1.1.GetToken = .COMMA ∧ p.2.1.GetToken = .IDENT)
    (hnd : (first.1.GetLexeme :: more.map fun p => p.2.1.GetLexeme).Nodup)
    (hfresh : ∀ x ∈ first.1.GetLexeme :: more.map fun p => p.2.1.GetLexeme, s.defVar x = none)
    (hc : comma.1.GetToken = .COMMA)
    (hbad : bad.1.GetToken ≠ .IDENT ∨
      bad.1.GetLexeme ∈ (first.1.GetLexeme :: more.map fun p => p.2.1.GetLexeme) ∨
      (s.defVar bad.1.GetLexeme).isSome = true) :
    ∃ msg, (msg = "Invalid Identifier List" ∨ msg = "Variable Redefinition") ∧
      IdentList (more.length + 2 + k)
          (s.seek none (first :: (commaIdents more ++ comma :: bad :: rest)) ln) tok
        = .done false (ParseError bad.2 msg
            ((s.declareAll (first.1.GetLexeme :: more.map fun p => p.2.1.GetLexeme)
              tok.GetToken).seek none rest bad.2)) := by
  have hb : bad.1.GetToken ≠ .IDENT ∨
      ((s.declareAll (first.1.GetLexeme :: more.map fun p => p.2.1.GetLexeme)
        tok.GetToken).defVar bad.1.GetLexeme).isSome = true := by
    rcases hbad with h | h | h
    · exact Or.inl h
    · right; rw [declareAll_defVar, if_pos h]; rfl
    · right
      rw [declareAll_defVar]
      split_ifs
      · rfl
      · exact h
  obtain ⟨msg, hmsg, hrun⟩ := IdentList_bad_seek k tok bad rest _ comma.2 hb
  refine ⟨msg, hmsg, ?_⟩
  have hfuel : more.length + 2 + k = more.length + 1 + (k + 1) := by omega
  rw [hfuel, IdentList_commas_seek more (k + 1) tok first comma (bad :: rest) s ln h1 hm hnd
    hfresh hc, hrun]

/-! ## Identifiers of accepted statements -/

theorem DerivesE.idents_declared {D : List String} {nt : ENT} {ts : List LexItem}
    (h : DerivesE D nt ts) : ∀ t ∈ ts, t.GetToken = .IDENT → t.GetLexeme ∈ D := by
  induction h with
  | ident t _ hd => intro u hu _; simp at hu; subst hu; exact hd
  | iconst t hk => intro u hu hi; simp at hu; subst hu; rw [hk] at hi; cases hi
  | rconst t hk => intro u hu hi; simp at hu; subst hu; rw [hk] at hi; cases hi
  | sconst t hk => intro u hu hi; simp at hu; subst hu; rw [hk] at hi; cases hi
  | paren l r e hl _ hr ih =>
    intro u hu hi
    simp only [List.cons_append, List.mem_cons, List.mem_append, List.mem_singleton,
      List.not_mem_nil, or_false] at hu
    rcases hu with rfl | hu | rfl
    · rw [hl] at hi; cases hi
    · exact ih u hu hi
    · rw [hr] at hi; cases hi
  | unsigned f _ ih => exact ih
  | signed o f ho _ ih =>
    intro u hu hi
    simp only [List.mem_cons] at hu
    rcases hu with rfl | hu
    · rcases ho with h | h <;> (rw [h] at hi; cases hi)
    · exact ih u hu hi
  | termOne f _ ih => exact ih
  | termMore f o t _ ho _ ih1 ih2 =>
    intro u hu hi
    simp only [List.mem_append, List.mem_cons] at hu
    rcases hu with hu | rfl | hu
    · exact ih1 u hu hi
    · rcases ho with h | h | h <;> (rw [h] at hi; cases hi)
    · exact ih2 u hu hi
  | exprOne t _ ih => exact ih
  | exprMore t o e _ ho _ ih1 ih2 =>
    intro u hu hi
    simp only [List.mem_append, List.mem_cons] at hu
    rcases hu with hu | rfl | hu
    · exact ih1 u hu hi
    · rcases ho with h | h <;> (rw [h] at hi; cases hi)
    · exact ih2 u hu hi
  | listOne e _ ih => exact ih
  | listMore e c l _ hc _ ih1 ih2 =>
    intro u hu hi
    simp only [List.mem_append, List.mem_cons] at hu
    rcases hu with hu | rfl | hu
    · exact ih1 u hu hi
    · rw [hc] at hi; cases hi
    · exact ih2 u hu hi
  | logic a o b _ ho _ ih1 ih2 =>
    intro u hu hi
    simp only [List.mem_append, List.mem_cons] at hu
    rcases hu with hu | rfl | hu
    · exact ih1 u hu hi
    · rcases ho with h | h <;> (rw [h] at hi; cases hi)
    · exact ih2 u hu hi

theorem DerivesS.names_declared {D D' : List String} {nt : SNT} {ts : List LexItem}
    (h : DerivesS D nt ts D') (hnt : nt ≠ .Prog) :
    (∀ x ∈ D, x ∈ D') ∧ ∀ t ∈ ts, t.GetToken = .IDENT → t.GetLexeme ∈ D' := by
  induction h with
  | identOne D t _ _ =>
    refine ⟨fun x hx => List.mem_cons_of_mem _ hx, fun u hu _ => ?_⟩
    simp at hu; subst hu; exact List.mem_cons_self _ _
  | identMore D D' t c l _ _ hc _ ih =>
    obtain ⟨ih1, ih2⟩ := ih (by simp)
    refine ⟨fun x hx => ih1 x (List.mem_cons_of_mem _ hx), fun u hu hi => ?_⟩
    simp only [List.mem_cons] at hu
    rcases hu with rfl | rfl | hu
    · exact ih1 _ (List.mem_cons_self _ _)
    · rw [hc] at hi; cases hi
    · exact ih2 u hu hi
  | decl D D' ty l hty _ ih =>
    obtain ⟨ih1, ih2⟩ := ih (by simp)
    refine ⟨ih1, fun u hu hi => ?_⟩
    simp only [List.mem_cons] at hu
    rcases hu with rfl | hu
    · rcases hty with h | h <;> (rw [h] at hi; cases hi)
    · exact ih2 u hu hi
  | assign D v a e _ hv ha he =>
    refine ⟨fun x hx => hx, fun u hu hi => ?_⟩
    simp only [List.mem_cons] at hu
    rcases hu with rfl | rfl | hu
    · exact hv
    · rw [ha] at hi; cases hi
    · exact he.idents_declared u hu hi
  | write D w l hw hl =>
    refine ⟨fun x hx => hx, fun u hu hi => ?_⟩
    simp only [List.mem_cons] at hu
    rcases hu with rfl | hu
    · rw [hw] at hi; cases hi
    · exact hl.idents_declared u hu hi
  | ifStmt D i l r c b hi' hl hc hr _ ih =>
    obtain ⟨-, ih2⟩ := ih (by simp)
    refine ⟨fun x hx => hx, fun u hu hi => ?_⟩
    simp only [List.mem_cons, List.mem_append] at hu
    rcases hu with (rfl | rfl | hu) | rfl | hu
    · rw [hi'] at hi; cases hi
    · rw [hl] at hi; cases hi
    · exact hc.idents_declared u hu hi
    · rw [hr] at hi; cases hi
    · exact ih2 u hu hi
  | ctlAssign D ts _ ih => exact ih (by simp)
  | ctlIf D ts _ ih => exact ih (by simp)
  | ctlWrite D ts _ ih => exact ih (by simp)
  | stmtDecl D D' ts _ ih => exact ih (by simp)
  | stmtCtl D ts _ ih => exact ih (by simp)
  | stmtsOne D D' st semi _ hsemi ih =>
    obtain ⟨ih1, ih2⟩ := ih (by simp)
    refine ⟨ih1, fun u hu hi => ?_⟩
    simp only [List.mem_append, List.mem_singleton] at hu
    rcases hu with hu | rfl
    · exact ih2 u hu hi
    · rw [hsemi] at hi; cases hi
  | stmtsMore D D1 D2 st semi l _ hsemi _ ih1 ih2 =>
    obtain ⟨a1, a2⟩ := ih1 (by simp)
    obtain ⟨b1, b2⟩ := ih2 (by simp)
    refine ⟨fun x hx => b1 x (a1 x hx), fun u hu hi => ?_⟩
    simp only [List.mem_append, List.mem_cons] at hu
    rcases hu with hu | rfl | hu
    · exact b1 _ (a2 u hu hi)
    · rw [hsemi] at hi; cases hi
    · exact b2 u hu hi
  | prog => exact absurd rfl hnt

theorem failsOn_of {msg : String} {F : Nat → Res} {s : PState} {bound : Nat}
    (hr : Returns F bound) (hs : ∀ m, (F m).sat (Reports s)) : FailsOn msg F s := by
  obtain ⟨b, s', n, hn, -⟩ := hr
  refine ⟨⟨n, b, s', hn⟩, fun m b1 s1 h => ?_⟩
  obtain ⟨ext, ho, -, hb⟩ := sat_iff.1 (hs m) b1 s1 h
  refine ⟨ext, ho, fun hd => ?_⟩
  obtain ⟨d, hd, -⟩ := hd
  cases b1 with
  | false => rfl
  | true =>
    rw [hb.1 rfl] at hd
    cases hd

/-- The identifiers of the tokens a control rule consumed on a `true` return
are declared. -/
theorem soundC_idents {D : List String} {nt : SNT} {s s' : PState} (hag : Agree s D)
    (hnt : nt ≠ .Prog) (r : Res) (hs : r.sat (SoundC D nt s)) (h : r = .done true s') :
    ∃ ts, Consumed s ts s' ∧
      ∀ t ∈ ts, t.GetToken = .IDENT → (s.defVar t.GetLexeme).isSome = true := by
  obtain ⟨ts, hts, hc⟩ := sat_iff.1 hs true s' h rfl
  exact ⟨ts, hc, fun t ht hi => (hag _).2 ((hts.names_declared hnt).2 t ht hi)⟩

/-- The identifiers of the tokens an expression rule consumed on a `true`
return are declared. -/
theorem soundE_idents {D : List String} {nt : ENT} {s s' : PState} (hag : Agree s D)
    (r : Res) (hs : r.sat (SoundE D nt s)) (h : r = .done true s') :
    ∃ ts, Consumed s ts s' ∧
      ∀ t ∈ ts, t.GetToken = .IDENT → (s.defVar t.GetLexeme).isSome = true := by
  obtain ⟨ts, hts, hc⟩ := sat_iff.1 hs true s' h rfl
  exact ⟨ts, hc, fun t ht hi => (hag _).2 (hts.idents_declared t ht hi)⟩

/-- The identifiers of the tokens `Stmt` consumed on a `true` return are
declared afterwards. -/
theorem Stmt_idents {D : List String} {n : Nat} {s s' : PState} (hag : Agree s D)
    (h : Stmt n s = .done true s') :
    ∃ ts, Consumed s ts s' ∧
      ∀ t ∈ ts, t.GetToken = .IDENT → (s'.defVar t.GetLexeme).isSome = true := by
  obtain ⟨ts, D', hts, hag', hc⟩ := sat_iff.1 (sound_Stmt D n s hag) true s' h rfl
  exact ⟨ts, hc, fun t ht hi => (hag' _).2 ((hts.names_declared (by simp)).2 t ht hi)⟩

/-- What each kind test of the rules does with a token that does not match.
When `Prog` (a first token that is neither `DONE` nor `PROGRAM`, a missing
program name, a missing closing `PROGRAM`), `StmtList` (a missing semicolon,
after the first statement or a later one), `Stmt`, `DeclStmt`, `ControlStmt`,
`WriteStmt`, `IfStmt`, `AssignStmt`, `LogicExpr` or `Var` fails because the
token it has just read is not of the kind it requires at that point, it calls
`PushBackToken`: that token is the pending pushback token when the rule
returns, and the next `GetNextToken` returns it again.  The kind tests of
`IdentList` (a token that is no `IDENT`) and of `Factor` (a token that is
neither an operand nor `(`, or no `)` after a parenthesised expression) are
the only ones without that call: they return `false` with the slot empty. -/
theorem kind_tests_and_pushback (n : Nat) (s : PState) (tok : LexItem)
    (sign : Int) :
    ((GetNextToken s).1.GetToken ≠ .DONE → (GetNextToken s).1.GetToken ≠ .PROGRAM →
      PushedBack (Prog n s) (GetNextToken s).1) ∧
    ((GetNextToken s).1.GetToken = .PROGRAM →
      (GetNextToken (GetNextToken s).2).1.GetToken ≠ .IDENT →
      PushedBack (Prog n s) (GetNextToken (GetNextToken s).2).1) ∧
    (∀ s3, (GetNextToken s).1.GetToken = .PROGRAM →
      (GetNextToken (GetNextToken s).2).1.GetToken = .IDENT →
      StmtList n (GetNextToken (GetNextToken s).2).2 = .done true s3 →
      (GetNextToken s3).1.GetToken = .END →
      (GetNextToken (GetNextToken s3).2).1.GetToken ≠ .PROGRAM →
      PushedBack (Prog n s) (GetNextToken (GetNextToken s3).2).1) ∧
    (∀ s1, Stmt n s = .done true s1 → (GetNextToken s1).1.GetToken ≠ .SEMICOL →
      PushedBack (StmtList n s) (GetNextToken s1).1) ∧
    (∀ t0 s1, t0.GetToken ≠ .END → s.pushed = none →
      Stmt n { s with pushed := some t0 } = .done true s1 →
      (GetNextToken s1).1.GetToken ≠ .SEMICOL →
      PushedBack (StmtListLoop (n + 1) t0 s) (GetNextToken s1).1) ∧
    ((GetNextToken s).1.GetToken ≠ .INT → (GetNextToken s).1.GetToken ≠ .FLOAT →
      (GetNextToken s).1.GetToken ≠ .IDENT → (GetNextToken s).1.GetToken ≠ .IF →
      (GetNextToken s).1.GetToken ≠ .WRITE → PushedBack (Stmt n s) (GetNextToken s).1) ∧
    ((GetNextToken s).1.GetToken ≠ .INT → (GetNextToken s).1.GetToken ≠ .FLOAT →
      PushedBack (DeclStmt n s) (GetNextToken s).1) ∧
    ((GetNextToken s).1.GetToken ≠ .IDENT → (GetNextToken s).1.GetToken ≠ .IF →
      (GetNextToken s).1.GetToken ≠ .WRITE →
      PushedBack (ControlStmt (n + 1) s) (GetNextToken s).1) ∧
    ((GetNextToken s).1.GetToken ≠ .WRITE → PushedBack (WriteStmt n s) (GetNextToken s).1) ∧
    ((GetNextToken s).1.GetToken ≠ .IF → PushedBack (IfStmt (n + 1) s) (GetNextToken s).1) ∧
    ((GetNextToken s).1.GetToken = .IF →
      (GetNextToken (GetNextToken s).2).1.GetToken ≠ .LPAREN →
      PushedBack (IfStmt (n + 1) s) (GetNextToken (GetNextToken s).2).1) ∧
    (∀ s3, (GetNextToken s).1.GetToken = .IF →
      (GetNextToken (GetNextToken s).2).1.GetToken = .LPAREN →
      LogicExpr n (GetNextToken (GetNextToken s).2).2 = .done true s3 →
      (GetNextToken s3).1.GetToken ≠ .RPAREN →
      PushedBack (IfStmt (n + 1) s) (GetNextToken s3).1) ∧
    (∀ s1, Var s = .done true s1 → (GetNextToken s1).1.GetToken ≠ .ASSOP →
      PushedBack (AssignStmt n s) (GetNextToken s1).1) ∧
    (∀ s1, Expr n s = .done true s1 → (GetNextToken s1).1.GetToken ≠ .EQUAL →
      (GetNextToken s1).1.GetToken ≠ .GTHAN → PushedBack (LogicExpr n s) (GetNextToken s1).1) ∧
    ((GetNextToken s).1.GetToken ≠ .IDENT → PushedBack (Var s) (GetNextToken s).1) ∧
    ((GetNextToken s).1.GetToken ≠ .IDENT →
      NotPushedBack (IdentList (n + 1) s tok) (GetNextToken s).2.input) ∧
    ((GetNextToken s).1.GetToken ≠ .IDENT → (GetNextToken s).1.GetToken ≠ .ICONST →
      (GetNextToken s).1.GetToken ≠ .RCONST → (GetNextToken s).1.GetToken ≠ .SCONST →
      (GetNextToken s).1.GetToken ≠ .LPAREN →
      NotPushedBack (Factor (n + 1) s sign) (GetNextToken s).2.input) ∧
    (∀ s1, (GetNextToken s).1.GetToken = .LPAREN → Expr n (GetNextToken s).2 = .done true s1 →
      (GetNextToken s1).1.GetToken ≠ .RPAREN →
      NotPushedBack (Factor (n + 1) s sign) (GetNextToken s1).2.input) := by
  refine ⟨?_, ?_, ?_, ?_, ?_, ?_, ?_, ?_, ?_, ?_, ?_, ?_, ?_, ?_, ?_, ?_, ?_, ?_⟩
  · intro h1 h2
    simp only [Prog, h1, h2, if_false, ne_eq, not_false_eq_true, if_true]
    exact pushedBack_fail _ _
  · intro h1 h2
    simp only [Prog, h1, h2, if_false, ne_eq, not_false_eq_true, if_true, not_true_eq_false,
      reduceCtorEq]
    exact pushedBack_fail _ _
  · intro s3 h1 h2 h3 h4 h5
    simp only [Prog, h1, h2, h3, h4, h5, if_false, ne_eq, not_false_eq_true, if_true,
      not_true_eq_false, reduceCtorEq, andThen_true]
    exact pushedBack_fail _ _
  · intro s1 h1 h2
    simp only [StmtList, h1, h2, andThen_true, ne_eq, not_false_eq_true, if_true, ite_self]
    exact pushedBack_fail _ _
  · intro t0 s1 h0 hp h1 h2
    simp only [StmtListLoop, h0, if_false, pushBack_none _ _ _ hp, h1, h2, andThen_true, ne_eq,
      not_false_eq_true, if_true, ite_self]
    exact pushedBack_fail _ _
  · intro h1 h2 h3 h4 h5
    simp only [Stmt, h1, h2, h3, h4, h5, or_self, if_false]
    exact pushedBack_fail _ _
  · intro h1 h2
    simp only [DeclStmt, h1, h2, ne_eq, not_false_eq_true, and_self, if_true]
    exact pushedBack_fail _ _
  · intro h1 h2 h3
    simp only [ControlStmt, h1, h2, h3, if_false]
    exact pushedBack_fail _ _
  · intro h1
    simp only [WriteStmt, h1, ne_eq, not_false_eq_true, if_true]
    exact pushedBack_fail _ _
  · intro h1
    simp only [IfStmt, h1, ne_eq, not_false_eq_true, if_true]
    exact pushedBack_fail _ _
  · intro h1 h2
    simp only [IfStmt, h1, h2, ne_eq, not_false_eq_true, if_true, not_true_eq_false, if_false]
    exact pushedBack_fail _ _
  · intro s3 h1 h2 h3 h4
    simp only [IfStmt, h1, h2, h3, h4, ne_eq, not_false_eq_true, if_true, not_true_eq_false,
      if_false, andThen_true]
    exact pushedBack_fail _ _
  · intro s1 h1 h2
    simp only [AssignStmt, h1, h2, andThen_true, ne_eq, not_false_eq_true, if_true]
    exact pushedBack_fail _ _
  · intro s1 h1 h2 h3
    simp only [LogicExpr, h1, h2, h3, andThen_true, ne_eq, not_false_eq_true, and_self, if_true]
    exact pushedBack_fail _ _
  · intro h1
    simp only [Var, h1, ne_eq, not_false_eq_true, if_true]
    exact pushedBack_fail _ _
  · intro h1
    simp only [IdentList, h1, ne_eq, not_false_eq_true, if_true]
    exact notPushedBack_fail _ _
  · intro h1 h2 h3 h4 h5
    simp only [Factor, h1, h2, h3, h4, h5, or_self, if_false, ne_eq, not_false_eq_true, if_true]
    exact notPushedBack_fail _ _
  · intro s1 h1 h2 h3
    simp only [Factor, h1, h2, h3, or_self, if_false, ne_eq, not_false_eq_true, if_true,
      not_true_eq_false, reduceCtorEq, andThen_true]
    exact notPushedBack_fail _ _

/-! ## The claims -/

/-- A `true` return of `Prog`, started with an empty pushback slot and no
declared name, consumed a prefix of the lexer input whose tokens derive
`Prog`, and leaves the slot empty. -/
theorem sound_Prog_input (n : Nat) (s s' : PState) (hp : s.pushed = none)
    (hd : ∀ x, s.defVar x = none) (h : Prog n s = .done true s') :
    ∃ pre D', s.input = pre ++ s'.input ∧ DerivesS [] .Prog (pre.map Prod.fst) D' ∧
      s'.pushed = none ∧ Agree s' D' := by
  have hag : Agree s [] := by intro x; simp [hd x]
  obtain ⟨hp', ts, D', hts, hag', pad, hpad, hemp, ⟨k, hk⟩, hs⟩ :=
    sat_iff.1 (sound_Prog [] n s hag) true s' h rfl
  simp only [PState.stream, hp, hp', Option.toList_none, List.nil_append] at hs
  have hsplit : s.input = s.input.take k ++ s'.input := by
    rw [hk, List.take_append_drop]
  refine ⟨s.input.take k, D', hsplit, ?_, hp', hag'⟩
  have hpre : (s.input.take k).map Prod.fst = ts := by
    by_cases hpe : pad = []
    · subst hpe
      rw [List.append_nil] at hs
      have h2 : (s.input.take k).map Prod.fst ++ s'.input.map Prod.fst
          = ts ++ s'.input.map Prod.fst := by
        rw [← List.map_append, ← hsplit, hs]
      exact List.append_cancel_right h2
    · exfalso
      obtain ⟨init, p2, hts2, hp2⟩ := hts.prog_last
      rw [hemp hpe, List.map_nil, List.append_nil, hts2] at hs
      obtain ⟨pinit, x, hx⟩ : ∃ pinit x, pad = pinit ++ [x] := by
        rcases List.eq_nil_or_concat pad with h | ⟨pinit, x, h⟩
        · exact absurd h hpe
        · exact ⟨pinit, x, by simpa using h⟩
      rw [hx, ← List.append_assoc] at hs
      have hlast := List.append_inj_right' hs rfl
      simp only [List.cons.injEq, and_true] at hlast
      have hdone := hpad x (by simp [hx])
      rw [hlast, hp2] at hdone
      exact absurd hdone (by decide)
  rw [hpre]
  exact hts

/-- C1 (completeness).  Let the tokens `ts` derive
`Prog ::= PROGRAM IDENT StmtList END PROGRAM` starting from no declared name,
every declared name being fresh at its declaration and every identifier used
being declared earlier (`DerivesS [] .Prog ts D'`), and let the lexer deliver
exactly these tokens.  Then `Prog`, started with empty symbol tables, an empty
pushback slot and error count 0, returns `true` for every large enough depth
budget, and the error count is still 0. -/
theorem Prog_accepts_valid_programs (ts : List LexItem) (D' : List String)
    (h : DerivesS [] .Prog ts D') (input : List (LexItem × Int)) (line : Int)
    (hin : input.map Prod.fst = ts) :
    ∃ n, ∀ m, n ≤ m → ∃ s', Prog m (initState input line) = .done true s' ∧ ErrCount s' = 0 := by
  obtain ⟨n, s', ln', hn, -, herr, -⟩ := complete_Prog h (initState input line) line input []
    hin (by intro x; simp [initState])
  have hs : (initState input line).seek none (input ++ []) line = initState input line := by
    simp [PState.seek, initState]
  refine ⟨n, fun m hm => ⟨s'.seek none [] ln', ?_, ?_⟩⟩
  · rw [← hs]; exact hn m hm
  · simp [ErrCount, herr, initState]

/-- Witness for C1: the program `PROGRAM P INT a; a = 5; END PROGRAM` of the
end-to-end scenario (a) is derivable and accepted with error count 0. -/
theorem Prog_accepts_valid_programs_witness :
    DerivesS [] .Prog (declareAndAssign.map Prod.fst) ["a"] ∧
    ∃ n, ∀ m, n ≤ m →
      ∃ s', Prog m (initState declareAndAssign 1) = .done true s' ∧ ErrCount s' = 0 :=
  ⟨declareAndAssign_derives,
   Prog_accepts_valid_programs _ ["a"] declareAndAssign_derives declareAndAssign 1 rfl⟩

/-- C2 (soundness on the consumed prefix).  If `Prog`, started with an empty
pushback slot and no declared name, returns `true`, then the lexer entries it
consumed are a prefix `pre` of the input whose tokens derive
`Prog ::= PROGRAM IDENT StmtList END PROGRAM` with every name declared once
and every identifier declared before its use; the input left is what follows
`pre` (the input is positioned just past the closing `PROGRAM`), no token is
pending in the pushback slot, the keys of `defVar` are exactly the names the
derivation declares, and the error counter is what it was. -/
theorem Prog_sound (n : Nat) (s s' : PState) (hp : s.pushed = none)
    (hd : ∀ x, s.defVar x = none) (h : Prog n s = .done true s') :
    ∃ pre D', s.input = pre ++ s'.input ∧ DerivesS [] .Prog (pre.map Prod.fst) D' ∧
      s'.pushed = none ∧ (∀ x, (s'.defVar x).isSome = true ↔ x ∈ D') ∧
      ErrCount s' = ErrCount s := by
  obtain ⟨pre, D', hin, hder, hp', hag'⟩ := sound_Prog_input n s s' hp hd h
  have herr : Reports s true s' := sat_iff.1 (reports_compat.sat_Prog n s) true s' h
  exact ⟨pre, D', hin, hder, hp', hag', herr.of_true.1⟩

/-- Witness for C2: the run of `Prog` on `PROGRAM P WRITE 1; END PROGRAM`. -/
theorem Prog_sound_witness :
    (initState writeOnly 1).pushed = none ∧ (∀ x, (initState writeOnly 1).defVar x = none) ∧
    Prog 6 (initState writeOnly 1) = .done true (initState [] 1) ∧
    ∃ pre D', (initState writeOnly 1).input = pre ++ (initState [] 1).input ∧
      DerivesS [] .Prog (pre.map Prod.fst) D' ∧ (initState [] 1).pushed = none ∧
      (∀ x, ((initState [] 1).defVar x).isSome = true ↔ x ∈ D') ∧
      ErrCount (initState [] 1) = ErrCount (initState writeOnly 1) :=
  ⟨rfl, fun _ => rfl, run_writeOnly,
   Prog_sound 6 (initState writeOnly 1) (initState [] 1) rfl (fun _ => rfl) run_writeOnly⟩

/-- Counterexample to C3: on `PROGRAM P WRITE 1; END PROGRAM WRITE` the rule
`Prog` returns `true` and leaves the stray `WRITE` unread, although the whole
token sequence does not derive `Prog`. -/
theorem Prog_accepts_stray_token :
    Prog 6 (initState writeThenStray 1) = .done true (initState [entry .WRITE "WRITE" 1] 1) ∧
    ¬ ∃ D', DerivesS [] .Prog (writeThenStray.map Prod.fst) D' := by
  constructor
  · simp [Prog, StmtList, StmtListLoop, Stmt, ControlStmt, WriteStmt, ExprList, ExprListLoop,
      Expr, ExprLoop, Term, TermLoop, SFactor, Factor, GetNextToken, getNextToken, pushBack,
      PushBackToken, initState, writeThenStray, writeOnly, entry, LexItem.GetToken, Res.andThen]
  · rintro ⟨D', h⟩
    obtain ⟨init, p2, hts, hp2⟩ := h.prog_last
    have hlast := congrArg List.getLast? hts
    simp [writeThenStray, writeOnly, entry] at hlast
    rw [← hlast] at hp2
    simp [LexItem.GetToken] at hp2

/-- C3, amended.  `Prog` returns `true` only if the tokens up to and including
the closing `END PROGRAM` derive `Prog`, every variable being declared exactly
once before use; what follows the closing `PROGRAM` is not read: the same
prefix followed by any other lexer input `rest` is accepted too, with `rest`
left unread. -/
theorem Prog_checks_up_to_closing_PROGRAM (n : Nat) (s s' : PState) (hp : s.pushed = none)
    (hd : ∀ x, s.defVar x = none) (h : Prog n s = .done true s') :
    ∃ pre D', s.input = pre ++ s'.input ∧ DerivesS [] .Prog (pre.map Prod.fst) D' ∧
      ∀ (rest : List (LexItem × Int)) (line : Int), ∃ m, ∀ k, m ≤ k →
        ∃ s'', Prog k (initState (pre ++ rest) line) = .done true s'' ∧ s''.input = rest ∧
          s''.pushed = none := by
  obtain ⟨pre, D', hin, hder, -, -⟩ := sound_Prog_input n s s' hp hd h
  refine ⟨pre, D', hin, hder, fun rest line => ?_⟩
  obtain ⟨m, s1, ln', hm, -, -, -⟩ := complete_Prog hder (initState (pre ++ rest) line) line pre
    rest rfl (by intro x; simp [initState])
  have hs : (initState (pre ++ rest) line).seek none (pre ++ rest) line
      = initState (pre ++ rest) line := by
    simp [PState.seek, initState]
  refine ⟨m, fun k hk => ⟨s1.seek none rest ln', ?_, rfl, rfl⟩⟩
  rw [← hs]; exact hm k hk

/-- Witness for C3, amended: the run of `Prog` on
`PROGRAM P WRITE 1; END PROGRAM WRITE`. -/
theorem Prog_checks_up_to_closing_PROGRAM_witness :
    Prog 6 (initState writeThenStray 1) = .done true (initState [entry .WRITE "WRITE" 1] 1) ∧
    ∃ pre D', (initState writeThenStray 1).input
        = pre ++ (initState [entry .WRITE "WRITE" 1] 1).input ∧
      DerivesS [] .Prog (pre.map Prod.fst) D' ∧
      ∀ (rest : List (LexItem × Int)) (line : Int), ∃ m, ∀ k, m ≤ k →
        ∃ s'', Prog k (initState (pre ++ rest) line) = .done true s'' ∧ s''.input = rest ∧
          s''.pushed = none :=
  have hrun : Prog 6 (initState writeThenStray 1)
      = .done true (initState [entry .WRITE "WRITE" 1] 1) := by
    simp [Prog, StmtList, StmtListLoop, Stmt, ControlStmt, WriteStmt, ExprList, ExprListLoop,
      Expr, ExprLoop, Term, TermLoop, SFactor, Factor, GetNextToken, getNextToken, pushBack,
      PushBackToken, initState, writeThenStray, writeOnly, entry, LexItem.GetToken, Res.andThen]
  ⟨hrun, Prog_checks_up_to_closing_PROGRAM 6 _ _ rfl (fun _ => rfl) hrun⟩

/-- Counterexample to C4 as worded: started with the counter at `INT_MAX` on an
empty input, `Var` and `Prog` return `false` and record a diagnostic, but the
`int` counter wraps around to `INT_MIN`: it has not strictly increased. -/
theorem error_count_wraps_at_INT_MAX :
    ErrCount counterAtMax = 2147483647 ∧
    (∃ s', Var counterAtMax = .done false s' ∧
      s'.output = [(1, "Incorrect Identifier Statement")] ∧
      ErrCount s' = -2147483648 ∧ ¬ (ErrCount counterAtMax < ErrCount s')) ∧
    (∃ s', Prog 0 counterAtMax = .done false s' ∧ s'.output = [(1, "Empty File")] ∧
      ErrCount s' = -2147483648 ∧ ¬ (ErrCount counterAtMax < ErrCount s')) := by
  refine ⟨rfl, ⟨ParseError 1 "Incorrect Identifier Statement"
      { counterAtMax with pushed := some ⟨.DONE, "", 1⟩ }, ?_, rfl, ?_, ?_⟩,
    ⟨ParseError 1 "Empty File" counterAtMax, ?_, rfl, ?_, ?_⟩⟩
  · simp [Var, GetNextToken, getNextToken, pushBack, PushBackToken, counterAtMax, initState,
      LexItem.GetToken, failWith]
  · simp only [ErrCount, ParseError, counterAtMax, INT_MAX]; decide
  · simp only [ErrCount, ParseError, counterAtMax, INT_MAX]; decide
  · simp [Prog, GetNextToken, getNextToken, counterAtMax, initState, LexItem.GetToken, failWith]
  · simp only [ErrCount, ParseError, counterAtMax, INT_MAX]; decide
  · simp only [ErrCount, ParseError, counterAtMax, INT_MAX]; decide

/-- C4, amended: the counter is an `int`, so the contract of the counter holds
while it does not overflow.  Each of the sixteen grammar rules, started in
any state `s` on any lexer input, keeps `ErrorContract`: it returns (for every
large enough depth budget, with one and the same result), and whenever it
returns `b`, `b` is `true` if and only if the call recorded no diagnostic, and
the counter was incremented once for each diagnostic recorded.  When the
counter does not overflow during the call, `b` is `true` if and only if the
error counter is what it was before the call, and when `b` is `false` the
counter has strictly increased; hence, from a counter of 0 and with at most
`INT_MAX` diagnostics, the rule (`Prog` in particular) returns `true` exactly
when `ErrCount()` is 0 afterwards. -/
theorem error_count_contract (s : PState) (tok : LexItem) (sign : Int) :
    ErrorContract (fun m => Prog m s) s ∧ ErrorContract (fun m => StmtList m s) s ∧
    ErrorContract (fun m => Stmt m s) s ∧ ErrorContract (fun m => DeclStmt m s) s ∧
    ErrorContract (fun m => IdentList m s tok) s ∧
    ErrorContract (fun m => ControlStmt m s) s ∧ ErrorContract (fun m => WriteStmt m s) s ∧
    ErrorContract (fun m => IfStmt m s) s ∧ ErrorContract (fun m => AssignStmt m s) s ∧
    ErrorContract (fun m => ExprList m s) s ∧ ErrorContract (fun m => Expr m s) s ∧
    ErrorContract (fun m => Term m s) s ∧ ErrorContract (fun m => SFactor m s) s ∧
    ErrorContract (fun m => Factor m s sign) s ∧ ErrorContract (fun m => LogicExpr m s) s ∧
    ErrorContract (fun _ => Var s) s := by
  have hc := reports_compat
  refine ⟨?_, ?_, ?_, ?_, ?_, ?_, ?_, ?_, ?_, ?_, ?_, ?_, ?_, ?_, ?_, ?_⟩
  · exact errorContract_of (returns_Prog s) (fun m => hc.sat_Prog m s)
  · exact errorContract_of (returns_StmtList s) (fun m => hc.sat_StmtList m s)
  · exact errorContract_of (returns_Stmt s) (fun m => hc.sat_Stmt m s)
  · exact errorContract_of (returns_DeclStmt s) (fun m => hc.sat_DeclStmt m s)
  · exact errorContract_of (returns_IdentList _ s tok le_rfl) (fun m => hc.sat_IdentList m s tok)
  · exact errorContract_of (returns_ControlStmt s) (fun m => hc.sat_ControlStmt m s)
  · exact errorContract_of (returns_WriteStmt s) (fun m => hc.sat_WriteStmt m s)
  · exact errorContract_of (returns_IfStmt s) (fun m => hc.sat_IfStmt m s)
  · exact errorContract_of (returns_AssignStmt s) (fun m => hc.sat_AssignStmt m s)
  · exact errorContract_of (returns_ExprList s) (fun m => hc.sat_ExprList m s)
  · exact errorContract_of (returns_Expr s) (fun m => hc.sat_Expr m s)
  · exact errorContract_of (returns_Term s) (fun m => hc.sat_Term m s)
  · exact errorContract_of (returns_SFactor s) (fun m => hc.sat_SFactor m s)
  · exact errorContract_of (returns_Factor s sign) (fun m => hc.sat_Factor m s sign)
  · exact errorContract_of (returns_LogicExpr s) (fun m => hc.sat_LogicExpr m s)
  · exact errorContract_of (returns_Var s) (fun _ => hc.sat_Var s)

/-- An instance of C4, amended: `Prog` on `PROGRAM P WRITE 1 END PROGRAM`,
started with the counter at 0, records one diagnostic and returns `false`,
and the counter, which is 1 afterwards, tells so. -/
theorem error_count_contract_witness :
    Prog 6 (initState writeNoSemicolon 1) = .done false
      (ParseError 1 "Missing a semicolon."
        ((initState [entry .PROGRAM "PROGRAM" 1] 1).seek (some ⟨.END, "END", 1⟩)
          [entry .PROGRAM "PROGRAM" 1] 1)) ∧
    ErrCount (initState writeNoSemicolon 1) = 0 ∧
    ErrCount (ParseError 1 "Missing a semicolon."
        ((initState [entry .PROGRAM "PROGRAM" 1] 1).seek (some ⟨.END, "END", 1⟩)
          [entry .PROGRAM "PROGRAM" 1] 1)) = 1 ∧
    (false = true ↔ ErrCount (ParseError 1 "Missing a semicolon."
        ((initState [entry .PROGRAM "PROGRAM" 1] 1).seek (some ⟨.END, "END", 1⟩)
          [entry .PROGRAM "PROGRAM" 1] 1)) = 0) := by
  refine ⟨run_writeNoSemicolon, rfl, by decide, ?_⟩
  obtain ⟨ext, ho, -, -, hr⟩ :=
    (error_count_contract (initState writeNoSemicolon 1) ⟨.INT, "INT", 1⟩ 1).1.2 6 false _
      run_writeNoSemicolon
  have hext : ext = [(1, "Missing a semicolon.")] := by
    simpa [ParseError, initState] using ho.symm
  subst hext
  exact (hr (by decide) (by decide)).2.2 rfl

/-- C5 (undeclared use is rejected).  Let the next token of a state `s` be an
`IDENT` whose lexeme is not a key of `defVar`.

* `Var` (assignment target) and `Factor` (operand) each return `false` and
  leave the state `s'` in which the one new diagnostic is "Undeclared
  Variable" and both symbol tables are those of `s`; the enclosing
  `AssignStmt` and `Stmt` return `false` with that same state; and an
  assignment `x = ...` whose right-hand side starts with the undeclared
  operand returns `false` too, its first new diagnostic being "Undeclared
  Variable", with the symbol tables unchanged.
* Wherever in a statement the undeclared identifier stands (after an operator,
  in parentheses, in a `WRITE` list, in the condition or the body of an `IF`):
  every rule that encloses the failing `Var` or `Factor`, started in any state
  `s0`, returns, and returns `false` whenever "Undeclared Variable" is among
  the diagnostics recorded during its call (`FailsOn`).
* When the declared names of `s0` are a list `D` (`defVar` is a finite map),
  a statement or expression rule returns `true` only if every identifier among
  the tokens it consumed is declared. -/
theorem undeclared_use_rejected (n : Nat) (s : PState) (sign : Int)
    (hk : (GetNextToken s).1.GetToken = .IDENT)
    (hu : s.defVar (GetNextToken s).1.GetLexeme = none) :
    (∃ s', Var s = .done false s' ∧ Factor (n + 1) s sign = .done false s' ∧
      AssignStmt n s = .done false s' ∧ Stmt (n + 1) s = .done false s' ∧
      s'.output = s.output ++ [((GetNextToken s).2.line, "Undeclared Variable")] ∧
      s'.error_count = wrapInt (s.error_count + 1) ∧
      s'.defVar = s.defVar ∧ s'.SymTable = s.SymTable ∧
      ∀ sv sa : PState, Var sv = .done true sa → (GetNextToken sa).1.GetToken = .ASSOP →
        (GetNextToken sa).2 = s →
        ∃ s'', AssignStmt (n + 4) sv = .done false s'' ∧
          s''.output = s.output ++ [((GetNextToken s).2.line, "Undeclared Variable"),
            ((GetNextToken s).2.line, "Term Error"),
            ((GetNextToken s).2.line, "Expression error"),
            ((GetNextToken s).2.line, "Missing Expression in Assignment Statement")] ∧
          s''.defVar = s.defVar ∧ s''.SymTable = s.SymTable) ∧
    (∀ s0 : PState,
      FailsOn "Undeclared Variable" (fun m => AssignStmt m s0) s0 ∧
      FailsOn "Undeclared Variable" (fun m => Stmt m s0) s0 ∧
      FailsOn "Undeclared Variable" (fun m => ControlStmt m s0) s0 ∧
      FailsOn "Undeclared Variable" (fun m => WriteStmt m s0) s0 ∧
      FailsOn "Undeclared Variable" (fun m => IfStmt m s0) s0 ∧
      FailsOn "Undeclared Variable" (fun m => LogicExpr m s0) s0 ∧
      FailsOn "Undeclared Variable" (fun m => ExprList m s0) s0 ∧
      FailsOn "Undeclared Variable" (fun m => Expr m s0) s0 ∧
      FailsOn "Undeclared Variable" (fun m => Term m s0) s0 ∧
      FailsOn "Undeclared Variable" (fun m => SFactor m s0) s0 ∧
      FailsOn "Undeclared Variable" (fun m => Factor m s0 sign) s0 ∧
      FailsOn "Undeclared Variable" (fun m => StmtList m s0) s0 ∧
      FailsOn "Undeclared Variable" (fun m => Prog m s0) s0) ∧
    (∀ (D : List String) (s0 s1 : PState) (m : Nat), Agree s0 D →
      (AssignStmt m s0 = .done true s1 → ∃ ts, Consumed s0 ts s1 ∧
        ∀ t ∈ ts, t.GetToken = .IDENT → (s0.defVar t.GetLexeme).isSome = true) ∧
      (WriteStmt m s0 = .done true s1 → ∃ ts, Consumed s0 ts s1 ∧
        ∀ t ∈ ts, t.GetToken = .IDENT → (s0.defVar t.GetLexeme).isSome = true) ∧
      (IfStmt m s0 = .done true s1 → ∃ ts, Consumed s0 ts s1 ∧
        ∀ t ∈ ts, t.GetToken = .IDENT → (s0.defVar t.GetLexeme).isSome = true) ∧
      (ControlStmt m s0 = .done true s1 → ∃ ts, Consumed s0 ts s1 ∧
        ∀ t ∈ ts, t.GetToken = .IDENT → (s0.defVar t.GetLexeme).isSome = true) ∧
      (Expr m s0 = .done true s1 → ∃ ts, Consumed s0 ts s1 ∧
        ∀ t ∈ ts, t.GetToken = .IDENT → (s0.defVar t.GetLexeme).isSome = true) ∧
      (Stmt m s0 = .done true s1 → ∃ ts, Consumed s0 ts s1 ∧
        ∀ t ∈ ts, t.GetToken = .IDENT → (s1.defVar t.GetLexeme).isSome = true)) := by
  have hV : Var s = .done false
      (ParseError (GetNextToken s).2.line "Undeclared Variable" (GetNextToken s).2) := by
    simp [Var, hk, hu, GetNextToken_defVar, failWith]
  have hA : AssignStmt n s = .done false
      (ParseError (GetNextToken s).2.line "Undeclared Variable" (GetNextToken s).2) := by
    simp [AssignStmt, hV]
  have hV' : Var { (GetNextToken s).2 with pushed := some (GetNextToken s).1 } = Var s := by
    simp [Var, GetNextToken_unget_get]
  have hA' : AssignStmt n { (GetNextToken s).2 with pushed := some (GetNextToken s).1 }
      = AssignStmt n s := by
    simp [AssignStmt, hV']
  have hC : ControlStmt (n + 1) s = .done false
      (ParseError (GetNextToken s).2.line "Undeclared Variable" (GetNextToken s).2) := by
    simp [ControlStmt, hk, pushBack_get, hA', hA]
  have hC' : ControlStmt (n + 1) { (GetNextToken s).2 with pushed := some (GetNextToken s).1 }
      = ControlStmt (n + 1) s := by
    simp [ControlStmt, GetNextToken_unget_get]
  have hc := reports_compat
  refine ⟨⟨_, hV, ?_, hA, ?_, ?_, ?_, ?_, ?_, ?_⟩,
    fun s0 => ⟨?_, ?_, ?_, ?_, ?_, ?_, ?_, ?_, ?_, ?_, ?_, ?_, ?_⟩,
    fun D s0 s1 m hag => ⟨?_, ?_, ?_, ?_, ?_, ?_⟩⟩
  · rw [Factor_sign]
    exact (undeclared_operand n s hk hu).1
  · simp [Stmt, hk, pushBack_get, hC', hC]
  · simp [ParseError, GetNextToken_output]
  · simp [ParseError, GetNextToken_error_count]
  · simp [ParseError, GetNextToken_defVar]
  · simp [ParseError, GetNextToken_SymTable]
  · intro sv sa hsv hass hs
    have hE := (undeclared_operand n s hk hu).2
    refine ⟨ParseError (GetNextToken s).2.line "Missing Expression in Assignment Statement"
      (ParseError (GetNextToken s).2.line "Expression error"
        (ParseError (GetNextToken s).2.line "Term Error"
          (ParseError (GetNextToken s).2.line "Undeclared Variable" (GetNextToken s).2))),
      ?_, ?_, ?_, ?_⟩
    · simp only [AssignStmt, hsv, andThen_true, hass, hs, hE, andThen_false, failWith]
      simp [ParseError]
    · simp [ParseError, GetNextToken_output]
    · simp [ParseError, GetNextToken_defVar]
    · simp [ParseError, GetNextToken_SymTable]
  · exact failsOn_of (returns_AssignStmt s0) (fun m => hc.sat_AssignStmt m s0)
  · exact failsOn_of (returns_Stmt s0) (fun m => hc.sat_Stmt m s0)
  · exact failsOn_of (returns_ControlStmt s0) (fun m => hc.sat_ControlStmt m s0)
  · exact failsOn_of (returns_WriteStmt s0) (fun m => hc.sat_WriteStmt m s0)
  · exact failsOn_of (returns_IfStmt s0) (fun m => hc.sat_IfStmt m s0)
  · exact failsOn_of (returns_LogicExpr s0) (fun m => hc.sat_LogicExpr m s0)
  · exact failsOn_of (returns_ExprList s0) (fun m => hc.sat_ExprList m s0)
  · exact failsOn_of (returns_Expr s0) (fun m => hc.sat_Expr m s0)
  · exact failsOn_of (returns_Term s0) (fun m => hc.sat_Term m s0)
  · exact failsOn_of (returns_SFactor s0) (fun m => hc.sat_SFactor m s0)
  · exact failsOn_of (returns_Factor s0 sign) (fun m => hc.sat_Factor m s0 sign)
  · exact failsOn_of (returns_StmtList s0) (fun m => hc.sat_StmtList m s0)
  · exact failsOn_of (returns_Prog s0) (fun m => hc.sat_Prog m s0)
  · exact fun h => soundC_idents hag (by simp) _ (sound_AssignStmt D m s0 hag) h
  · exact fun h => soundC_idents hag (by simp) _ (sound_WriteStmt D m s0 hag) h
  · exact fun h => soundC_idents hag (by simp) _ ((sound_control D m).2 s0 hag) h
  · exact fun h => soundC_idents hag (by simp) _ ((sound_control D m).1 s0 hag) h
  · exact fun h => soundE_idents hag _ (sound_Expr D m s0 hag) h
  · exact fun h => Stmt_idents hag h

/-- Witness for C5: the undeclared identifier `b` on line 3, no name being
declared; and, `a` being declared, the statements `WRITE 1 + b`,
`IF ( b == 1 ) WRITE 1` and `a = ( b )`, which `Stmt` rejects with
"Undeclared Variable" as the first diagnostic. -/
theorem undeclared_use_rejected_witness :
    (GetNextToken (initState [entry .IDENT "b" 3] 1)).1.GetToken = .IDENT ∧
    (initState [entry .IDENT "b" 3] 1).defVar
      (GetNextToken (initState [entry .IDENT "b" 3] 1)).1.GetLexeme = none ∧
    (∃ s', Var (initState [entry .IDENT "b" 3] 1) = .done false s' ∧
      Factor 1 (initState [entry .IDENT "b" 3] 1) 1 = .done false s' ∧
      s'.output = [(3, "Undeclared Variable")]) ∧
    (∃ s', Stmt 9 writeUndeclared = .done false s' ∧
      s'.output.head? = some (1, "Undeclared Variable")) ∧
    (∃ s', Stmt 9 ifUndeclared = .done false s' ∧
      s'.output.head? = some (1, "Undeclared Variable")) ∧
    (∃ s', Stmt 12 parenUndeclared = .done false s' ∧
      s'.output.head? = some (1, "Undeclared Variable")) := by
  refine ⟨rfl, rfl, ?_, ?_, ?_, ?_⟩
  · obtain ⟨s', h1, h2, -, -, h3, -⟩ :=
      (undeclared_use_rejected 0 (initState [entry .IDENT "b" 3] 1) 1 rfl rfl).1
    exact ⟨s', h1, h2, by simpa [initState, GetNextToken, getNextToken, entry] using h3⟩
  · refine ⟨ParseError 1 "Missing expression after WRITE" (ParseError 1 "Missing Expression"
      (ParseError 1 "Missing operand after operator" (ParseError 1 "Term Error"
        (ParseError 1 "Undeclared Variable"
          ((initState [entry .SEMICOL ";" 1] 1).declare "a" .INT))))), ?_, rfl⟩
    simp [Stmt, ControlStmt, WriteStmt, ExprList, ExprListLoop, Expr, ExprLoop, Term, TermLoop,
      SFactor, Factor, GetNextToken, getNextToken, pushBack, PushBackToken, initState,
      writeUndeclared, PState.declare, entry, LexItem.GetToken, LexItem.GetLexeme, Res.andThen,
      failWith, ParseError]
  · refine ⟨ParseError 1 "Missing Expression in Logic Expression"
      (ParseError 1 "Expression error" (ParseError 1 "Term Error"
        (ParseError 1 "Undeclared Variable"
          ((initState [entry .EQUAL "==" 1, entry .ICONST "1" 1, entry .RPAREN ")" 1,
            entry .WRITE "WRITE" 1, entry .ICONST "1" 1, entry .SEMICOL ";" 1] 1).declare
              "a" .INT)))), ?_, rfl⟩
    simp [Stmt, ControlStmt, IfStmt, LogicExpr, Expr, ExprLoop, Term, TermLoop,
      SFactor, Factor, GetNextToken, getNextToken, pushBack, PushBackToken, initState,
      ifUndeclared, PState.declare, entry, LexItem.GetToken, LexItem.GetLexeme, Res.andThen,
      failWith, ParseError]
  · refine ⟨ParseError 1 "Missing Expression in Assignment Statement"
      (ParseError 1 "Expression error" (ParseError 1 "Term Error" (ParseError 1 "Factor error"
        (ParseError 1 "Expression error" (ParseError 1 "Term Error"
          (ParseError 1 "Undeclared Variable"
            ((initState [entry .RPAREN ")" 1, entry .SEMICOL ";" 1] 1).declare
              "a" .INT))))))), ?_, rfl⟩
    simp [Stmt, ControlStmt, AssignStmt, Var, Expr, ExprLoop, Term, TermLoop,
      SFactor, Factor, GetNextToken, getNextToken, pushBack, PushBackToken, initState,
      parenUndeclared, PState.declare, entry, LexItem.GetToken, LexItem.GetLexeme, Res.andThen,
      failWith, ParseError]

/-- C6 (redeclaration is rejected, the entry is kept).  Let the name `x` of the
`IDENT` token that `IdentList` reads next be a key of `defVar` and be
registered in `SymTable` with kind `K`.  Then `IdentList`, whatever its type
token `tok`, returns `false`, records "Variable Redefinition", and leaves both
tables as they were, so `x` still has kind `K`; and `DeclStmt`, reading an
`INT` or `FLOAT` token and then `x`, returns `false` in the same way. -/
theorem redeclaration_rejected (n : Nat) (s : PState) (tok : LexItem) (K : Token) (d : Bool)
    (hk : (GetNextToken s).1.GetToken = .IDENT)
    (hd : s.defVar (GetNextToken s).1.GetLexeme = some d)
    (hK : s.SymTable (GetNextToken s).1.GetLexeme = some K) :
    ∃ s', IdentList (n + 1) s tok = .done false s' ∧
      s'.output = s.output ++ [((GetNextToken s).2.line, "Variable Redefinition")] ∧
      s'.error_count = wrapInt (s.error_count + 1) ∧
      s'.defVar (GetNextToken s).1.GetLexeme = some d ∧
      s'.SymTable (GetNextToken s).1.GetLexeme = some K ∧
      s'.defVar = s.defVar ∧ s'.SymTable = s.SymTable ∧
      ∀ s0 : PState, (GetNextToken s0).2 = s →
        ((GetNextToken s0).1.GetToken = .INT ∨ (GetNextToken s0).1.GetToken = .FLOAT) →
        DeclStmt (n + 1) s0 = .done false s' := by
  refine ⟨ParseError (GetNextToken s).2.line "Variable Redefinition" (GetNextToken s).2,
    ?_, ?_, ?_, ?_, ?_, ?_, ?_, ?_⟩
  · simp [IdentList, hk, hd, GetNextToken_defVar, failWith]
  · simp [ParseError, GetNextToken_output]
  · simp [ParseError, GetNextToken_error_count]
  · simp [ParseError, GetNextToken_defVar, hd]
  · simp [ParseError, GetNextToken_SymTable, hK]
  · simp [ParseError, GetNextToken_defVar]
  · simp [ParseError, GetNextToken_SymTable]
  · intro s0 h0 hT
    have : ¬ ((GetNextToken s0).1.GetToken ≠ .INT ∧ (GetNextToken s0).1.GetToken ≠ .FLOAT) := by
      rcases hT with h | h <;> simp [h]
    simp only [DeclStmt, this, if_false, h0]
    simp [IdentList, hk, hd, GetNextToken_defVar, failWith]

/-- Witness for C6: `a` is registered as `INT` and is declared again, by a
list of type `FLOAT`. -/
theorem redeclaration_rejected_witness :
    (GetNextToken ((initState [entry .IDENT "a" 2] 1).declare "a" .INT)).1.GetToken = .IDENT ∧
    ((initState [entry .IDENT "a" 2] 1).declare "a" .INT).defVar "a" = some true ∧
    ((initState [entry .IDENT "a" 2] 1).declare "a" .INT).SymTable "a" = some .INT ∧
    ∃ s', IdentList 1 ((initState [entry .IDENT "a" 2] 1).declare "a" .INT)
        ⟨.FLOAT, "FLOAT", 2⟩ = .done false s' ∧
      s'.output = [(2, "Variable Redefinition")] ∧ s'.SymTable "a" = some .INT :=
  ⟨rfl, rfl, rfl, by
    obtain ⟨s', h1, h2, -, -, h3, -⟩ :=
      redeclaration_rejected 0 ((initState [entry .IDENT "a" 2] 1).declare "a" .INT)
        ⟨.FLOAT, "FLOAT", 2⟩ .INT true rfl rfl rfl
    exact ⟨s', h1, by simpa [initState, GetNextToken, getNextToken, entry, PState.declare]
      using h2, h3⟩⟩

/-- C7 (`IdentList` registers exactly its names).  Let the pushback slot of `s`
be empty and its input be `IDENT { COMMA IDENT }` (the first identifier, then
the pairs `more`) followed by an entry `u` that is no `COMMA`, the names being
pairwise distinct and none a key of `defVar`.  Then `IdentList`, for every
depth budget of at least the number of names, returns `true`; `u` is the
pending pushback token and the input after `u` is unread; `defVar` and
`SymTable` are those of `s` plus exactly these names, each marked declared and
mapped to the kind of the type token; nothing is reported. -/
theorem IdentList_registers (more : List ((LexItem × Int) × (LexItem × Int)))
    (k : Nat) (tok : LexItem) (first u : LexItem × Int) (rest : List (LexItem × Int))
    (s : PState)
    (hp : s.pushed = none)
    (hin : s.input = first :: (commaIdents more ++ u :: rest))
    (h1 : first.1.GetToken = .IDENT)
    (hm : ∀ p ∈ more, p.1.1.GetToken = .COMMA ∧ p.2.1.GetToken = .IDENT)
    (hnd : (first.1.GetLexeme :: more.map fun p => p.2.1.GetLexeme).Nodup)
    (hfresh : ∀ x ∈ first.1.GetLexeme :: more.map fun p => p.2.1.GetLexeme, s.defVar x = none)
    (hu : u.1.GetToken ≠ .COMMA) :
    ∃ s', IdentList (more.length + 1 + k) s tok = .done true s' ∧
      s'.pushed = some u.1 ∧ s'.input = rest ∧ s'.line = u.2 ∧
      (∀ x, s'.defVar x =
        if x ∈ first.1.GetLexeme :: more.map fun p => p.2.1.GetLexeme then some true
        else s.defVar x) ∧
      (∀ x, s'.SymTable x =
        if x ∈ first.1.GetLexeme :: more.map fun p => p.2.1.GetLexeme then some tok.GetToken
        else s.SymTable x) ∧
      s'.error_count = s.error_count ∧ s'.output = s.output := by
  have hs : s = s.seek none (first :: (commaIdents more ++ u :: rest)) s.line := by
    rw [← hp, ← hin]; rfl
  refine ⟨(s.declareAll (first.1.GetLexeme :: more.map fun p => p.2.1.GetLexeme)
    tok.GetToken).seek (some u.1) rest u.2, ?_, rfl, rfl, rfl, ?_, ?_, ?_, ?_⟩
  · have h := IdentList_seek more k tok first u rest s s.line h1 hm hnd hfresh hu
    rwa [← hs] at h
  · intro x; simp only [seek_defVar]; exact declareAll_defVar _ s _ x
  · intro x; simp only [seek_SymTable]; exact declareAll_SymTable _ s _ x
  · simp only [seek_error_count]; exact declareAll_error_count _ s _
  · simp only [seek_output]; exact declareAll_output _ s _

/-- Witness for C7: the list `a , b` of type `INT`, followed by `;`. -/
theorem IdentList_registers_witness :
    (initState [entry .IDENT "a" 1, entry .COMMA "," 1, entry .IDENT "b" 1,
      entry .SEMICOL ";" 1] 1).pushed = none ∧
    ∃ s', IdentList 2 (initState [entry .IDENT "a" 1, entry .COMMA "," 1, entry .IDENT "b" 1,
        entry .SEMICOL ";" 1] 1) ⟨.INT, "INT", 1⟩ = .done true s' ∧
      s'.pushed = some ⟨.SEMICOL, ";", 1⟩ ∧ s'.input = [] ∧
      s'.SymTable "a" = some .INT ∧ s'.SymTable "b" = some .INT ∧ s'.SymTable "c" = none :=
  ⟨rfl, by
    obtain ⟨s', h1, h2, h3, -, -, h4, -⟩ :=
      IdentList_registers [(entry .COMMA "," 1, entry .IDENT "b" 1)] 0 ⟨.INT, "INT", 1⟩
        (entry .IDENT "a" 1) (entry .SEMICOL ";" 1) []
        (initState [entry .IDENT "a" 1, entry .COMMA "," 1, entry .IDENT "b" 1,
          entry .SEMICOL ";" 1] 1) rfl rfl rfl
        (by simp [entry, LexItem.GetToken])
        (by simp [entry, LexItem.GetLexeme])
        (by simp [initState])
        (by simp [entry, LexItem.GetToken])
    refine ⟨s', h1, h2, h3, ?_, ?_, ?_⟩
    · rw [h4]; simp [entry, LexItem.GetLexeme, LexItem.GetToken]
    · rw [h4]; simp [entry, LexItem.GetLexeme, LexItem.GetToken]
    · rw [h4]; simp [entry, LexItem.GetLexeme, initState]⟩

/-- Counterexample to C8 as worded: on `WRITE 1 END PROGRAM` the rule
`StmtList` returns `false` with the one diagnostic "Missing a semicolon."
(with a full stop); no diagnostic has the message "Missing a semicolon". -/
theorem missing_semicolon_message_differs :
    ∃ s', StmtList 6 (initState (writeNoSemicolon.drop 2) 1) = .done false s' ∧
      s'.output = [(1, "Missing a semicolon.")] ∧
      ∀ d ∈ s'.output, d.2 ≠ "Missing a semicolon" := by
  refine ⟨ParseError 1 "Missing a semicolon."
    ((initState [entry .PROGRAM "PROGRAM" 1] 1).seek (some ⟨.END, "END", 1⟩)
      [entry .PROGRAM "PROGRAM" 1] 1), ?_, ?_, ?_⟩
  · simp [StmtList, StmtListLoop, Stmt, ControlStmt, WriteStmt, ExprList, ExprListLoop,
      Expr, ExprLoop, Term, TermLoop, SFactor, Factor, GetNextToken, getNextToken, pushBack,
      PushBackToken, initState, writeNoSemicolon, entry, LexItem.GetToken, Res.andThen, failWith,
      ParseError, PState.seek]
  · simp [ParseError, initState]
  · simp [ParseError, initState]

/-- C8, amended: the message is "Missing a semicolon." as the code prints it.
Let the input of `s` (empty pushback slot, declared names `D`) be zero or more
groups `Stmt ;` (`l`), then a statement (`st`), then an `END` entry `e`.  Then
`StmtList` returns `false` for every large enough depth budget, the one new
diagnostic being "Missing a semicolon." on the line the lexer reported with
`END`, and `END` is the pending pushback token; and `Prog`, when the same
input is preceded by `PROGRAM` and a program name, returns `false` likewise. -/
theorem semicolon_before_END_mandatory (D D1 D2 : List String) (l st : List LexItem)
    (hl : StmtSemis D l D1) (hst : DerivesS D1 .Stmt st D2)
    (s : PState) (pl pst : List (LexItem × Int)) (e : LexItem × Int)
    (rest : List (LexItem × Int))
    (hag : Agree s D) (hp : s.pushed = none)
    (hpl : pl.map Prod.fst = l) (hpst : pst.map Prod.fst = st) (he : e.1.GetToken = .END) :
    (s.input = pl ++ pst ++ e :: rest →
      ∃ n s', (∀ m, n ≤ m → StmtList m s = .done false s') ∧
        s'.output = s.output ++ [(e.2, "Missing a semicolon.")] ∧
        s'.error_count = wrapInt (s.error_count + 1) ∧ s'.pushed = some e.1 ∧ s'.input = rest) ∧
    ∀ p name : LexItem × Int, p.1.GetToken = .PROGRAM → name.1.GetToken = .IDENT →
      s.input = p :: name :: (pl ++ pst ++ e :: rest) →
      ∃ n s', (∀ m, n ≤ m → Prog m s = .done false s') ∧
        s'.output = s.output ++ [(e.2, "Missing a semicolon.")] ∧
        s'.error_count = wrapInt (s.error_count + 1) ∧ s'.pushed = some e.1 ∧ s'.input = rest := by
  constructor
  · intro hin
    obtain ⟨s', ho, hec, n, hn⟩ := StmtList_missing_semicolon D D1 D2 l st hl hst s pl pst e rest
      s.line hag hpl hpst he
    refine ⟨n, s'.seek (some e.1) rest e.2, fun m hm => ?_, by simpa using ho,
      by simpa using hec, rfl, rfl⟩
    have hs : s.seek none (pl ++ pst ++ e :: rest) s.line = s := by rw [← hp, ← hin]; rfl
    rw [← hs]; exact hn m hm
  · intro p name hp' hname hin
    obtain ⟨s', ho, hec, n, hn⟩ := StmtList_missing_semicolon D D1 D2 l st hl hst s pl pst e rest
      name.2 hag hpl hpst he
    refine ⟨n, s'.seek (some e.1) rest e.2, fun m hm => ?_, by simpa using ho,
      by simpa using hec, rfl, rfl⟩
    have hs : s.seek none (p :: name :: (pl ++ pst ++ e :: rest)) s.line = s := by
      rw [← hp, ← hin]; rfl
    rw [← hs]
    exact Prog_of_StmtList_false m s _ p name _ s.line hp' hname (hn m hm)

/-- Witness for C8, amended: the input `PROGRAM P WRITE 1 END PROGRAM`. -/
theorem semicolon_before_END_mandatory_witness :
    StmtSemis [] [] [] ∧
    DerivesS [] .Stmt ([entry .WRITE "WRITE" 1, entry .ICONST "1" 1].map Prod.fst) [] ∧
    ∃ n s', (∀ m, n ≤ m → Prog m (initState writeNoSemicolon 1) = .done false s') ∧
      s'.output = [(1, "Missing a semicolon.")] ∧ s'.error_count = 1 :=
  ⟨.nil [], write_one_derives, by
    obtain ⟨n, s', h1, h2, h3, -⟩ :=
      (semicolon_before_END_mandatory [] [] [] [] _ (.nil []) write_one_derives
        (initState writeNoSemicolon 1) [] [entry .WRITE "WRITE" 1, entry .ICONST "1" 1]
        (entry .END "END" 1) [entry .PROGRAM "PROGRAM" 1]
        (by intro x; simp [initState]) rfl rfl rfl rfl).2
        (entry .PROGRAM "PROGRAM" 1) (entry .IDENT "P" 1) rfl rfl rfl
    exact ⟨n, s', h1, by simpa [initState, entry] using h2, by simpa [initState] using h3⟩⟩

/-- Counterexample to C10 as worded: when the `DONE` token `Prog` reads first is
the pending pushback token, `Prog` returns `false` and the pushback slot,
which held that token, is empty afterwards: it is not left unchanged. -/
theorem Prog_empty_file_clears_slot :
    (GetNextToken pendingDone).1.GetToken = .DONE ∧
    pendingDone.pushed = some ⟨.DONE, "", 1⟩ ∧
    Prog 0 pendingDone = .done false (ParseError 1 "Empty File" (initState [] 1)) ∧
    (ParseError 1 "Empty File" (initState [] 1)).pushed = none := by
  refine ⟨rfl, rfl, ?_, rfl⟩
  simp [Prog, GetNextToken, pendingDone, initState, failWith, ParseError, LexItem.GetToken]

/-- C10, amended: the pushback slot is empty afterwards (unchanged only if it
was empty before).  For every state, when the first token `Prog` reads is
`DONE`, `Prog` returns `false`, records exactly one diagnostic, "Empty File",
leaves both symbol tables unchanged and the pushback slot empty (`DONE` is not
pushed back); a slot that was empty is thus unchanged, and so is the lexer
input unless `DONE` was delivered by the lexer. -/
theorem Prog_empty_file (n : Nat) (s : PState)
    (h : (GetNextToken s).1.GetToken = .DONE) :
    ∃ s', Prog n s = .done false s' ∧
      s'.output = s.output ++ [((GetNextToken s).2.line, "Empty File")] ∧
      s'.error_count = wrapInt (s.error_count + 1) ∧
      s'.defVar = s.defVar ∧ s'.SymTable = s.SymTable ∧
      s'.pushed = none ∧ (s.pushed = none → s'.pushed = s.pushed) ∧
      s'.input = (GetNextToken s).2.input := by
  refine ⟨ParseError (GetNextToken s).2.line "Empty File" (GetNextToken s).2,
    ?_, ?_, ?_, ?_, ?_, ?_, ?_, ?_⟩
  · simp [Prog, h, failWith]
  · simp [ParseError, GetNextToken_output]
  · simp [ParseError, GetNextToken_error_count]
  · simp [ParseError, GetNextToken_defVar]
  · simp [ParseError, GetNextToken_SymTable]
  · simp [ParseError, GetNextToken_pushed]
  · intro hp
    simp [ParseError, GetNextToken_pushed, hp]
  · simp [ParseError]

/-- Witness for C10, amended: the empty input, scenario (c). -/
theorem Prog_empty_file_witness :
    (GetNextToken (initState [] 7)).1.GetToken = .DONE ∧
    ∃ s', Prog 0 (initState [] 7) = .done false s' ∧ s'.output = [(7, "Empty File")] ∧
      s'.pushed = none :=
  ⟨rfl, by
    obtain ⟨s', h1, h2, -, -, -, h3, -⟩ := Prog_empty_file 0 (initState [] 7) rfl
    exact ⟨s', h1, by simpa [initState, GetNextToken, getNextToken] using h2, h3⟩⟩

/-- C11, the code at two inputs without `END`.  On `PROGRAM P WRITE 1;`
followed by the end of the input, and on `PROGRAM P WRITE 1;` followed by
`PROGRAM`, the rule `Prog` returns `false`, but the one diagnostic it records
is "Invalid Statement": the token after the semicolon is taken by the loop of
`StmtList` for the start of a statement, and "Missing END at end of program."
is not reported. -/
theorem missing_END_reported_as_Invalid_Statement :
    (∃ s', Prog 6 (initState writeNoEnd 1) = .done false s' ∧
      s'.output = [(1, "Invalid Statement")] ∧ s'.pushed = some ⟨.DONE, "", 1⟩ ∧
      ∀ d ∈ s'.output, d.2 ≠ "Missing END at end of program.") ∧
    (∃ s', Prog 6 (initState writeThenProgram 1) = .done false s' ∧
      s'.output = [(2, "Invalid Statement")] ∧ s'.pushed = some ⟨.PROGRAM, "PROGRAM", 2⟩ ∧
      ∀ d ∈ s'.output, d.2 ≠ "Missing END at end of program.") := by
  constructor
  · refine ⟨ParseError 1 "Invalid Statement"
      ((initState [] 1).seek (some ⟨.DONE, "", 1⟩) [] 1), ?_, ?_, rfl, ?_⟩
    · simp [Prog, StmtList, StmtListLoop, Stmt, ControlStmt, WriteStmt, ExprList, ExprListLoop,
        Expr, ExprLoop, Term, TermLoop, SFactor, Factor, GetNextToken, getNextToken, pushBack,
        PushBackToken, initState, writeNoEnd, entry, LexItem.GetToken, Res.andThen, failWith,
        ParseError, PState.seek]
    · simp [ParseError, initState]
    · simp [ParseError, initState]
  · refine ⟨ParseError 2 "Invalid Statement"
      ((initState [] 2).seek (some ⟨.PROGRAM, "PROGRAM", 2⟩) [] 2), ?_, ?_, rfl, ?_⟩
    · simp [Prog, StmtList, StmtListLoop, Stmt, ControlStmt, WriteStmt, ExprList, ExprListLoop,
        Expr, ExprLoop, Term, TermLoop, SFactor, Factor, GetNextToken, getNextToken, pushBack,
        PushBackToken, initState, writeThenProgram, writeNoEnd, entry, LexItem.GetToken,
        Res.andThen, failWith, ParseError, PState.seek]
    · simp [ParseError, initState]
    · simp [ParseError, initState]

/-- C12 (existing symbol-table entries are never lost or altered).  Each of
the sixteen grammar rules, started in any state `s` on any lexer input,
returns, and whenever it returns, `true` or `false`, every name registered
before the call (a key of `defVar`) is registered after it, with the `defVar`
value and the `SymTable` kind it had.  In particular a statement that fails
leaves the entries made by earlier statements as they were; and when every
key of `SymTable` is a key of `defVar` (as in every state parsing reaches),
`Prog` keeps every `SymTable` entry. -/
theorem entries_never_lost (s : PState) (tok : LexItem) (sign : Int) :
    (Keeps KeepsEntries (fun m => Prog m s) s ∧ Keeps KeepsEntries (fun m => StmtList m s) s ∧
      Keeps KeepsEntries (fun m => Stmt m s) s ∧ Keeps KeepsEntries (fun m => DeclStmt m s) s ∧
      Keeps KeepsEntries (fun m => IdentList m s tok) s ∧
      Keeps KeepsEntries (fun m => ControlStmt m s) s ∧
      Keeps KeepsEntries (fun m => WriteStmt m s) s ∧
      Keeps KeepsEntries (fun m => IfStmt m s) s ∧
      Keeps KeepsEntries (fun m => AssignStmt m s) s ∧
      Keeps KeepsEntries (fun m => ExprList m s) s ∧ Keeps KeepsEntries (fun m => Expr m s) s ∧
      Keeps KeepsEntries (fun m => Term m s) s ∧ Keeps KeepsEntries (fun m => SFactor m s) s ∧
      Keeps KeepsEntries (fun m => Factor m s sign) s ∧
      Keeps KeepsEntries (fun m => LogicExpr m s) s ∧ Keeps KeepsEntries (fun _ => Var s) s) ∧
    (∀ (m : Nat) (s' : PState) (x : String) (K : Token), Stmt m s = .done false s' →
      (s.defVar x).isSome = true → s.SymTable x = some K →
      (s'.defVar x).isSome = true ∧ s'.SymTable x = some K) ∧
    ((∀ x, (s.SymTable x).isSome = true → (s.defVar x).isSome = true) →
      ∀ (m : Nat) (b : Bool) (s' : PState) (x : String) (K : Token), Prog m s = .done b s' →
        s.SymTable x = some K → s'.SymTable x = some K) := by
  have hc := keepsEntries_compat
  refine ⟨⟨?_, ?_, ?_, ?_, ?_, ?_, ?_, ?_, ?_, ?_, ?_, ?_, ?_, ?_, ?_, ?_⟩, ?_, ?_⟩
  · exact keeps_of (returns_Prog s) (fun m => hc.sat_Prog m s)
  · exact keeps_of (returns_StmtList s) (fun m => hc.sat_StmtList m s)
  · exact keeps_of (returns_Stmt s) (fun m => hc.sat_Stmt m s)
  · exact keeps_of (returns_DeclStmt s) (fun m => hc.sat_DeclStmt m s)
  · exact keeps_of (returns_IdentList _ s tok le_rfl) (fun m => hc.sat_IdentList m s tok)
  · exact keeps_of (returns_ControlStmt s) (fun m => hc.sat_ControlStmt m s)
  · exact keeps_of (returns_WriteStmt s) (fun m => hc.sat_WriteStmt m s)
  · exact keeps_of (returns_IfStmt s) (fun m => hc.sat_IfStmt m s)
  · exact keeps_of (returns_AssignStmt s) (fun m => hc.sat_AssignStmt m s)
  · exact keeps_of (returns_ExprList s) (fun m => hc.sat_ExprList m s)
  · exact keeps_of (returns_Expr s) (fun m => hc.sat_Expr m s)
  · exact keeps_of (returns_Term s) (fun m => hc.sat_Term m s)
  · exact keeps_of (returns_SFactor s) (fun m => hc.sat_SFactor m s)
  · exact keeps_of (returns_Factor s sign) (fun m => hc.sat_Factor m s sign)
  · exact keeps_of (returns_LogicExpr s) (fun m => hc.sat_LogicExpr m s)
  · exact keeps_of (returns_Var s) (fun _ => hc.sat_Var s)
  · intro m s' x K h hx hK
    obtain ⟨h1, h2⟩ := sat_iff.1 (hc.sat_Stmt m s) false s' h x hx
    exact ⟨by rw [h1]; exact hx, by rw [h2]; exact hK⟩
  · intro hkeys m b s' x K h hK
    obtain ⟨-, h2⟩ := sat_iff.1 (hc.sat_Prog m s) b s' h x (hkeys x (by rw [hK]; rfl))
    rw [h2]; exact hK

/-- An instance of C12: with `a` registered as `INT`, the statement `b = 5`
fails on the undeclared `b`, and `a` is still registered as `INT`. -/
theorem entries_never_lost_witness :
    (declaredThenUndeclared.defVar "a").isSome = true ∧
    declaredThenUndeclared.SymTable "a" = some .INT ∧
    ∃ s', Stmt 2 declaredThenUndeclared = .done false s' ∧
      s'.output = [(2, "Undeclared Variable")] ∧
      (s'.defVar "a").isSome = true ∧ s'.SymTable "a" = some .INT := by
  have hrun : Stmt 2 declaredThenUndeclared = .done false
      (ParseError 2 "Undeclared Variable"
        ((initState [entry .ASSOP "=" 2, entry .ICONST "5" 2, entry .SEMICOL ";" 2] 2).declare
          "a" .INT)) := by
    simp [Stmt, ControlStmt, AssignStmt, Var, GetNextToken, getNextToken, pushBack,
      PushBackToken, initState, declaredThenUndeclared, PState.declare, entry,
      LexItem.GetToken, LexItem.GetLexeme, Res.andThen, failWith, ParseError]
  exact ⟨rfl, rfl, _, hrun, rfl,
    (entries_never_lost declaredThenUndeclared ⟨.INT, "INT", 1⟩ 1).2.1 2 _ "a" .INT hrun rfl rfl⟩

/-- C13 (the double-pushback fault is unreachable from parsing).
`PushBackToken` takes its `abort()` branch exactly when a token is pending;
yet each of the sixteen grammar rules, started in any state `s` (whatever the
lexer input, whatever the pushback slot holds), never ends in `abort()`: with
every depth budget the run is a return or needs a larger budget, and with
every large enough budget it returns. -/
theorem double_pushback_unreachable (s : PState) (tok : LexItem) (sign : Int) :
    (∀ t : LexItem, PushBackToken t s = none ↔ s.pushed ≠ none) ∧
    NeverAborts (fun m => Prog m s) ∧ NeverAborts (fun m => StmtList m s) ∧
    NeverAborts (fun m => Stmt m s) ∧ NeverAborts (fun m => DeclStmt m s) ∧
    NeverAborts (fun m => IdentList m s tok) ∧ NeverAborts (fun m => ControlStmt m s) ∧
    NeverAborts (fun m => WriteStmt m s) ∧ NeverAborts (fun m => IfStmt m s) ∧
    NeverAborts (fun m => AssignStmt m s) ∧ NeverAborts (fun m => ExprList m s) ∧
    NeverAborts (fun m => Expr m s) ∧ NeverAborts (fun m => Term m s) ∧
    NeverAborts (fun m => SFactor m s) ∧ NeverAborts (fun m => Factor m s sign) ∧
    NeverAborts (fun m => LogicExpr m s) ∧ NeverAborts (fun _ => Var s) := by
  refine ⟨fun t => ?_, ?_, ?_, ?_, ?_, ?_, ?_, ?_, ?_, ?_, ?_, ?_, ?_, ?_, ?_, ?_, ?_⟩
  · cases hp : s.pushed <;> simp [PushBackToken, hp]
  · exact neverAborts_of (returns_Prog s) (fun m => below_Prog m s)
  · exact neverAborts_of (returns_StmtList s) (fun m => below_StmtList m s)
  · exact neverAborts_of (returns_Stmt s) (fun m => below_Stmt m s)
  · exact neverAborts_of (returns_DeclStmt s) (fun m => below_DeclStmt m s)
  · exact neverAborts_of (returns_IdentList _ s tok le_rfl) (fun m => below_IdentList m s tok)
  · exact neverAborts_of (returns_ControlStmt s) (fun m => below_ControlStmt m s)
  · exact neverAborts_of (returns_WriteStmt s) (fun m => below_WriteStmt m s)
  · exact neverAborts_of (returns_IfStmt s) (fun m => below_IfStmt m s)
  · exact neverAborts_of (returns_AssignStmt s) (fun m => below_AssignStmt m s)
  · exact neverAborts_of (returns_ExprList s) (fun m => below_ExprList m s)
  · exact neverAborts_of (returns_Expr s) (fun m => below_Expr m s)
  · exact neverAborts_of (returns_Term s) (fun m => below_Term m s)
  · exact neverAborts_of (returns_SFactor s) (fun m => below_SFactor m s)
  · exact neverAborts_of (returns_Factor s sign) (fun m => below_Factor m s sign)
  · exact neverAborts_of (returns_LogicExpr s) (fun m => below_LogicExpr m s)
  · exact neverAborts_of (returns_Var s) (fun _ => below_refl _)

/-- C14 (pushback round trip).  In a state `s` whose pushback slot is empty,
`PushBackToken(t)` does not abort and leaves `t` pending; the `GetNextToken`
that follows returns exactly `t` (kind, lexeme and line) and leaves the state
`s` itself: the slot is empty again, and the lexer input and the line counter
are what they were, so nothing was pulled from the lexical analyzer. -/
theorem pushback_round_trip (t : LexItem) (s : PState) (h : s.pushed = none) :
    ∃ s1, PushBackToken t s = some s1 ∧ s1.pushed = some t ∧ GetNextToken s1 = (t, s) ∧
      (GetNextToken s1).2.pushed = none ∧ (GetNextToken s1).2.input = s.input ∧
      (GetNextToken s1).2.line = s.line := by
  have hg := GetNextToken_unget t s h
  refine ⟨{ s with pushed := some t }, by simp [PushBackToken, h], rfl, hg, ?_, ?_, ?_⟩
  · rw [hg]; exact h
  · rw [hg]
  · rw [hg]

/-- Witness for C14: a semicolon pushed back in front of the input
`PROGRAM P WRITE 1; END PROGRAM`. -/
theorem pushback_round_trip_witness :
    (initState writeOnly 1).pushed = none ∧
    ∃ s1, PushBackToken ⟨.SEMICOL, ";", 3⟩ (initState writeOnly 1) = some s1 ∧
      GetNextToken s1 = (⟨.SEMICOL, ";", 3⟩, initState writeOnly 1) :=
  ⟨rfl, by
    obtain ⟨s1, h1, -, h2, -⟩ := pushback_round_trip ⟨.SEMICOL, ";", 3⟩ (initState writeOnly 1) rfl
    exact ⟨s1, h1, h2⟩⟩

/-- C15, the code at three inputs.  `IdentList` reading the constant of `5 ;`,
`Factor` reading the semicolon of `; 5`, and `Factor` reading the semicolon of
`( 1 ; 5` where `)` is required, each return `false` with an empty pushback
slot: the mismatched token is not pushed back, and the next `GetNextToken`
returns the token after it, not the mismatched one. -/
theorem mismatch_not_pushed_back :
    (∃ s', IdentList 1 (initState constantThenSemicolon 1) ⟨.INT, "INT", 1⟩ = .done false s' ∧
      s'.output = [(1, "Invalid Identifier List")] ∧ s'.pushed = none ∧
      (GetNextToken s').1 = ⟨.SEMICOL, ";", 1⟩) ∧
    (∃ s', Factor 1 (initState semicolonThenConstant 1) 1 = .done false s' ∧
      s'.output = [(1, "No left parenthesis")] ∧ s'.pushed = none ∧
      (GetNextToken s').1 = ⟨.ICONST, "5", 1⟩) ∧
    (∃ s', Factor 5 (initState unclosedParenthesis 1) 1 = .done false s' ∧
      s'.output = [(1, "No right parenthesis")] ∧ s'.pushed = none ∧
      (GetNextToken s').1 = ⟨.ICONST, "5", 1⟩) := by
  refine ⟨⟨ParseError 1 "Invalid Identifier List" (initState [entry .SEMICOL ";" 1] 1),
      ?_, rfl, rfl, rfl⟩,
    ⟨ParseError 1 "No left parenthesis" (initState [entry .ICONST "5" 1] 1), ?_, rfl, rfl, rfl⟩,
    ⟨ParseError 1 "No right parenthesis" (initState [entry .ICONST "5" 1] 1), ?_, rfl, rfl, rfl⟩⟩
  · simp [IdentList, GetNextToken, getNextToken, initState, constantThenSemicolon, entry,
      LexItem.GetToken, failWith, ParseError]
  · simp [Factor, GetNextToken, getNextToken, initState, semicolonThenConstant, entry,
      LexItem.GetToken, failWith, ParseError]
  · simp [Factor, Expr, ExprLoop, Term, TermLoop, SFactor, GetNextToken, getNextToken, pushBack,
      PushBackToken, initState, unclosedParenthesis, entry, LexItem.GetToken, Res.andThen,
      failWith, ParseError]

/-- C16 (`StmtList` stops exactly at `END`).  Whenever `StmtList` returns
`true`, the pushback slot holds a token `e` of kind `END`, so the next token
read is `e`; the return is the same for every larger depth budget; and a
`Prog` that called this `StmtList` after `PROGRAM` and the program name reads
`END` next and goes on to the closing `PROGRAM`: it does not take the branch
of a missing `END`. -/
theorem StmtList_stops_at_END (n : Nat) (s s' : PState) (h : StmtList n s = .done true s') :
    (∃ e : LexItem, s'.pushed = some e ∧ e.GetToken = .END ∧ (GetNextToken s').1 = e) ∧
    (GetNextToken s').1.GetToken = .END ∧
    (∀ m, n ≤ m → StmtList m s = .done true s') ∧
    ∀ s0 : PState, (GetNextToken s0).1.GetToken = .PROGRAM →
      (GetNextToken (GetNextToken s0).2).1.GetToken = .IDENT →
      (GetNextToken (GetNextToken s0).2).2 = s →
      Prog n s0 =
        if (GetNextToken (GetNextToken s').2).1.GetToken ≠ .PROGRAM then
          pushBack (GetNextToken (GetNextToken s').2).1 (GetNextToken (GetNextToken s').2).2
            (failWith "Missing PROGRAM at the End")
        else .done true (GetNextToken (GetNextToken s').2).2 := by
  obtain ⟨e, hp, he⟩ := StmtList_true_END n s s' h
  have hg : (GetNextToken s').1 = e := by simp [GetNextToken, hp]
  refine ⟨⟨e, hp, he, hg⟩, by rw [hg]; exact he, fun m hm => ?_, fun s0 h1 h2 h3 => ?_⟩
  · have := below_stable (F := fun k => StmtList k s) (fun k => below_StmtList k s)
      (by simp [h]) m hm
    simpa [h] using this
  · have he2 : (GetNextToken s').1.GetToken = .END := by rw [hg]; exact he
    simp only [Prog, h1, h2, h3, h, he2, andThen_true, if_false, ne_eq, not_true_eq_false,
      reduceCtorEq]

/-- Witness for C16: `StmtList` on `WRITE 1; END PROGRAM` returns `true` with
`END` pushed back. -/
theorem StmtList_stops_at_END_witness :
    StmtList 6 (initState (writeOnly.drop 2) 1) = .done true
      ((initState [] 1).seek (some ⟨.END, "END", 1⟩) [entry .PROGRAM "PROGRAM" 1] 1) ∧
    (GetNextToken ((initState [] 1).seek (some ⟨.END, "END", 1⟩)
      [entry .PROGRAM "PROGRAM" 1] 1)).1.GetToken = .END :=
  have hrun : StmtList 6 (initState (writeOnly.drop 2) 1) = .done true
      ((initState [] 1).seek (some ⟨.END, "END", 1⟩) [entry .PROGRAM "PROGRAM" 1] 1) := by
    simp [StmtList, StmtListLoop, Stmt, ControlStmt, WriteStmt, ExprList, ExprListLoop,
      Expr, ExprLoop, Term, TermLoop, SFactor, Factor, GetNextToken, getNextToken, pushBack,
      PushBackToken, initState, writeOnly, entry, LexItem.GetToken, Res.andThen, PState.seek]
  ⟨hrun, (StmtList_stops_at_END 6 _ _ hrun).2.1⟩

/-- C17 (only declarations write the symbol table).  `ControlStmt` and every
rule reachable from it, started in any state `s` on any lexer input, returns,
and whenever it returns, `true` or `false`, both stores (`defVar` and
`SymTable`) are exactly what they were before the call; so a lookup in `Var`
or `Factor` inserts nothing.  Likewise the reading of `PROGRAM` and of the
program name by `Prog` adds no entry: `StmtList` is entered with the stores
of `s`, a `false` of `StmtList` is the result of `Prog`, and after a `true`
of `StmtList` the result of `Prog` has the stores `StmtList` left. -/
theorem only_declarations_write_tables (s : PState) (sign : Int) :
    (Keeps SameTables (fun m => ControlStmt m s) s ∧
      Keeps SameTables (fun m => AssignStmt m s) s ∧ Keeps SameTables (fun m => IfStmt m s) s ∧
      Keeps SameTables (fun m => WriteStmt m s) s ∧ Keeps SameTables (fun m => ExprList m s) s ∧
      Keeps SameTables (fun m => Expr m s) s ∧ Keeps SameTables (fun m => Term m s) s ∧
      Keeps SameTables (fun m => SFactor m s) s ∧
      Keeps SameTables (fun m => Factor m s sign) s ∧
      Keeps SameTables (fun m => LogicExpr m s) s ∧ Keeps SameTables (fun _ => Var s) s) ∧
    ((GetNextToken s).1.GetToken = .PROGRAM →
      (GetNextToken (GetNextToken s).2).1.GetToken = .IDENT →
      (GetNextToken (GetNextToken s).2).2.defVar = s.defVar ∧
      (GetNextToken (GetNextToken s).2).2.SymTable = s.SymTable ∧
      ∀ n : Nat,
        (∀ s', StmtList n (GetNextToken (GetNextToken s).2).2 = .done false s' →
          Prog n s = .done false s') ∧
        (∀ s3, StmtList n (GetNextToken (GetNextToken s).2).2 = .done true s3 →
          ∃ b s', Prog n s = .done b s' ∧ s'.defVar = s3.defVar ∧
            s'.SymTable = s3.SymTable)) := by
  have hc := sameTables_compat
  refine ⟨⟨?_, ?_, ?_, ?_, ?_, ?_, ?_, ?_, ?_, ?_, ?_⟩, fun h1 h2 => ⟨?_, ?_, fun n => ⟨?_, ?_⟩⟩⟩
  · exact keeps_of (returns_ControlStmt s) (fun m => hc.sat_ControlStmt m s)
  · exact keeps_of (returns_AssignStmt s) (fun m => hc.sat_AssignStmt m s)
  · exact keeps_of (returns_IfStmt s) (fun m => hc.sat_IfStmt m s)
  · exact keeps_of (returns_WriteStmt s) (fun m => hc.sat_WriteStmt m s)
  · exact keeps_of (returns_ExprList s) (fun m => hc.sat_ExprList m s)
  · exact keeps_of (returns_Expr s) (fun m => hc.sat_Expr m s)
  · exact keeps_of (returns_Term s) (fun m => hc.sat_Term m s)
  · exact keeps_of (returns_SFactor s) (fun m => hc.sat_SFactor m s)
  · exact keeps_of (returns_Factor s sign) (fun m => hc.sat_Factor m s sign)
  · exact keeps_of (returns_LogicExpr s) (fun m => hc.sat_LogicExpr m s)
  · exact keeps_of (returns_Var s) (fun _ => hc.sat_Var s)
  · rw [GetNextToken_defVar, GetNextToken_defVar]
  · rw [GetNextToken_SymTable, GetNextToken_SymTable]
  · intro s' h3
    simp only [Prog, h1, h2, h3, andThen_false, if_false, ne_eq, not_true_eq_false, reduceCtorEq]
  · intro s3 h3
    simp only [Prog, h1, h2, h3, andThen_true, if_false, ne_eq, not_true_eq_false, reduceCtorEq,
      pushBack_get]
    split_ifs
    · exact ⟨true, _, rfl, by simp [GetNextToken_defVar], by simp [GetNextToken_SymTable]⟩
    · exact ⟨false, _, rfl, by simp [ParseError, GetNextToken_defVar],
        by simp [ParseError, GetNextToken_SymTable]⟩
    · exact ⟨false, _, rfl, by simp [ParseError, GetNextToken_defVar],
        by simp [ParseError, GetNextToken_SymTable]⟩

/-- An instance of C17: in `PROGRAM P P = 1; END PROGRAM` the program name `P`
is no entry of the stores when `StmtList` starts, and its use as a variable is
reported as "Undeclared Variable". -/
theorem only_declarations_write_tables_witness :
    (GetNextToken (GetNextToken (initState programNameUsed 1)).2).2.defVar "P" = none ∧
    ∃ s', Prog 6 (initState programNameUsed 1) = .done false s' ∧
      s'.output = [(1, "Undeclared Variable")] := by
  have h := (only_declarations_write_tables (initState programNameUsed 1) 1).2 rfl rfl
  refine ⟨by rw [h.1]; rfl, ParseError 1 "Undeclared Variable"
    (initState (programNameUsed.drop 3) 1), ?_, rfl⟩
  simp [Prog, StmtList, Stmt, ControlStmt, AssignStmt, Var, GetNextToken, getNextToken, pushBack,
    PushBackToken, initState, programNameUsed, entry, LexItem.GetToken, LexItem.GetLexeme,
    Res.andThen, failWith, ParseError]

/-- C18 (termination).  `PState.unread` counts the tokens a state has still to
deliver before the lexer only signals `DONE` (the lexer input is a finite
list).  For every state `s`:

* `Prog` terminates: with every large enough depth budget it returns, always
  the same value and state, and no more tokens are unread than before;
* `IdentList` re-enters itself, having read an identifier and a comma, in a
  state with at least two unread tokens fewer;
* `Factor` calls `Expr`, having read `(`, in a state with fewer unread tokens,
  and `SFactor` (called by `Term`, called by `Expr`, in the state they were
  entered in) calls `Factor` in a state with no more unread tokens;
* `IfStmt` calls `ControlStmt`, having read `IF ( LogicExpr )`, in a state
  with fewer unread tokens, and `ControlStmt` calls `IfStmt` in a state with
  no more unread tokens;
* every iteration of the loops of `Term`, `Expr`, `ExprList` and `StmtList`
  re-enters the loop with fewer unread tokens than it was entered with (the
  loops are entered with the token just read from `s`). -/
theorem unread_tokens_decrease (s : PState) (n : Nat) (tok : LexItem) (sign : Int) :
    (∃ (k : Nat) (b : Bool) (s' : PState),
      (∀ m, k ≤ m → Prog m s = .done b s') ∧ s'.unread ≤ s.unread) ∧
    ((GetNextToken s).1.GetToken = .IDENT →
      ((GetNextToken s).2.defVar (GetNextToken s).1.GetLexeme).isSome = false →
      (GetNextToken ((GetNextToken s).2.declare (GetNextToken s).1.GetLexeme
        tok.GetToken)).1.GetToken = .COMMA →
      IdentList (n + 1) s tok = IdentList n (GetNextToken ((GetNextToken s).2.declare
        (GetNextToken s).1.GetLexeme tok.GetToken)).2 tok ∧
      (GetNextToken ((GetNextToken s).2.declare (GetNextToken s).1.GetLexeme
        tok.GetToken)).2.unread + 2 ≤ s.unread) ∧
    ((GetNextToken s).1.GetToken = .LPAREN →
      Factor (n + 1) s sign = (Expr n (GetNextToken s).2).andThen (failWith "Factor error")
        (fun s1 => if (GetNextToken s1).1.GetToken ≠ .RPAREN then
            failWith "No right parenthesis" (GetNextToken s1).2
          else .done true (GetNextToken s1).2) ∧
      (GetNextToken s).2.unread < s.unread) ∧
    (∃ (s1 : PState) (sg : Int), SFactor (n + 1) s = Factor n s1 sg ∧ s1.unread ≤ s.unread) ∧
    (∀ s3, (GetNextToken s).1.GetToken = .IF →
      (GetNextToken (GetNextToken s).2).1.GetToken = .LPAREN →
      LogicExpr n (GetNextToken (GetNextToken s).2).2 = .done true s3 →
      (GetNextToken s3).1.GetToken = .RPAREN →
      IfStmt (n + 1) s = (ControlStmt n (GetNextToken s3).2).andThen
        (failWith "Missing Statement after IF") (.done true) ∧
      (GetNextToken s3).2.unread + 3 ≤ s.unread) ∧
    ((GetNextToken s).1.GetToken = .IF →
      ControlStmt (n + 1) s
        = IfStmt n { (GetNextToken s).2 with pushed := some (GetNextToken s).1 } ∧
      PState.unread { (GetNextToken s).2 with pushed := some (GetNextToken s).1 } ≤ s.unread) ∧
    (∀ s1, mulOp (GetNextToken s).1.GetToken → SFactor n (GetNextToken s).2 = .done true s1 →
      TermLoop (n + 1) (GetNextToken s).1 (GetNextToken s).2
        = TermLoop n (GetNextToken s1).1 (GetNextToken s1).2 ∧ s1.unread < s.unread) ∧
    (∀ s1, addOp (GetNextToken s).1.GetToken → Term n (GetNextToken s).2 = .done true s1 →
      ExprLoop (n + 1) (GetNextToken s).1 (GetNextToken s).2
        = ExprLoop n (GetNextToken s1).1 (GetNextToken s1).2 ∧ s1.unread < s.unread) ∧
    (∀ s1, (GetNextToken s).1.GetToken = .COMMA → Expr n (GetNextToken s).2 = .done true s1 →
      ExprListLoop (n + 1) (GetNextToken s).1 (GetNextToken s).2
        = ExprListLoop n (GetNextToken s1).1 (GetNextToken s1).2 ∧ s1.unread < s.unread) ∧
    (∀ s1, (GetNextToken s).1.GetToken ≠ .END →
      Stmt n { (GetNextToken s).2 with pushed := some (GetNextToken s).1 } = .done true s1 →
      (GetNextToken s1).1.GetToken = .SEMICOL →
      StmtListLoop (n + 1) (GetNextToken s).1 (GetNextToken s).2
        = StmtListLoop n (GetNextToken (GetNextToken s1).2).1 (GetNextToken (GetNextToken s1).2).2 ∧
      (GetNextToken s1).2.unread < s.unread) := by
  refine ⟨?_, ?_, ?_, ?_, ?_, ?_, ?_, ?_, ?_, ?_⟩
  · obtain ⟨b, s', k, hk, hs⟩ := returns_Prog s
    exact ⟨k, b, s', hk, hs⟩
  · intro h1 h2 h3
    have hlt := unread_get_of_kind s h1 (by decide)
    have hlt2 := unread_get_of_kind ((GetNextToken s).2.declare (GetNextToken s).1.GetLexeme
      tok.GetToken) h3 (by decide)
    rw [unread_declare] at hlt2
    refine ⟨?_, by omega⟩
    rw [IdentList]
    simp only [h1, h2, h3, ne_eq, not_true_eq_false, if_false, Bool.false_eq_true, if_true]
  · intro h1
    refine ⟨?_, unread_get_of_kind s h1 (by decide)⟩
    simp only [Factor, h1, reduceCtorEq, or_self, if_false, ne_eq, not_true_eq_false]
  · simp only [SFactor, pushBack_get]
    have hle := unread_get_le s
    split_ifs
    · exact ⟨_, _, rfl, hle⟩
    · exact ⟨_, _, rfl, hle⟩
    · exact ⟨_, _, rfl, unread_unget s⟩
  · intro s3 h1 h2 h3 h4
    have hlt1 := unread_get_of_kind s h1 (by decide)
    have hlt2 := unread_get_of_kind (GetNextToken s).2 h2 (by decide)
    have hle3 := LogicExpr_unread h3
    have hlt4 := unread_get_of_kind s3 h4 (by decide)
    refine ⟨?_, by omega⟩
    simp only [IfStmt, h1, h2, h3, h4, ne_eq, not_true_eq_false, if_false, andThen_true]
  · intro h1
    refine ⟨?_, unread_unget s⟩
    simp only [ControlStmt, h1, reduceCtorEq, if_false, if_true, pushBack_get]
  · intro s1 h1 h2
    have hlt := unread_get_lt s (by rcases h1 with h | h | h <;> simp [h])
    have hle := SFactor_unread h2
    refine ⟨?_, by omega⟩
    unfold mulOp at h1
    rw [TermLoop]
    simp only [h1, if_true, h2, andThen_true]
  · intro s1 h1 h2
    have hlt := unread_get_lt s (by rcases h1 with h | h <;> simp [h])
    have hle := Term_unread h2
    refine ⟨?_, by omega⟩
    unfold addOp at h1
    rw [ExprLoop]
    simp only [h1, if_true, h2, andThen_true]
  · intro s1 h1 h2
    have hlt := unread_get_of_kind s h1 (by decide)
    have hle := Expr_unread h2
    refine ⟨?_, by omega⟩
    rw [ExprListLoop]
    simp only [h1, if_true, h2, andThen_true]
  · intro s1 h1 h2 h3
    have hle0 := unread_unget s
    have hle := Stmt_unread h2
    have hlt := unread_get_of_kind s1 h3 (by decide)
    refine ⟨?_, by omega⟩
    rw [StmtListLoop]
    simp only [h1, if_false, pushBack_get, h2, andThen_true, h3, ne_eq, not_true_eq_false]

/-- An instance of C18: on `a , b ;`, `IdentList` re-enters itself after the
identifier `a` and the comma with 2 of the 4 tokens unread. -/
theorem unread_tokens_decrease_witness :
    (initState twoIdentifiers 1).unread = 4 ∧
    (GetNextToken ((GetNextToken (initState twoIdentifiers 1)).2.declare "a" .INT)).2.unread
      = 2 ∧
    IdentList 2 (initState twoIdentifiers 1) ⟨.INT, "INT", 1⟩
      = IdentList 1 (GetNextToken ((GetNextToken (initState twoIdentifiers 1)).2.declare
          "a" .INT)).2 ⟨.INT, "INT", 1⟩ :=
  ⟨rfl, rfl,
   ((unread_tokens_decrease (initState twoIdentifiers 1) 1 ⟨.INT, "INT", 1⟩ 1).2.1
      rfl rfl rfl).1⟩

/-- C19 (the two symbol stores stay in lockstep).  The initial state, with both
stores empty, is in lockstep; and from a state `s` in lockstep, `Prog`,
`StmtList`, `Stmt` and every rule entered through `Stmt` returns, and
whenever it returns the state it leaves is in lockstep again: a name is a key
of `defVar` if and only if it is a key of `SymTable`, every `defVar` value is
`true` and every `SymTable` value is `INT` or `FLOAT`.  So every state reached
by `Prog`, or by any sequence of these rules, from empty stores is in
lockstep.  (`IdentList` is entered through `DeclStmt` only, with a type token
`INT` or `FLOAT`.) -/
theorem stores_in_lockstep (s : PState) (tok : LexItem) (sign : Int) (h : Lockstep s) :
    (∀ (input : List (LexItem × Int)) (line : Int), Lockstep (initState input line)) ∧
    Keeps (fun _ _ s' => Lockstep s') (fun m => Prog m s) s ∧
    Keeps (fun _ _ s' => Lockstep s') (fun m => StmtList m s) s ∧
    Keeps (fun _ _ s' => Lockstep s') (fun m => Stmt m s) s ∧
    Keeps (fun _ _ s' => Lockstep s') (fun m => DeclStmt m s) s ∧
    ((tok.GetToken = .INT ∨ tok.GetToken = .FLOAT) →
      Keeps (fun _ _ s' => Lockstep s') (fun m => IdentList m s tok) s) ∧
    Keeps (fun _ _ s' => Lockstep s') (fun m => ControlStmt m s) s ∧
    Keeps (fun _ _ s' => Lockstep s') (fun m => WriteStmt m s) s ∧
    Keeps (fun _ _ s' => Lockstep s') (fun m => IfStmt m s) s ∧
    Keeps (fun _ _ s' => Lockstep s') (fun m => AssignStmt m s) s ∧
    Keeps (fun _ _ s' => Lockstep s') (fun m => ExprList m s) s ∧
    Keeps (fun _ _ s' => Lockstep s') (fun m => Expr m s) s ∧
    Keeps (fun _ _ s' => Lockstep s') (fun m => Term m s) s ∧
    Keeps (fun _ _ s' => Lockstep s') (fun m => SFactor m s) s ∧
    Keeps (fun _ _ s' => Lockstep s') (fun m => Factor m s sign) s ∧
    Keeps (fun _ _ s' => Lockstep s') (fun m => LogicExpr m s) s ∧
    Keeps (fun _ _ s' => Lockstep s') (fun _ => Var s) s := by
  have hc := lockstep_compat
  have hD := lockstep_DeclStmt
  refine ⟨fun input line => ?_, ?_, ?_, ?_, ?_, fun htok => ?_, ?_, ?_, ?_, ?_, ?_, ?_, ?_, ?_,
    ?_, ?_, ?_⟩
  · refine ⟨fun x => by simp [initState], fun x v hv => ?_, fun x K hK => ?_⟩
    · simp [initState] at hv
    · simp [initState] at hK
  · exact lockstep_of h (returns_Prog s) (fun m => hc.sat_Prog_of hD m s)
  · exact lockstep_of h (returns_StmtList s) (fun m => hc.sat_StmtList_of hD m s)
  · exact lockstep_of h (returns_Stmt s) (fun m => hc.sat_Stmt_of hD m s)
  · exact lockstep_of h (returns_DeclStmt s) (fun m => hD m s)
  · exact lockstep_of h (returns_IdentList _ s tok le_rfl)
      (fun m => lockstep_IdentList tok htok m s)
  · exact lockstep_of h (returns_ControlStmt s) (fun m => hc.sat_ControlStmt m s)
  · exact lockstep_of h (returns_WriteStmt s) (fun m => hc.sat_WriteStmt m s)
  · exact lockstep_of h (returns_IfStmt s) (fun m => hc.sat_IfStmt m s)
  · exact lockstep_of h (returns_AssignStmt s) (fun m => hc.sat_AssignStmt m s)
  · exact lockstep_of h (returns_ExprList s) (fun m => hc.sat_ExprList m s)
  · exact lockstep_of h (returns_Expr s) (fun m => hc.sat_Expr m s)
  · exact lockstep_of h (returns_Term s) (fun m => hc.sat_Term m s)
  · exact lockstep_of h (returns_SFactor s) (fun m => hc.sat_SFactor m s)
  · exact lockstep_of h (returns_Factor s sign) (fun m => hc.sat_Factor m s sign)
  · exact lockstep_of h (returns_LogicExpr s) (fun m => hc.sat_LogicExpr m s)
  · exact lockstep_of h (returns_Var s) (fun _ => hc.sat_Var s)

/-- Witness for C19: the state `Prog` leaves on
`PROGRAM P INT a; a = 5; END PROGRAM`, started from empty stores, is in
lockstep. -/
theorem stores_in_lockstep_witness :
    Lockstep (initState declareAndAssign 1) ∧
    ∃ (n : Nat) (b : Bool) (s' : PState),
      (∀ m, n ≤ m → Prog m (initState declareAndAssign 1) = .done b s') ∧ Lockstep s' := by
  have h0 : Lockstep (initState declareAndAssign 1) :=
    ⟨fun x => by simp [initState], fun x v hv => by simp [initState] at hv,
      fun x K hK => by simp [initState] at hK⟩
  obtain ⟨⟨n, b, s', hn⟩, hall⟩ :=
    (stores_in_lockstep (initState declareAndAssign 1) ⟨.INT, "INT", 1⟩ 1 h0).2.1
  exact ⟨h0, n, b, s', hn, hall n b s' (hn n le_rfl)⟩

/-- C20 (a failed declaration is not rolled back).  Let an identifier list
start with `k - 1` pairwise distinct identifiers (`first` and those of
`more`), followed by a comma and an entry `bad` that cannot be declared: a
token that is no `IDENT`, or an identifier that is already declared, by an
earlier position of this list or before it.

* In a state `s` where the `k - 1` names are fresh, `IdentList` returns
  `false` (for every depth budget of at least `k`) with one diagnostic on the
  line of `bad`, and the state it leaves has the `k - 1` names registered:
  marked declared and mapped to the kind of the type token; every other name
  is as before.  `DeclStmt`, reading the type token first, returns `false`
  with the same state.
* `Prog`, on `PROGRAM`, a program name, zero or more groups `Stmt ;` that do
  not declare the `k - 1` names, a type token and this list, returns `false`
  for every large enough depth budget, and the `k - 1` names are registered
  with the kind of the type token in the state it leaves. -/
theorem failed_declaration_not_rolled_back
    (more : List ((LexItem × Int) × (LexItem × Int))) (tok : LexItem)
    (first comma bad : LexItem × Int) (rest : List (LexItem × Int))
    (h1 : first.1.GetToken = .IDENT)
    (hm : ∀ p ∈ more, p.1.1.GetToken = .COMMA ∧ p.2.1.GetToken = .IDENT)
    (hnd : (first.1.GetLexeme :: more.map fun p => p.2.1.GetLexeme).Nodup)
    (hc : comma.1.GetToken = .COMMA) :
    (∀ s : PState, s.pushed = none →
      s.input = first :: (commaIdents more ++ comma :: bad :: rest) →
      (∀ x ∈ first.1.GetLexeme :: more.map fun p => p.2.1.GetLexeme, s.defVar x = none) →
      (bad.1.GetToken ≠ .IDENT ∨
        bad.1.GetLexeme ∈ (first.1.GetLexeme :: more.map fun p => p.2.1.GetLexeme) ∨
        (s.defVar bad.1.GetLexeme).isSome = true) →
      ∃ (s' : PState) (msg : String),
        (msg = "Invalid Identifier List" ∨ msg = "Variable Redefinition") ∧
        (∀ j, IdentList (more.length + 2 + j) s tok = .done false s') ∧
        (∀ j s0, GetNextToken s0 = (tok, s) → tok.GetToken = .INT ∨ tok.GetToken = .FLOAT →
          DeclStmt (more.length + 2 + j) s0 = .done false s') ∧
        s'.output = s.output ++ [(bad.2, msg)] ∧
        (∀ x ∈ first.1.GetLexeme :: more.map fun p => p.2.1.GetLexeme,
          s'.defVar x = some true ∧ s'.SymTable x = some tok.GetToken) ∧
        (∀ x, x ∉ (first.1.GetLexeme :: more.map fun p => p.2.1.GetLexeme) →
          s'.defVar x = s.defVar x ∧ s'.SymTable x = s.SymTable x)) ∧
    (∀ (D1 : List String) (l : List LexItem) (pl : List (LexItem × Int))
      (p name : LexItem × Int) (tl line : Int), StmtSemis [] l D1 → pl.map Prod.fst = l →
      p.1.GetToken = .PROGRAM → name.1.GetToken = .IDENT →
      tok.GetToken = .INT ∨ tok.GetToken = .FLOAT →
      (∀ x ∈ first.1.GetLexeme :: more.map fun p => p.2.1.GetLexeme, x ∉ D1) →
      (bad.1.GetToken ≠ .IDENT ∨
        bad.1.GetLexeme ∈ (first.1.GetLexeme :: more.map fun p => p.2.1.GetLexeme) ∨
        bad.1.GetLexeme ∈ D1) →
      ∃ (n : Nat) (s' : PState),
        (∀ m, n ≤ m → Prog m (initState (p :: name :: (pl ++ (tok, tl) :: first ::
          (commaIdents more ++ comma :: bad :: rest))) line) = .done false s') ∧
        ∀ x ∈ first.1.GetLexeme :: more.map fun p => p.2.1.GetLexeme,
          s'.defVar x = some true ∧ s'.SymTable x = some tok.GetToken) := by
  constructor
  · intro s hp hin hfresh hbad
    obtain ⟨msg, hmsg, hrun⟩ := IdentList_fails_seek more 0 tok first comma bad rest s s.line
      h1 hm hnd hfresh hc hbad
    have hs : s.seek none (first :: (commaIdents more ++ comma :: bad :: rest)) s.line = s := by
      rw [← hp, ← hin]; rfl
    rw [hs] at hrun
    have hall : ∀ j, IdentList (more.length + 2 + j) s tok = .done false
        (ParseError bad.2 msg
          ((s.declareAll (first.1.GetLexeme :: more.map fun p => p.2.1.GetLexeme)
            tok.GetToken).seek none rest bad.2)) := by
      intro j
      have := below_stable (F := fun k => IdentList k s tok) (fun k => below_IdentList k s tok)
        (n := more.length + 2 + 0) (by simp only [hrun]; simp) (more.length + 2 + j) (by omega)
      simp only [this, hrun]
    refine ⟨_, msg, hmsg, hall, fun j s0 hs0 htok => ?_, ?_, fun x hx => ⟨?_, ?_⟩,
      fun x hx => ⟨?_, ?_⟩⟩
    · have hne : ¬ (tok.GetToken ≠ .INT ∧ tok.GetToken ≠ .FLOAT) := by
        rcases htok with h | h <;> simp [h]
      simp only [DeclStmt, hs0, hne, if_false]
      exact hall j
    · simp [ParseError, declareAll_output]
    · simp only [ParseError, seek_defVar]
      rw [declareAll_defVar, if_pos hx]
    · simp only [ParseError, seek_SymTable]
      rw [declareAll_SymTable, if_pos hx]
    · simp only [ParseError, seek_defVar]
      rw [declareAll_defVar, if_neg hx]
    · simp only [ParseError, seek_SymTable]
      rw [declareAll_SymTable, if_neg hx]
  · intro D1 l pl p name tl line hl hpl hp hname htok hfresh hbad
    have hag : Agree (initState (p :: name :: (pl ++ (tok, tl) :: first ::
        (commaIdents more ++ comma :: bad :: rest))) line) [] := by
      intro y; simp [initState]
    have hx : ((tok, tl) : LexItem × Int).1.GetToken ≠ .END := by
      rcases htok with h | h <;> simp [h]
    obtain ⟨s1, hag1, -, -, hcont⟩ := StmtSemis_continue hl _ name.2 pl (tok, tl)
      (first :: (commaIdents more ++ comma :: bad :: rest)) hpl hag hx
    have hfresh1 : ∀ x ∈ first.1.GetLexeme :: more.map fun p => p.2.1.GetLexeme,
        s1.defVar x = none := by
      intro x hx
      have := hag1.fresh (hfresh x hx)
      cases hd : s1.defVar x <;> simp_all
    have hbad1 : bad.1.GetToken ≠ .IDENT ∨
        bad.1.GetLexeme ∈ (first.1.GetLexeme :: more.map fun p => p.2.1.GetLexeme) ∨
        (s1.defVar bad.1.GetLexeme).isSome = true := by
      rcases hbad with h | h | h
      · exact Or.inl h
      · exact Or.inr (Or.inl h)
      · exact Or.inr (Or.inr ((hag1 _).2 h))
    obtain ⟨msg, -, hrun⟩ := IdentList_fails_seek more 0 tok first comma bad rest s1 tl
      h1 hm hnd hfresh1 hc hbad1
    have hall : ∀ m, more.length + 2 ≤ m →
        IdentList m (s1.seek none (first :: (commaIdents more ++ comma :: bad :: rest)) tl) tok
          = .done false (ParseError bad.2 msg
            ((s1.declareAll (first.1.GetLexeme :: more.map fun p => p.2.1.GetLexeme)
              tok.GetToken).seek none rest bad.2)) := by
      intro m hm
      have := below_stable (F := fun k => IdentList k
          (s1.seek none (first :: (commaIdents more ++ comma :: bad :: rest)) tl) tok)
        (fun k => below_IdentList k _ tok)
        (n := more.length + 2 + 0) (by simp only [hrun]; simp) m (by omega)
      simp only [this, hrun]
    obtain ⟨n, hn⟩ := hcont (.done false (ParseError bad.2 msg
        ((s1.declareAll (first.1.GetLexeme :: more.map fun p => p.2.1.GetLexeme)
          tok.GetToken).seek none rest bad.2))) (more.length + 2) (fun m hm => by
      have hne : ¬ (tok.GetToken ≠ .INT ∧ tok.GetToken ≠ .FLOAT) := by
        rcases htok with h | h <;> simp [h]
      simp only [StmtList, Stmt, Get_seek_some, htok, if_true, pushBack_seek, DeclStmt, hne,
        if_false, hall m hm, andThen_false])
    refine ⟨n, ParseError bad.2 msg
      ((s1.declareAll (first.1.GetLexeme :: more.map fun p => p.2.1.GetLexeme)
        tok.GetToken).seek none rest bad.2), fun m hm => ?_, fun x hx => ⟨?_, ?_⟩⟩
    · have := Prog_of_StmtList_false m _ _ p name _ line hp hname (hn m hm)
      simpa [PState.seek, initState] using this
    · simp only [ParseError, seek_defVar]
      rw [declareAll_defVar, if_pos hx]
    · simp only [ParseError, seek_SymTable]
      rw [declareAll_SymTable, if_pos hx]

/-- Witness for C20: scenario (d), `PROGRAM P INT a, a; END PROGRAM`.  The list
fails at its second identifier, and `a` stays registered as `INT` after `Prog`
has returned `false`. -/
theorem failed_declaration_not_rolled_back_witness :
    (entry .IDENT "a" 1).1.GetToken = .IDENT ∧
    [(entry .IDENT "a" 1).1.GetLexeme].Nodup ∧
    (entry .COMMA "," 1).1.GetToken = .COMMA ∧
    ∃ (n : Nat) (s' : PState),
      (∀ m, n ≤ m → Prog m (initState declareTwice 1) = .done false s') ∧
      s'.defVar "a" = some true ∧ s'.SymTable "a" = some .INT :=
  ⟨rfl, by simp, rfl, by
    obtain ⟨n, s', h1, h2⟩ :=
      (failed_declaration_not_rolled_back [] ⟨.INT, "INT", 1⟩ (entry .IDENT "a" 1)
        (entry .COMMA "," 1) (entry .IDENT "a" 1)
        [entry .SEMICOL ";" 1, entry .END "END" 1, entry .PROGRAM "PROGRAM" 1]
        rfl (by simp) (by simp) rfl).2 [] [] [] (entry .PROGRAM "PROGRAM" 1)
        (entry .IDENT "P" 1) 1 1 (.nil []) rfl rfl rfl (Or.inl rfl) (by simp)
        (Or.inr (Or.inl (by simp)))
    exact ⟨n, s', h1, h2 "a" (by simp [entry, LexItem.GetLexeme])⟩⟩

end PA2
